import Mathlib

/-!
# The connection hub of `services/websocket.go`

A shallow embedding of the real-time hub (`WebSocketService`) and of the two
per-connection flows (`readPump`, `writePump`), followed by theorems about them.

Modelling conventions.

* Go `uint` values are natural numbers; the hub only compares and stores them.
* A `[]byte` is a list of naturals (one per byte); the `nil` slice is the empty list.
* A `*Client` is represented by the value of its fields: the code never assigns to a
  field of a `Client` after the struct literal in `HandleWebSocket`.  The `Send` and
  `Conn` fields are references, held as indices (`Send` into the heap of channels).
* A buffered channel is its queued items (oldest first), its capacity and its closed
  flag.  The heap of channels is the list `chans`; an index outside that list is the
  `nil` channel.
* The three unbuffered control channels of the service (`register`, `unregister`,
  `broadcast`) carry the operations `HubOp`; one iteration of the `for/select` loop of
  `StartHub` is `hubStep`.  The `sync.RWMutex` is taken and released inside each branch
  and nothing else touches the map, so it does not appear.
* A run-time panic of the hub goroutine (which ends the whole process) is the error
  side of `Except Fault`.
* `encoding/json` is library code: `json.Marshal` and `json.Unmarshal` are parameters
  (`marshal`, `unmarshal`) of the functions that call them.  Namespace `json` gives
  `Marshal` for a `Message`, following the struct tags of `Message` and the field loop,
  string quoting and integer formatting of the library; the encoder of the value held
  in the `interface{}` field stays a parameter.

The file also embeds the handler of the `/ws` route (`routes/routes.go`, namespace
`routes`, with `strconv.ParseUint(s, 10, 32)` in namespace `strconv`) and
`AuthHandler.Login` (`handlers/auth.go`, namespace `handlers`).
-/

namespace services

/-- A `[]byte`. -/
abbrev Bytes := List Nat

/-- A value held in a Go `interface{}` after JSON decoding (the `nil` interface is the
`none` of `Message.Data`).  Numbers are `float64`s, kept by their bit pattern: the hub
never looks inside a payload. -/
inductive Payload where
  | bool (b : Bool)
  | number (bits : Nat)
  | string (s : String)
  | array (xs : List Payload)
  | object (kvs : List (String × Payload))

/-- The struct `Message` (field `Type` is spelled `Type_`). -/
structure Message where
  Type_ : String
  FromUserID : Nat
  ToUserID : Nat
  Content : String
  Timestamp : String
  Data : Option Payload

/-- The struct `Client`; `Conn` and `Send` are references. -/
structure Client where
  ID : Nat
  UserID : Nat
  Username : String
  Conn : Nat
  Send : Nat
  deriving DecidableEq, Repr

/-- A `chan []byte`: queued items oldest first, capacity, closed flag. -/
structure Chan where
  buf : List Bytes
  cap : Nat
  closed : Bool
  deriving DecidableEq, Repr

/-- The run-time panics the hub loop can raise. -/
inductive Fault where
  | closeOfClosedChannel
  | closeOfNilChannel
  | sendOnClosedChannel
  deriving DecidableEq, Repr

/-- The struct `WebSocketService`: the `clients` map (a list of key/value pairs; the
order of the list is the order in which a `range` visits the map) together with the
heap of outbound channels its clients refer to. -/
structure WebSocketService where
  clients : List (Nat × Client)
  chans : List Chan
  deriving DecidableEq, Repr

/-- What the hub goroutine receives on `s.register`, `s.unregister`, `s.broadcast`. -/
inductive HubOp where
  | register (client : Client)
  | unregister (client : Client)
  | broadcast (message : Message)

/-! ## Go maps and channels -/

/-- The map read `v, ok := m[key]`. -/
def mapGet : List (Nat × Client) → Nat → Option Client
  | [], _ => none
  | (k, c) :: rest, key => if k = key then some c else mapGet rest key

/-- The builtin `delete(m, key)`. -/
def mapDelete (m : List (Nat × Client)) (key : Nat) : List (Nat × Client) :=
  m.filter (fun p => decide (p.1 ≠ key))

/-- The map write `m[key] = c`. -/
def mapSet (m : List (Nat × Client)) (key : Nat) (c : Client) : List (Nat × Client) :=
  (key, c) :: mapDelete m key

/-- The builtin `close(ch)`: panics on a nil channel and on a closed channel. -/
def chanClose (chans : List Chan) (i : Nat) : Except Fault (List Chan) :=
  match chans[i]? with
  | none => .error .closeOfNilChannel
  | some ch =>
    if ch.closed then .error .closeOfClosedChannel
    else .ok (chans.set i { ch with closed := true })

/-- Outcome of the send case of a `select` that has a `default` case. -/
inductive SendResult where
  | sent (chans : List Chan)
  | wouldBlock
  | fault (f : Fault)

/-- The statement `select { case ch <- data: default: }`: a send on a closed channel
panics, a send on a nil channel is never ready, a send on a buffered channel goes
through exactly when the buffer has room. -/
def trySend (chans : List Chan) (i : Nat) (data : Bytes) : SendResult :=
  match chans[i]? with
  | none => .wouldBlock
  | some ch =>
    if ch.closed then .fault .sendOnClosedChannel
    else if ch.buf.length < ch.cap then .sent (chans.set i { ch with buf := ch.buf ++ [data] })
    else .wouldBlock

/-! ## The service -/

/-- The function `NewWebSocketService`. -/
def NewWebSocketService : WebSocketService :=
  { clients := [], chans := [] }

/-- The method `serializeMessage`: the marshalled bytes, or `nil` after a marshal error. -/
def serializeMessage (marshal : Message → Option Bytes) (message : Message) : Bytes :=
  match marshal message with
  | some data => data
  | none => []

/-- The `range s.clients` loop of the `broadcast` branch of `StartHub`, over the entries
still to be visited.  An entry deleted earlier in the loop is not produced. -/
def routeLoop (marshal : Message → Option Bytes) (message : Message) :
    List (Nat × Client) → WebSocketService → Except Fault WebSocketService
  | [], s => .ok s
  | (k, client) :: rest, s =>
    if (mapGet s.clients k).isSome then
      if message.Type_ = "private_message" ∧ client.UserID = message.ToUserID then
        match trySend s.chans client.Send (serializeMessage marshal message) with
        | .sent chans => routeLoop marshal message rest { s with chans := chans }
        | .fault f => .error f
        | .wouldBlock =>
          match chanClose s.chans client.Send with
          | .error f => .error f
          | .ok chans =>
            routeLoop marshal message rest
              { clients := mapDelete s.clients client.ID, chans := chans }
      else routeLoop marshal message rest s
    else routeLoop marshal message rest s

/-- One iteration of the `for { select { ... } }` loop of `StartHub`. -/
def hubStep (marshal : Message → Option Bytes) (s : WebSocketService) :
    HubOp → Except Fault WebSocketService
  | .register client => .ok { s with clients := mapSet s.clients client.ID client }
  | .unregister client =>
    match mapGet s.clients client.ID with
    | some _ =>
      match chanClose s.chans client.Send with
      | .error f => .error f
      | .ok chans => .ok { clients := mapDelete s.clients client.ID, chans := chans }
    | none => .ok s
  | .broadcast message => routeLoop marshal message s.clients s

/-- The hub loop run over the operations it receives, in arrival order; it stops at the
first panic. -/
def StartHub (marshal : Message → Option Bytes) :
    WebSocketService → List HubOp → Except Fault WebSocketService
  | s, [] => .ok s
  | s, op :: ops =>
    match hubStep marshal s op with
    | .error f => .error f
    | .ok s' => StartHub marshal s' ops

/-- The method `SendPrivateMessage`: the envelope it builds and sends on `s.broadcast`. -/
def SendPrivateMessage (fromUserID toUserID : Nat) (content : String) : HubOp :=
  .broadcast
    { Type_ := "private_message"
      FromUserID := fromUserID
      ToUserID := toUserID
      Content := content
      Timestamp := ""
      Data := none }

/-! ## The connection flows -/

/-- What a connection flow does that is visible outside it, in program order: a send on
one of the three control channels, a method call on the connection or on the frame
writer it handed out, a `go` statement.  Calls of `log.Printf` are left out. -/
inductive Effect where
  | send (op : HubOp)
  | nextWriter (conn : Nat)
  | write (conn : Nat) (data : Bytes)
  | closeWriter (conn : Nat)
  | writeCloseMessage (conn : Nat)
  | connClose (conn : Nat)
  | goWritePump (client : Client)
  | goReadPump (client : Client)

/-- The struct literal of `HandleWebSocket`, with the channel `make(chan []byte, 256)`
allocated at the next free index of the heap. -/
def newClient (s : WebSocketService) (conn userID : Nat) (username : String) : Client :=
  { ID := userID, UserID := userID, Username := username, Conn := conn, Send := s.chans.length }

/-- The method `HandleWebSocket`; `upgrade` is the result of `upgrader.Upgrade`.  It
returns the heap after the `make` and what the call does, in order. -/
def HandleWebSocket (s : WebSocketService) (upgrade : Except String Nat) (userID : Nat)
    (username : String) : WebSocketService × List Effect :=
  match upgrade with
  | .error _ => (s, [])
  | .ok conn =>
    let client := newClient s conn userID username
    ({ s with chans := s.chans ++ [{ buf := [], cap := 256, closed := false }] },
      [.send (.register client), .goWritePump client, .goReadPump client])

/-- A flow so far: what it did, and whether it has returned (its deferred function
included) or is still blocked in its loop. -/
structure Flow where
  effects : List Effect
  returned : Bool

/-- Result of one `client.Conn.ReadMessage()` call. -/
inductive ReadResult where
  | message (data : Bytes)
  | err

/-- The method `readPump`, over the results of its successive `ReadMessage` calls. -/
def readPump (unmarshal : Bytes → Option Message) (client : Client) :
    List ReadResult → Flow
  | [] => { effects := [], returned := false }
  | .err :: _ =>
    { effects := [.send (.unregister client), .connClose client.Conn], returned := true }
  | .message data :: rest =>
    match unmarshal data with
    | none => readPump unmarshal client rest
    | some msg =>
      let next := readPump unmarshal client rest
      { next with
        effects := .send (.broadcast { msg with FromUserID := client.UserID }) :: next.effects }

/-- Result of one receive `message, ok := <-client.Send` of `writePump`, with the
outcome of the two fallible writer calls that follow a received item. -/
inductive RecvResult where
  | closed
  | item (message : Bytes) (nextWriterErr : Bool) (closeErr : Bool)

/-- The method `writePump`, over the results of its successive receives. -/
def writePump (client : Client) : List RecvResult → Flow
  | [] => { effects := [], returned := false }
  | .closed :: _ =>
    { effects := [.writeCloseMessage client.Conn, .connClose client.Conn,
        .send (.unregister client)],
      returned := true }
  | .item message nextWriterErr closeErr :: rest =>
    if nextWriterErr then
      { effects := [.nextWriter client.Conn, .connClose client.Conn,
          .send (.unregister client)],
        returned := true }
    else if closeErr then
      { effects := [.nextWriter client.Conn, .write client.Conn message,
          .closeWriter client.Conn, .connClose client.Conn, .send (.unregister client)],
        returned := true }
    else
      let next := writePump client rest
      { next with
        effects := .nextWriter client.Conn :: .write client.Conn message ::
          .closeWriter client.Conn :: next.effects }

/-- The operations a flow submits to the hub, in order. -/
def hubOps : List Effect → List HubOp
  | [] => []
  | .send op :: rest => op :: hubOps rest
  | _ :: rest => hubOps rest

/-- Number of `Conn.Close()` calls on connection `conn` among the effects. -/
def connCloses (conn : Nat) : List Effect → Nat
  | [] => 0
  | .connClose c :: rest => (if c = conn then 1 else 0) + connCloses conn rest
  | _ :: rest => connCloses conn rest

/-- Number of `s.unregister <- client` sends for `client` among the effects. -/
def unregisters (client : Client) : List Effect → Nat
  | [] => 0
  | .send (.unregister c) :: rest => (if c = client then 1 else 0) + unregisters client rest
  | _ :: rest => unregisters client rest

/-! ## States the hub can be in -/

/-- The outbound queue at index `i` is an open channel of capacity 256. -/
def openQueue (chans : List Chan) (i : Nat) : Bool :=
  match chans[i]? with
  | some ch => !ch.closed && ch.cap == 256
  | none => false

/-- The shape every registry built through `HandleWebSocket` has while the hub runs:
each entry sits under its client's `ID`, which is also its `UserID`; no key occurs
twice; every registered client's queue is an open channel of capacity 256; and no two
entries share a queue.  Theorem `reachable_wellFormed` shows that every state the hub
reaches from `NewWebSocketService` has this shape. -/
def WellFormed (s : WebSocketService) : Prop :=
  (∀ p ∈ s.clients, p.2.ID = p.1 ∧ p.2.UserID = p.1) ∧
  (s.clients.map Prod.fst).Nodup ∧
  (∀ p ∈ s.clients, openQueue s.chans p.2.Send = true) ∧
  (∀ p ∈ s.clients, ∀ q ∈ s.clients, p.2.Send = q.2.Send → p = q)

instance (s : WebSocketService) : Decidable (WellFormed s) := by
  unfold WellFormed; infer_instance

/-- A stand-in for `json.Marshal`, used only to evaluate the definitions on examples:
the bytes of the `content` field. -/
def sampleMarshal (message : Message) : Option Bytes :=
  some (message.Content.toList.map Char.toNat)

/-- What the body of the range loop does to a client that is the recipient: the
non-blocking send, and on `default` the close and the delete. -/
def routeOne (marshal : Message → Option Bytes) (message : Message) (s : WebSocketService)
    (client : Client) : Except Fault WebSocketService :=
  match trySend s.chans client.Send (serializeMessage marshal message) with
  | .sent chans => .ok { s with chans := chans }
  | .fault f => .error f
  | .wouldBlock =>
    match chanClose s.chans client.Send with
    | .error f => .error f
    | .ok chans => .ok { clients := mapDelete s.clients client.ID, chans := chans }

/-! ## The hub together with its connections -/

/-- The receive `message, ok := <-ch` of a writer flow, as far as the channel is
concerned: the oldest queued item, if any, leaves the buffer. -/
def chanRecv (chans : List Chan) (i : Nat) : List Chan :=
  match chans[i]? with
  | none => chans
  | some ch => chans.set i { ch with buf := ch.buf.tail }

/-- What happens around the hub, in the order the hub and the heap see it: a whole
`HandleWebSocket` call (the send on the unbuffered `s.register` returns once the hub has
taken the client; the channel the call makes is referred to by nothing else until then,
so the call is taken as one step), an operation sent by a flow or by
`SendPrivateMessage` reaching the hub, a writer flow receiving from its queue. -/
inductive Event where
  | connect (upgrade : Except String Nat) (userID : Nat) (username : String)
  | hub (op : HubOp)
  | recv (i : Nat)

/-- One event. -/
def systemStep (marshal : Message → Option Bytes) (s : WebSocketService) :
    Event → Except Fault WebSocketService
  | .connect upgrade userID username =>
    let r := HandleWebSocket s upgrade userID username
    StartHub marshal r.1 (hubOps r.2)
  | .hub op => hubStep marshal s op
  | .recv i => .ok { s with chans := chanRecv s.chans i }

/-- A sequence of events, stopping at the first panic of the hub. -/
def run (marshal : Message → Option Bytes) :
    WebSocketService → List Event → Except Fault WebSocketService
  | s, [] => .ok s
  | s, e :: es =>
    match systemStep marshal s e with
    | .error f => .error f
    | .ok s' => run marshal s' es

/-- A stand-in for `json.Unmarshal`, used only to evaluate the definitions on examples:
a two-byte frame decodes to a private message carrying the two bytes as sender and
recipient id, any other frame fails to decode. -/
def sampleUnmarshal : Bytes → Option Message
  | [f, t] =>
    some { Type_ := "private_message", FromUserID := f, ToUserID := t, Content := "",
           Timestamp := "", Data := none }
  | _ => none

/-- Keys and user ids agree and no key occurs twice. -/
def Keyed (m : List (Nat × Client)) : Prop :=
  (∀ p ∈ m, p.2.ID = p.1 ∧ p.2.UserID = p.1) ∧ (m.map Prod.fst).Nodup

/-- The events connection lifecycles can produce, given the clients `made` so far by
`HandleWebSocket` (oldest first): only `HandleWebSocket` sends on `s.register`, and an
unregister is sent only by a flow of a client that `HandleWebSocket` has built. -/
def lifecycle : List Client → List Event → Bool
  | _, [] => true
  | made, .connect (.ok conn) userID username :: es =>
    lifecycle (made ++ [⟨userID, userID, username, conn, made.length⟩]) es
  | made, .connect (.error _) _ _ :: es => lifecycle made es
  | _, .hub (.register _) :: _ => false
  | made, .hub (.unregister c) :: es => decide (c ∈ made) && lifecycle made es
  | made, .hub (.broadcast _) :: es => lifecycle made es
  | made, .recv _ :: es => lifecycle made es

/-- What holds of the hub state and of the clients `made` so far while the hub runs:
the `i`-th client made owns the `i`-th channel and has `ID = UserID`; every registered
client was made by `HandleWebSocket`; the registry is keyed; every registered client's
queue is an open channel of capacity 256; every channel has capacity 256 and holds at
most 256 items. -/
structure Invariant (made : List Client) (s : WebSocketService) : Prop where
  made_send : ∀ (i : Nat) (c : Client), made[i]? = some c → c.Send = i ∧ c.ID = c.UserID
  made_len : made.length = s.chans.length
  registered : ∀ p ∈ s.clients, p.2 ∈ made
  keyed : Keyed s.clients
  queues : ∀ p ∈ s.clients, openQueue s.chans p.2.Send = true
  bounded : ∀ ch ∈ s.chans, ch.cap = 256 ∧ ch.buf.length ≤ 256

/-! ## Example states -/

/-- An empty open outbound queue, as `make(chan []byte, 256)` returns it. -/
def freshQueue : Chan := { buf := [], cap := 256, closed := false }

/-- The client `HandleWebSocket` builds for user 1 ("alice") on the new service. -/
def alice : Client := { ID := 1, UserID := 1, Username := "alice", Conn := 0, Send := 0 }

/-- The client `HandleWebSocket` builds for user 2 ("bob") once alice is connected. -/
def bob : Client := { ID := 2, UserID := 2, Username := "bob", Conn := 1, Send := 1 }

/-- The service with alice and bob registered and nothing queued. -/
def aliceBob : WebSocketService :=
  { clients := [(2, bob), (1, alice)], chans := [freshQueue, freshQueue] }

/-- The same service with bob's queue filled to its capacity by a stalled writer. -/
def aliceBobStalled : WebSocketService :=
  { clients := [(2, bob), (1, alice)],
    chans := [freshQueue, { buf := List.replicate 256 [], cap := 256, closed := false }] }

/-- The client `HandleWebSocket` builds when user 1 connects again after `alice`. -/
def aliceAgain : Client :=
  { ID := 1, UserID := 1, Username := "alice", Conn := 1, Send := 1 }

/-- The envelope of the example scenario. -/
def hiMessage : Message :=
  { Type_ := "private_message", FromUserID := 1, ToUserID := 2, Content := "hi",
    Timestamp := "", Data := none }

/-! ## The writer's side of a queue -/

/-- The value a receive from channel `i` yields when an item is queued: the oldest. -/
def chanFront (chans : List Chan) (i : Nat) : Option Bytes :=
  match chans[i]? with
  | some ch => ch.buf.head?
  | none => none

/-- Up to `n` successive receives by the writer flow from channel `i`, nothing else
touching the heap in between: the items received, in the order received. -/
def drain : Nat → List Chan → Nat → List Bytes
  | 0, _, _ => []
  | n + 1, chans, i =>
    match chanFront chans i with
    | none => []
    | some m => m :: drain n (chanRecv chans i) i

/-- The receive results of a writer flow that gets the items `q` one after the other
and whose writes all succeed. -/
def received (q : List Bytes) : List RecvResult :=
  q.map (fun m => RecvResult.item m false false)

/-- The data of the frames written on connection `conn` (the `w.Write` calls), in
order. -/
def written (conn : Nat) : List Effect → List Bytes
  | [] => []
  | .write c data :: rest =>
    if c = conn then data :: written conn rest else written conn rest
  | _ :: rest => written conn rest

/-- Every queue of `s'` holds what it held in `s`, followed by copies of `item`. -/
def OnlyPushed (item : Bytes) (s s' : WebSocketService) : Prop :=
  ∀ (i : Nat) (ch' : Chan), s'.chans[i]? = some ch' →
    ∃ (ch : Chan) (n : Nat), s.chans[i]? = some ch ∧ ch'.buf = ch.buf ++ List.replicate n item

/-- The calls that write the items `q` as text frames on connection `conn`, one frame
per item, in order: `NextWriter(TextMessage)`, `w.Write(item)`, `w.Close()`. -/
def textFrames (conn : Nat) (q : List Bytes) : List Effect :=
  q.flatMap (fun m => [Effect.nextWriter conn, Effect.write conn m, Effect.closeWriter conn])

/-- Number of close frames (`WriteMessage(CloseMessage, ...)`) written on `conn`. -/
def closeFrames (conn : Nat) : List Effect → Nat
  | [] => 0
  | .writeCloseMessage c :: rest => (if c = conn then 1 else 0) + closeFrames conn rest
  | _ :: rest => closeFrames conn rest

instance (m : List (Nat × Client)) : Decidable (Keyed m) := by
  unfold Keyed; infer_instance

/-- The route step as the design states it, a direct lookup of the registry at the
recipient's id instead of a scan: for a `private_message`, nothing happens when the
registry has no entry under `to_user_id`; otherwise the envelope is pushed without
blocking onto that client's queue, and when the queue is full the queue is closed and
the entry under `to_user_id` removed.  Other kinds are not routed. -/
def routeByKey (marshal : Message → Option Bytes) (s : WebSocketService)
    (message : Message) : Except Fault WebSocketService :=
  if message.Type_ = "private_message" then
    match mapGet s.clients message.ToUserID with
    | none => .ok s
    | some client =>
      match trySend s.chans client.Send (serializeMessage marshal message) with
      | .sent chans => .ok { s with chans := chans }
      | .fault f => .error f
      | .wouldBlock =>
        match chanClose s.chans client.Send with
        | .error f => .error f
        | .ok chans =>
          .ok { clients := mapDelete s.clients message.ToUserID, chans := chans }
  else .ok s

end services

/-! # The call `strconv.ParseUint(s, 10, 32)` -/

namespace strconv

/-- The errors of `strconv`: `ErrSyntax` and `ErrRange`. -/
inductive NumError where
  | ErrSyntax
  | ErrRange
  deriving DecidableEq, Repr

/-- The digit a byte stands for in `ParseUint`: `'0'..'9'` are 0 to 9 and a letter, in
either case, is 10 to 35.  (`lower(c)` is `c | ('x' - 'X')`.)  A character outside ASCII
is several bytes of 128 or more, none of which is a digit; here it has no digit value
either, its code being 128 or more. -/
def digitValue (c : Char) : Option Nat :=
  if 48 ≤ c.toNat ∧ c.toNat ≤ 57 then some (c.toNat - 48)
  else if 97 ≤ (c.toNat ||| 32) ∧ (c.toNat ||| 32) ≤ 122 then some ((c.toNat ||| 32) - 97 + 10)
  else none

/-- The `for _, c := range []byte(s)` loop of `ParseUint` for base 10, with `n` the
value accumulated so far (a `uint64`). -/
def parseLoop (cutoff maxVal : Nat) : List Char → Nat → Except NumError Nat
  | [], n => .ok n
  | c :: rest, n =>
    match digitValue c with
    | none => .error .ErrSyntax
    | some d =>
      if d ≥ 10 then .error .ErrSyntax
      else if n ≥ cutoff then .error .ErrRange
      else
        let n10 := (n * 10) % 2 ^ 64
        let n1 := (n10 + d) % 2 ^ 64
        if n1 < n10 ∨ n1 > maxVal then .error .ErrRange
        else parseLoop cutoff maxVal rest n1

/-- The call `strconv.ParseUint(s, 10, 32)`: base 10 (so no prefix and no underscore is
accepted), results up to `1<<32 - 1`. -/
def ParseUint (s : String) : Except NumError Nat :=
  if s = "" then .error .ErrSyntax
  else parseLoop ((2 ^ 64 - 1) / 10 + 1) (2 ^ 32 - 1) s.toList 0

/-- The number a string of decimal digits writes, continuing from `n`. -/
def decimalValue : List Char → Nat → Nat
  | [], n => n
  | c :: rest, n => decimalValue rest (n * 10 + (c.toNat - 48))

/-- The string is a non-empty run of the digits `'0'..'9'`. -/
def isDecimal (s : String) : Prop :=
  s ≠ "" ∧ ∀ c ∈ s.toList, 48 ≤ c.toNat ∧ c.toNat ≤ 57

end strconv

/-! # `json.Marshal` on a `Message` (package `encoding/json`) -/

namespace strconv

/-- Digits of `n`, most significant first, put in front of `acc`; `fuel` bounds the
number of digits. -/
def formatLoop : Nat → Nat → List Char → List Char
  | 0, _, acc => acc
  | fuel + 1, n, acc =>
    if n / 10 = 0 then Char.ofNat (48 + n % 10) :: acc
    else formatLoop fuel (n / 10) (Char.ofNat (48 + n % 10) :: acc)

/-- The call `strconv.AppendUint(nil, n, 10)`: the decimal digits of `n`. -/
def FormatUint (n : Nat) : List Char :=
  formatLoop (n + 1) n []

end strconv

namespace json
open services

/-- The double quote. -/
def dquote : Char := Char.ofNat 34

/-- The backslash. -/
def backslash : Char := Char.ofNat 92

/-- The colon. -/
def colon : Char := Char.ofNat 58

/-- The comma. -/
def comma : Char := Char.ofNat 44

/-- The opening brace. -/
def lbrace : Char := Char.ofNat 123

/-- The closing brace. -/
def rbrace : Char := Char.ofNat 125

/-- The table `hex = "0123456789abcdef"`. -/
def hexDigit (k : Nat) : Char :=
  if k < 10 then Char.ofNat (48 + k) else Char.ofNat (87 + k)

/-- The table `htmlSafeSet`: the ASCII bytes written as they are, which is every byte
from the space on except the double quote, the ampersand, the two angle brackets and
the backslash. -/
def htmlSafe (b : Nat) : Bool :=
  decide (32 ≤ b ∧ b < 128 ∧ b ≠ 34 ∧ b ≠ 38 ∧ b ≠ 60 ∧ b ≠ 62 ∧ b ≠ 92)

/-- What `appendString` (with `escapeHTML`) writes for one character of a string.  A Go
string may hold bytes that are not UTF-8, which are written as U+FFFD; the strings of a
`Message` come out of the JSON decoder, which never leaves such bytes, and a string here
is a sequence of characters. -/
def quoteChar (c : Char) : List Char :=
  if c.toNat < 128 then
    if htmlSafe c.toNat then [c]
    else if c.toNat = 92 ∨ c.toNat = 34 then [backslash, c]
    else if c.toNat = 8 then [backslash, Char.ofNat 98]
    else if c.toNat = 12 then [backslash, Char.ofNat 102]
    else if c.toNat = 10 then [backslash, Char.ofNat 110]
    else if c.toNat = 13 then [backslash, Char.ofNat 114]
    else if c.toNat = 9 then [backslash, Char.ofNat 116]
    else [backslash, Char.ofNat 117, Char.ofNat 48, Char.ofNat 48,
      hexDigit (c.toNat / 16), hexDigit (c.toNat % 16)]
  else if c.toNat = 8232 ∨ c.toNat = 8233 then
    [backslash, Char.ofNat 117, Char.ofNat 50, Char.ofNat 48, Char.ofNat 50,
      hexDigit (c.toNat % 16)]
  else [c]

/-- The function `appendString`: a string as a JSON string literal. -/
def quote (s : String) : List Char :=
  dquote :: (s.toList.flatMap quoteChar ++ [dquote])

/-- The value of a struct field as the encoder meets it: a `string`, a `uint`, or an
`interface{}` (nil, or holding a decoded JSON value). -/
inductive FieldValue where
  | string (s : String)
  | uint (n : Nat)
  | iface (p : Option Payload)

/-- The fields of the struct `Message` as `encoding/json` sees them: the name given by
the `json` tag, whether the tag has `omitempty`, and the value, in declaration order. -/
def messageFields (m : Message) : List (String × Bool × FieldValue) :=
  [("type", false, .string m.Type_),
   ("from_user_id", false, .uint m.FromUserID),
   ("to_user_id", false, .uint m.ToUserID),
   ("content", false, .string m.Content),
   ("timestamp", false, .string m.Timestamp),
   ("data", true, .iface m.Data)]

/-- The function `isEmptyValue`: the empty string, zero, the nil interface. -/
def isEmptyValue : FieldValue → Bool
  | .string s => decide (s = "")
  | .uint n => decide (n = 0)
  | .iface p => p.isNone

/-- The encoder of one field value.  `encodeValue` is the encoder of the value held in
an interface, which fails on values JSON cannot represent. -/
def encodeField (encodeValue : Payload → Option (List Char)) : FieldValue → Option (List Char)
  | .string s => some (quote s)
  | .uint n => some (strconv.FormatUint n)
  | .iface none => some [Char.ofNat 110, Char.ofNat 117, Char.ofNat 108, Char.ofNat 108]
  | .iface (some p) => encodeValue p

/-- The field loop of `structEncoder.encode`: `next` is the byte to write before the
next field that is not left out (the opening brace at first, a comma afterwards).  The result is what was
written and the value of `next` after the loop. -/
def encodeFields (encodeValue : Payload → Option (List Char)) :
    List (String × Bool × FieldValue) → Char → Option (List Char × Char)
  | [], next => some ([], next)
  | (name, omitEmpty, value) :: rest, next =>
    if omitEmpty && isEmptyValue value then encodeFields encodeValue rest next
    else
      match encodeField encodeValue value with
      | none => none
      | some v =>
        match encodeFields encodeValue rest comma with
        | none => none
        | some (out, last) => some (next :: (quote name ++ colon :: (v ++ out)), last)

/-- The text `json.Marshal(message)` produces, `none` when it returns an error. -/
def marshalText (encodeValue : Payload → Option (List Char)) (m : Message) :
    Option (List Char) :=
  match encodeFields encodeValue (messageFields m) lbrace with
  | none => none
  | some (out, next) =>
    if next = lbrace then some [lbrace, rbrace] else some (out ++ [rbrace])

/-- The UTF-8 bytes of a text. -/
def utf8 (text : List Char) : Bytes :=
  text.flatMap (fun c => (String.utf8EncodeChar c).map UInt8.toNat)

/-- The call `json.Marshal(message)` for a `Message`. -/
def Marshal (encodeValue : Payload → Option (List Char)) (m : Message) : Option Bytes :=
  (marshalText encodeValue m).map utf8

/-- A stand-in for the encoder of interface values, used only to evaluate examples: it
encodes booleans and fails on everything else. -/
def sampleEncodeValue : Payload → Option (List Char)
  | .bool true => some "true".toList
  | .bool false => some "false".toList
  | _ => none

end json

/-! # JSON text (RFC 8259), as far as `Marshal` writes it for a `Message` -/

namespace json
open services

/-- The character a two-character escape stands for, by character code: the double
quote, the backslash and the slash stand for themselves, `b`, `f`, `n`, `r` and `t` for
backspace, form feed, line feed, carriage return and tab. -/
def shortEscape (e : Nat) : Option Nat :=
  if e = 34 then some 34
  else if e = 92 then some 92
  else if e = 47 then some 47
  else if e = 98 then some 8
  else if e = 102 then some 12
  else if e = 110 then some 10
  else if e = 114 then some 13
  else if e = 116 then some 9
  else none

/-- The value of a hexadecimal digit, by character code. -/
def hexValue (h : Nat) : Option Nat :=
  if 48 ≤ h ∧ h ≤ 57 then some (h - 48)
  else if 97 ≤ h ∧ h ≤ 102 then some (h - 87)
  else if 65 ≤ h ∧ h ≤ 70 then some (h - 55)
  else none

/-- The value of four hexadecimal digits. -/
def hex4 (h1 h2 h3 h4 : Char) : Option Nat :=
  match hexValue h1.toNat, hexValue h2.toNat, hexValue h3.toNat, hexValue h4.toNat with
  | some a, some b, some c, some d => some (((a * 16 + b) * 16 + c) * 16 + d)
  | _, _, _, _ => none

/-- The characters `text` between the quotes of a JSON string literal write the string
`s`: a character from the space on other than the double quote and the backslash
stands for itself, a backslash and one of the eight escape letters for the character
that letter names, a backslash, `u` and four hexadecimal digits for the character with
that code. -/
inductive StringBody : List Char → List Char → Prop where
  | done : StringBody [] []
  | plain (c : Char) (text s : List Char) :
    32 ≤ c.toNat → c.toNat ≠ 34 → c.toNat ≠ 92 → StringBody text s →
    StringBody (c :: text) (c :: s)
  | short (b e c : Char) (text s : List Char) :
    b.toNat = 92 → shortEscape e.toNat = some c.toNat → StringBody text s →
    StringBody (b :: e :: text) (c :: s)
  | unicode (b u h1 h2 h3 h4 c : Char) (text s : List Char) :
    b.toNat = 92 → u.toNat = 117 → hex4 h1 h2 h3 h4 = some c.toNat → StringBody text s →
    StringBody (b :: u :: h1 :: h2 :: h3 :: h4 :: text) (c :: s)

/-- The text is a JSON string literal that writes `s`. -/
def StringText (text : List Char) (s : String) : Prop :=
  ∃ body, text = dquote :: (body ++ [dquote]) ∧ StringBody body s.toList

/-- The text is a JSON number that writes the natural number `n`: decimal digits,
without a leading zero unless it is the single digit zero. -/
def UIntText (text : List Char) (n : Nat) : Prop :=
  text ≠ [] ∧ (∀ c ∈ text, 48 ≤ c.toNat ∧ c.toNat ≤ 57) ∧
  (text.head?.map Char.toNat = some 48 → text.length = 1) ∧
  strconv.decimalValue text 0 = n

/-- What a member of the object written for a `Message` holds: a string, an unsigned
integer, or the text the encoder of interface values wrote for the payload. -/
inductive Value where
  | string (s : String)
  | uint (n : Nat)
  | raw (text : List Char)

/-- The text writes the value. -/
def ValueText : Value → List Char → Prop
  | .string s, text => StringText text s
  | .uint n, text => UIntText text n
  | .raw v, text => text = v

/-- The text is the members `key:value` of a JSON object, in order, separated by
commas and without white space. -/
inductive MembersText : List (String × Value) → List Char → Prop where
  | one (k : String) (v : Value) (kt vt : List Char) :
    StringText kt k → ValueText v vt → MembersText [(k, v)] (kt ++ colon :: vt)
  | more (k : String) (v : Value) (kt vt : List Char) (rest : List (String × Value))
    (rt : List Char) :
    StringText kt k → ValueText v vt → MembersText rest rt →
    MembersText ((k, v) :: rest) (kt ++ colon :: (vt ++ comma :: rt))

/-- The text is the JSON object with exactly the members `members`, in that order. -/
def ObjectText (members : List (String × Value)) (text : List Char) : Prop :=
  ∃ body, text = lbrace :: (body ++ [rbrace]) ∧ MembersText members body

/-- The five members every `Message` is written with. -/
def wireMembers (m : Message) : List (String × Value) :=
  [("type", .string m.Type_), ("from_user_id", .uint m.FromUserID),
   ("to_user_id", .uint m.ToUserID), ("content", .string m.Content),
   ("timestamp", .string m.Timestamp)]

end json

namespace json
open services

/-- A stand-in for `json.Unmarshal` whose envelopes carry a payload, used only to
evaluate examples: the sample decoder, with the payload `true` added. -/
def sampleUnmarshalData (data : Bytes) : Option Message :=
  (sampleUnmarshal data).map (fun m => { m with Data := some (.bool true) })

/-- The envelope the reader flow of alice forwards for the frame `[9, 2]` under that
decoder. -/
def forwardedSample : Message :=
  ⟨"private_message", 1, 2, "", "", some (.bool true)⟩

end json

/-! # The `/ws` route of `routes/routes.go` -/

namespace routes
open services

/-- The call `c.Query(key)` of gin: the value of the query parameter, the empty string
when the request has no such parameter. -/
def Query (value : Option String) : String :=
  match value with
  | some v => v
  | none => ""

/-- What the handler of `GET /ws` does with a request: it answers with a status and an
error message (`c.JSON(status, gin.H{"error": message})`) and returns, or it calls
`websocketService.HandleWebSocket` with a user id and a username. -/
inductive WsOutcome where
  | respond (status : Nat) (error : String)
  | handleWebSocket (userID : Nat) (username : String)
  deriving DecidableEq, Repr

/-- The handler of `GET /ws` in `SetupRoutes`, on the query parameters `user_id` and
`username` of the request (`none` when the parameter is missing). -/
def wsHandler (user_id username : Option String) : WsOutcome :=
  let userID := Query user_id
  let username := Query username
  if userID = "" ∨ username = "" then .respond 400 "user_id and username are required"
  else
    match strconv.ParseUint userID with
    | .error _ => .respond 400 "invalid user_id"
    | .ok uid => .handleWebSocket uid username

/-- What a request to `/ws` makes happen around the hub: nothing when the handler
answers by itself, a `HandleWebSocket` call (whose upgrade has the result `upgrade`)
otherwise. -/
def wsEvents (user_id username : Option String) (upgrade : Except String Nat) : List Event :=
  match wsHandler user_id username with
  | .respond _ _ => []
  | .handleWebSocket userID name => [.connect upgrade userID name]

end routes

/-! # `AuthHandler.Login` of `handlers/auth.go` -/

namespace models

/-- The struct `User` of `models/user.go`, as a row of the `users` table: the columns
the handlers read, and `Deleted` for a non-null `deleted_at` (a soft-deleted row, which
gorm leaves out of every query). -/
structure User where
  ID : Nat
  Email : String
  Password : String
  FirstName : String
  LastName : String
  IsEmailConfirmed : Bool
  EmailConfirmToken : String
  ResetPasswordToken : String
  Deleted : Bool
  deriving DecidableEq, Repr

end models

namespace handlers
open models

/-- The database behind `h.db`: the rows of `users`, and whether the connection is
broken (every query then returns an error). -/
structure DB where
  users : List User
  broken : Bool
  deriving DecidableEq, Repr

/-- Result of a gorm `First`: the row, `gorm.ErrRecordNotFound`, or another error. -/
inductive QueryResult where
  | found (user : User)
  | ErrRecordNotFound
  | failed
  deriving DecidableEq, Repr

/-- The row with the smallest primary key (`First` orders by primary key and takes one
row). -/
def firstByID : List User → Option User
  | [] => none
  | u :: rest =>
    match firstByID rest with
    | none => some u
    | some v => if u.ID ≤ v.ID then some u else some v

/-- The query `h.db.Where("email = ?", email).First(&user)`. -/
def firstUserByEmail (db : DB) (email : String) : QueryResult :=
  if db.broken then .failed
  else
    match firstByID (db.users.filter (fun u => decide (u.Email = email) && !u.Deleted)) with
    | some u => .found u
    | none => .ErrRecordNotFound

/-- The struct `LoginRequest`. -/
structure LoginRequest where
  Email : String
  Password : String
  deriving DecidableEq, Repr

/-- The call `c.ShouldBindJSON(&req)` for a `LoginRequest`: `decoded` is the result of
decoding the request body into the struct, and the binding tags are then checked in
field order: `required,email` on `Email`, `required` on `Password`.  `isEmail` is the
`email` rule of the validator package. -/
def ShouldBindJSON (isEmail : String → Bool) (decoded : Except String LoginRequest) :
    Except String LoginRequest :=
  match decoded with
  | .error e => .error e
  | .ok req =>
    if req.Email = "" then .error "Email: required"
    else if !isEmail req.Email then .error "Email: email"
    else if req.Password = "" then .error "Password: required"
    else .ok req

/-- A JSON body passed to `c.JSON`: `gin.H{"error": message}` or the body of a
successful login, the token and the four fields under `"user"`. -/
inductive Body where
  | error (message : String)
  | login (token : String) (id : Nat) (email first_name last_name : String)
  deriving DecidableEq, Repr

/-- What `c.JSON(status, body)` sends. -/
structure Response where
  status : Nat
  body : Body
  deriving DecidableEq, Repr

/-- The token a response carries, if any. -/
def Response.token (r : Response) : Option String :=
  match r.body with
  | .login token _ _ _ _ => some token
  | .error _ => none

/-- The method `AuthHandler.Login`.  `compareHashAndPassword` is
`bcrypt.CompareHashAndPassword` (true when it returns no error) and `signedString`
builds and signs the JWT for a user id and email (the expiry and the secret come from
the clock and the environment). -/
def Login (isEmail : String → Bool) (compareHashAndPassword : String → String → Bool)
    (signedString : Nat → String → Except String String) (db : DB)
    (decoded : Except String LoginRequest) : Response :=
  match ShouldBindJSON isEmail decoded with
  | .error e => ⟨400, .error e⟩
  | .ok req =>
    match firstUserByEmail db req.Email with
    | .found user =>
      if !compareHashAndPassword user.Password req.Password then
        ⟨401, .error "Invalid credentials"⟩
      else if !user.IsEmailConfirmed then
        ⟨403, .error "Please confirm your email before logging in"⟩
      else
        match signedString user.ID user.Email with
        | .error _ => ⟨500, .error "Failed to generate token"⟩
        | .ok tokenString =>
          ⟨200, .login tokenString user.ID user.Email user.FirstName user.LastName⟩
    | _ => ⟨401, .error "Invalid credentials"⟩

/-- A stand-in for the `email` rule of the validator, used only to evaluate examples:
the string contains an `@`. -/
def sampleIsEmail (s : String) : Bool := s.toList.contains '@'

/-- A database with one confirmed user, used only to evaluate examples. -/
def sampleDB : DB :=
  ⟨[⟨1, "other@example.com", "hash", "Ann", "Lee", true, "", "", false⟩], false⟩

end handlers

/-! # The tables behind the other handlers -/

namespace models

/-- The struct `Cart` of `models/cart.go`, as a row of the `carts` table. -/
structure Cart where
  ID : Nat
  UserID : Nat
  Deleted : Bool
  deriving DecidableEq, Repr

/-- The struct `Product` of `models/product.go`, as a row of the `products` table.
`Price` is a `float64`, kept by its bit pattern: the handlers only copy it. -/
structure Product where
  ID : Nat
  Name : String
  Description : String
  Price : Nat
  Stock : Int
  ImageURL : String
  Category : String
  UserID : Nat
  IsActive : Bool
  Deleted : Bool
  deriving DecidableEq, Repr

/-- The struct `Message` of `models/message.go`, as a row of the `messages` table. -/
structure Message where
  ID : Nat
  FromUserID : Nat
  ToUserID : Nat
  Content : String
  IsRead : Bool
  Deleted : Bool
  deriving DecidableEq, Repr

end models

namespace handlers
open models

/-- The database with the tables the other handlers write: `users` and `broken` as in
`DB`, and the rows of `carts`, `products` and `messages`. -/
structure Store extends DB where
  carts : List Cart
  products : List Product
  messages : List models.Message
  deriving DecidableEq, Repr

/-- The primary key the database gives a new row: one more than the largest in use. -/
def nextID (ids : List Nat) : Nat :=
  ids.foldl max 0 + 1

/-- The query `db.First(&user, id)`: the row of `users` with that primary key that is
not soft-deleted. -/
def firstUserByID (db : DB) (id : Nat) : QueryResult :=
  if db.broken then .failed
  else
    match firstByID (db.users.filter (fun u => decide (u.ID = id) && !u.Deleted)) with
    | some u => .found u
    | none => .ErrRecordNotFound

/-- The call `h.db.Create(&user)`: it fails on a broken connection and when a row, live
or soft-deleted, already has the email (the column is `unique`); otherwise the row is
stored under a new primary key, which is written back into `user`. -/
def createUser (st : Store) (user : User) : Except String (Store × User) :=
  if st.broken then .error "database error"
  else if st.users.any (fun u => decide (u.Email = user.Email)) then
    .error "UNIQUE constraint failed: users.email"
  else
    let stored := { user with ID := nextID (st.users.map (fun u => u.ID)) }
    .ok ({ st with users := st.users ++ [stored] }, stored)

/-- The call `h.db.Create(&cart)`: it fails on a broken connection and when a row
already has the user id (the column is `unique`). -/
def createCart (st : Store) (cart : Cart) : Except String (Store × Cart) :=
  if st.broken then .error "database error"
  else if st.carts.any (fun c => decide (c.UserID = cart.UserID)) then
    .error "UNIQUE constraint failed: carts.user_id"
  else
    let stored := { cart with ID := nextID (st.carts.map (fun c => c.ID)) }
    .ok ({ st with carts := st.carts ++ [stored] }, stored)

/-- The call `h.db.Create(&product)`. -/
def createProduct (st : Store) (product : Product) : Except String (Store × Product) :=
  if st.broken then .error "database error"
  else
    let stored := { product with ID := nextID (st.products.map (fun p => p.ID)) }
    .ok ({ st with products := st.products ++ [stored] }, stored)

/-- The call `h.db.Create(&message)`. -/
def createMessage (st : Store) (message : models.Message) :
    Except String (Store × models.Message) :=
  if st.broken then .error "database error"
  else
    let stored := { message with ID := nextID (st.messages.map (fun m => m.ID)) }
    .ok ({ st with messages := st.messages ++ [stored] }, stored)

/-! ## `ProductHandler.CreateProduct` -/

/-- The struct `CreateProductRequest`; `Price` is a `float64` kept by its bit pattern. -/
structure CreateProductRequest where
  Name : String
  Description : String
  Price : Nat
  Stock : Int
  ImageURL : String
  Category : String
  deriving DecidableEq, Repr

/-- The body `CreateProduct` passes to `c.JSON`. -/
inductive ProductBody where
  | error (message : String)
  | product (product : Product)
  deriving DecidableEq, Repr

/-- The method `ProductHandler.CreateProduct`.  `user_id` is the value under the key
`user_id` of the gin context, `none` when nothing set it: `c.MustGet` then panics, which
is the error side of the result.  `bound` is the result of `c.ShouldBindJSON(&req)`;
its rules on the price compare floating-point numbers.  The result is the database
after the call, the status and the body. -/
def CreateProduct (user_id : Option Nat) (bound : Except String CreateProductRequest)
    (st : Store) : Except String (Store × Nat × ProductBody) :=
  match user_id with
  | none => .error "Key user_id does not exist"
  | some userID =>
    match bound with
    | .error e => .ok (st, 400, .error e)
    | .ok req =>
      match createProduct st
          { ID := 0, Name := req.Name, Description := req.Description, Price := req.Price,
            Stock := req.Stock, ImageURL := req.ImageURL, Category := req.Category,
            UserID := userID, IsActive := true, Deleted := false } with
      | .error _ => .ok (st, 500, .error "Failed to create product")
      | .ok (st', product) => .ok (st', 201, .product product)

/-! ## `AuthHandler.Register` -/

/-- The struct `RegisterRequest`. -/
structure RegisterRequest where
  Email : String
  Password : String
  FirstName : String
  LastName : String
  deriving DecidableEq, Repr

/-- The call `c.ShouldBindJSON(&req)` for a `RegisterRequest`: the tags
`required,email` on `Email`, `required,min=6` on `Password` (at least six characters)
and `required` on `FirstName` and `LastName`, checked in field order. -/
def bindRegister (isEmail : String → Bool) (decoded : Except String RegisterRequest) :
    Except String RegisterRequest :=
  match decoded with
  | .error e => .error e
  | .ok req =>
    if req.Email = "" then .error "Email: required"
    else if !isEmail req.Email then .error "Email: email"
    else if req.Password = "" then .error "Password: required"
    else if req.Password.length < 6 then .error "Password: min"
    else if req.FirstName = "" then .error "FirstName: required"
    else if req.LastName = "" then .error "LastName: required"
    else .ok req

/-- The body `Register` passes to `c.JSON`: `gin.H{"error": ...}` or
`gin.H{"message": ..., "user_id": ...}`. -/
inductive RegisterBody where
  | error (message : String)
  | registered (message : String) (user_id : Nat)
  deriving DecidableEq, Repr

/-- The keys of the JSON object a body is. -/
def RegisterBody.keys : RegisterBody → List String
  | .error _ => ["error"]
  | .registered _ _ => ["message", "user_id"]

/-- The method `AuthHandler.Register`.  `generateFromPassword` is
`bcrypt.GenerateFromPassword` at the default cost; `generateToken` and
`sendEmailConfirmation` are the two methods of the email service the handler holds.
The result is the database after the call, the status and the body. -/
def Register (isEmail : String → Bool)
    (generateFromPassword : String → Except String String)
    (generateToken : Except String String)
    (sendEmailConfirmation : String → String → Except String Unit)
    (st : Store) (decoded : Except String RegisterRequest) : Store × Nat × RegisterBody :=
  match bindRegister isEmail decoded with
  | .error e => (st, 400, .error e)
  | .ok req =>
    match firstUserByEmail st.toDB req.Email with
    | .found _ => (st, 409, .error "User already exists")
    | _ =>
      match generateFromPassword req.Password with
      | .error _ => (st, 500, .error "Failed to hash password")
      | .ok hashedPassword =>
        match generateToken with
        | .error _ => (st, 500, .error "Failed to generate token")
        | .ok token =>
          match createUser st
              { ID := 0, Email := req.Email, Password := hashedPassword,
                FirstName := req.FirstName, LastName := req.LastName,
                IsEmailConfirmed := false, EmailConfirmToken := token,
                ResetPasswordToken := "", Deleted := false } with
          | .error _ => (st, 500, .error "Failed to create user")
          | .ok (st1, user) =>
            match createCart st1 { ID := 0, UserID := user.ID, Deleted := false } with
            | .error _ => (st1, 500, .error "Failed to create cart")
            | .ok (st2, _) =>
              match sendEmailConfirmation user.Email token with
              | .error _ => (st2, 500, .error "Failed to send confirmation email")
              | .ok _ =>
                (st2, 201,
                  .registered
                    "User registered successfully. Please check your email to confirm your account."
                    user.ID)

/-- The method `MockEmailService.GenerateToken` of `services/email_mock.go`. -/
def MockGenerateToken : Except String String := .ok "mock-token-123456789"

/-- The method `MockEmailService.SendEmailConfirmation`. -/
def MockSendEmailConfirmation (_email _token : String) : Except String Unit := .ok ()

/-! ## `MessageHandler.SendMessage` -/

/-- The struct `SendMessageRequest`. -/
structure SendMessageRequest where
  ToUserID : Nat
  Content : String
  deriving DecidableEq, Repr

/-- The call `c.ShouldBindJSON(&req)` for a `SendMessageRequest`: `required` on both
fields, so a zero recipient id and an empty content are refused. -/
def bindSendMessage (decoded : Except String SendMessageRequest) :
    Except String SendMessageRequest :=
  match decoded with
  | .error e => .error e
  | .ok req =>
    if req.ToUserID = 0 then .error "ToUserID: required"
    else if req.Content = "" then .error "Content: required"
    else .ok req

/-- The body `SendMessage` passes to `c.JSON`. -/
inductive MessageBody where
  | error (message : String)
  | message (message : models.Message)
  deriving DecidableEq, Repr

/-- What a call of `SendMessage` leaves behind: the database after the call, the status
and body of the response, and the operations it submitted to the hub. -/
structure SendMessageResult where
  store : Store
  status : Nat
  body : MessageBody
  hub : List services.HubOp

/-- The method `MessageHandler.SendMessage`.  `user_id` is the value under the key
`user_id` of the gin context (`c.MustGet` panics when it is not set) and `decoded` the
result of decoding the body into the request struct. -/
def SendMessage (user_id : Option Nat) (decoded : Except String SendMessageRequest)
    (st : Store) : Except String SendMessageResult :=
  match user_id with
  | none => .error "Key user_id does not exist"
  | some fromUserID =>
    match bindSendMessage decoded with
    | .error e => .ok ⟨st, 400, .error e, []⟩
    | .ok req =>
      match firstUserByID st.toDB req.ToUserID with
      | .ErrRecordNotFound => .ok ⟨st, 404, .error "Recipient not found", []⟩
      | .failed => .ok ⟨st, 500, .error "Failed to fetch recipient", []⟩
      | .found _ =>
        if fromUserID = req.ToUserID then
          .ok ⟨st, 400, .error "Cannot send message to yourself", []⟩
        else
          match createMessage st
              { ID := 0, FromUserID := fromUserID, ToUserID := req.ToUserID,
                Content := req.Content, IsRead := false, Deleted := false } with
          | .error _ => .ok ⟨st, 500, .error "Failed to send message", []⟩
          | .ok (st', message) =>
            .ok ⟨st', 201, .message message,
              [services.SendPrivateMessage fromUserID req.ToUserID req.Content]⟩

end handlers

/-! # `AuthMiddleware` of `middleware/auth.go` -/

namespace middleware
open models handlers

/-- What follows `old` in `s`, when `s` starts with `old`. -/
def stripStart : List Char → List Char → Option (List Char)
  | [], s => some s
  | _ :: _, [] => none
  | o :: old, c :: s => if o = c then stripStart old s else none

/-- The call `strings.Replace(s, old, "", 1)` for a non-empty `old`: `s` without the
first occurrence of `old`. -/
def removeFirst (old : List Char) : List Char → List Char
  | [] => []
  | c :: s =>
    match stripStart old (c :: s) with
    | some rest => rest
    | none => c :: removeFirst old s

/-- The call `c.GetHeader(key)`: the value of the header, empty when it is missing. -/
def GetHeader (value : Option String) : String :=
  match value with
  | some v => v
  | none => ""

/-- What `jwt.Parse` and the two type assertions on the claims give for a token: an
error or an invalid token, claims that are not `MapClaims`, no `float64` under
`user_id`, or the user id `uint(userID)`. -/
inductive ParsedToken where
  | invalid
  | badClaims
  | noUserID
  | userID (id : Nat)
  deriving DecidableEq, Repr

/-- What the middleware does with a request: it answers by itself and aborts the
chain, or it sets `user` and `user_id` in the context and calls `c.Next()`. -/
inductive Verdict where
  | abort (status : Nat) (error : String)
  | next (user : User) (user_id : Nat)
  deriving DecidableEq, Repr

/-- The handler `AuthMiddleware()` returns, on the `Authorization` header of the
request (`none` when there is none).  `jwtParse` stands for `jwt.Parse` with the secret
of the environment, followed by the reading of the claims. -/
def AuthMiddleware (jwtParse : String → ParsedToken) (db : DB)
    (authorization : Option String) : Verdict :=
  let authHeader := GetHeader authorization
  if authHeader = "" then .abort 401 "Authorization header required"
  else
    let tokenString := String.mk (removeFirst "Bearer ".toList authHeader.toList)
    if tokenString = "" then .abort 401 "Token required"
    else
      match jwtParse tokenString with
      | .invalid => .abort 401 "Invalid token"
      | .badClaims => .abort 401 "Invalid token claims"
      | .noUserID => .abort 401 "Invalid user ID in token"
      | .userID id =>
        match firstUserByID db id with
        | .found user =>
          if !user.IsEmailConfirmed then .abort 403 "Email not confirmed"
          else .next user id
        | _ => .abort 401 "User not found"

/-- A stand-in for `jwt.Parse`, used only to evaluate examples: the token `good-7` is
valid for user 7, and `good-1` for user 1; every other token is invalid. -/
def sampleJwtParse (token : String) : ParsedToken :=
  if token = "good-7" then .userID 7
  else if token = "good-1" then .userID 1
  else .invalid

end middleware

/-! # The protected routes of `routes/routes.go` -/

namespace routes
open models handlers middleware

/-- The route `POST /api/products` as `SetupRoutes` mounts it: the group `protected`
runs `authMiddleware` first, and `CreateProduct` only when the middleware calls
`c.Next()`. -/
def postProducts (jwtParse : String → ParsedToken) (authorization : Option String)
    (bound : Except String CreateProductRequest) (st : Store) :
    Except String (Store × Nat × ProductBody) :=
  match AuthMiddleware jwtParse st.toDB authorization with
  | .abort status error => .ok (st, status, .error error)
  | .next _ user_id => CreateProduct (some user_id) bound st

/-- The route `POST /api/messages` as `SetupRoutes` mounts it, behind the same
middleware. -/
def postMessages (jwtParse : String → ParsedToken) (authorization : Option String)
    (decoded : Except String SendMessageRequest) (st : Store) :
    Except String SendMessageResult :=
  match AuthMiddleware jwtParse st.toDB authorization with
  | .abort status error => .ok ⟨st, status, .error error, []⟩
  | .next _ user_id => SendMessage (some user_id) decoded st

end routes

/-! # Example data for the handlers -/

namespace handlers
open models

/-- A database with two confirmed users, 1 and 2, and no other rows, used only to
evaluate examples. -/
def sampleStore : Store :=
  { users := [⟨1, "other@example.com", "hash", "Ann", "Lee", true, "", "", false⟩,
              ⟨2, "bob@example.com", "hash", "Bob", "Ray", true, "", "", false⟩],
    broken := false, carts := [], products := [], messages := [] }

/-- The request body of `TestProductCreation`; the price 99.99 by its bit pattern. -/
def sampleProductRequest : CreateProductRequest :=
  { Name := "Test Product", Description := "A test product", Price := 4636736587667194511,
    Stock := 10, ImageURL := "", Category := "Electronics" }

/-- A stand-in for `bcrypt.GenerateFromPassword`, used only to evaluate examples. -/
def sampleHash (password : String) : Except String String :=
  .ok ("hashed:" ++ password)

/-- The database `setupTestDB` of `api_test.go` opens: migrated and empty. -/
def emptyStore : Store :=
  { users := [], broken := false, carts := [], products := [], messages := [] }

/-- The request body of `TestRegisterEndpoint`. -/
def sampleRegisterRequest : RegisterRequest :=
  { Email := "test@example.com", Password := "password123", FirstName := "John",
    LastName := "Doe" }

end handlers

/-! # Example data for the inputs the library refuses -/

namespace json
open services

/-- The test `math.IsInf(f, 0) || math.IsNaN(f)` of `floatEncoder.encode` on the bit
pattern of a `float64`: the eleven exponent bits are all ones.  The encoder reports an
`UnsupportedValueError` for such a value. -/
def nonFinite (bits : Nat) : Bool :=
  decide ((bits / 2 ^ 52) % 2 ^ 11 = 2047)

/-- The `float64` that `math.NaN()` returns (bits `0x7FF8000000000001`), held in an
interface. -/
def nanPayload : Payload := .number 9221120237041090561

/-- The envelope of the example scenario with `math.NaN()` as payload. -/
def nanMessage : Message :=
  { hiMessage with Data := some nanPayload }

end json

namespace handlers
open models

/-- A stand-in for `bcrypt.GenerateFromPassword`, used only to evaluate examples: it
refuses a password of more than 72 bytes, as the library does with
`ErrPasswordTooLong`, and otherwise returns a made-up hash. -/
def sampleBcrypt (password : String) : Except String String :=
  if 72 < password.utf8ByteSize then .error "bcrypt: password length exceeds 72 bytes"
  else .ok ("hashed:" ++ password)

/-- The request body of `TestRegisterEndpoint` with a pass phrase of 73 characters. -/
def longPasswordRequest : RegisterRequest :=
  { Email := "test@example.com",
    Password := "correct horse battery staple, correct horse battery staple, correct horse",
    FirstName := "John", LastName := "Doe" }

end handlers

namespace services

/-! ## Maps and channels: basic facts -/

theorem mapGet_mem {m : List (Nat × Client)} {k : Nat} {c : Client}
    (h : mapGet m k = some c) : (k, c) ∈ m := by
  induction m with
  | nil => simp [mapGet] at h
  | cons p rest ih =>
    obtain ⟨k', c'⟩ := p
    by_cases hk : k' = k
    · subst hk
      simp [mapGet] at h
      simp [h]
    · simp [mapGet, hk] at h
      exact List.mem_cons_of_mem _ (ih h)

theorem mapGet_isSome_of_mem {m : List (Nat × Client)} {k : Nat} {c : Client}
    (h : (k, c) ∈ m) : (mapGet m k).isSome = true := by
  induction m with
  | nil => simp at h
  | cons p rest ih =>
    obtain ⟨k', c'⟩ := p
    by_cases hk : k' = k
    · simp [mapGet, hk]
    · simp only [mapGet, hk, if_false]
      rcases List.mem_cons.mp h with h1 | h1
      · exact absurd (congrArg Prod.fst h1).symm hk
      · exact ih h1

theorem mapGet_eq_none_iff {m : List (Nat × Client)} {k : Nat} :
    mapGet m k = none ↔ ∀ p ∈ m, p.1 ≠ k := by
  induction m with
  | nil => simp [mapGet]
  | cons p rest ih =>
    obtain ⟨k', c'⟩ := p
    by_cases hk : k' = k
    · simp [mapGet, hk]
    · simp [mapGet, hk, ih]

theorem mapGet_mapDelete_self (m : List (Nat × Client)) (k : Nat) :
    mapGet (mapDelete m k) k = none := by
  rw [mapGet_eq_none_iff]
  intro p hp
  simp [mapDelete] at hp
  exact hp.2

theorem mapGet_mapDelete_ne (m : List (Nat × Client)) {k k' : Nat} (h : k' ≠ k) :
    mapGet (mapDelete m k) k' = mapGet m k' := by
  induction m with
  | nil => simp [mapDelete, mapGet]
  | cons p rest ih =>
    obtain ⟨k0, c0⟩ := p
    by_cases h0 : k0 = k
    · subst h0
      have : k0 ≠ k' := fun e => h e.symm
      simpa [mapDelete, mapGet, this] using ih
    · by_cases h1 : k0 = k'
      · subst h1
        simp [mapDelete, mapGet, h0]
      · simpa [mapDelete, mapGet, h0, h1] using ih

theorem mapGet_mapSet_self (m : List (Nat × Client)) (k : Nat) (c : Client) :
    mapGet (mapSet m k c) k = some c := by
  simp [mapSet, mapGet]

theorem mapGet_mapSet_ne (m : List (Nat × Client)) {k k' : Nat} (c : Client) (h : k' ≠ k) :
    mapGet (mapSet m k c) k' = mapGet m k' := by
  have : k ≠ k' := fun e => h e.symm
  simp [mapSet, mapGet, this, mapGet_mapDelete_ne m h]

/-- The range loop does nothing when no entry it visits is the recipient. -/
theorem routeLoop_no_match (marshal : Message → Option Bytes) (message : Message)
    (entries : List (Nat × Client)) (s : WebSocketService)
    (h : ∀ p ∈ entries,
      ¬ (message.Type_ = "private_message" ∧ p.2.UserID = message.ToUserID)) :
    routeLoop marshal message entries s = .ok s := by
  induction entries with
  | nil => rfl
  | cons p rest ih =>
    obtain ⟨k, c⟩ := p
    have hrest := ih (fun q hq => h q (List.mem_cons_of_mem _ hq))
    have hp := h (k, c) (List.mem_cons_self _ _)
    simp only [routeLoop, if_neg hp, hrest, ite_self]

/-- When exactly one visited entry is the recipient, the loop is the loop body run on
that entry. -/
theorem routeLoop_single (marshal : Message → Option Bytes) (message : Message)
    (pre post : List (Nat × Client)) (k : Nat) (c : Client) (s : WebSocketService)
    (hpre : ∀ p ∈ pre, p.2.UserID ≠ message.ToUserID)
    (hpost : ∀ p ∈ post, p.2.UserID ≠ message.ToUserID)
    (hk : (mapGet s.clients k).isSome = true)
    (hty : message.Type_ = "private_message") (hc : c.UserID = message.ToUserID) :
    routeLoop marshal message (pre ++ (k, c) :: post) s = routeOne marshal message s c := by
  induction pre with
  | nil =>
    have hskip : ∀ t : WebSocketService, routeLoop marshal message post t = .ok t :=
      fun t => routeLoop_no_match marshal message post t (fun p hp h => hpost p hp h.2)
    simp only [List.nil_append, routeLoop, hk, if_true, hty, hc, and_self, routeOne]
    cases h1 : trySend s.chans c.Send (serializeMessage marshal message) with
    | sent chans => simp [hskip]
    | fault f => simp
    | wouldBlock =>
      cases h2 : chanClose s.chans c.Send with
      | error f => simp
      | ok chans => simp [hskip]
  | cons p rest ih =>
    obtain ⟨k', c'⟩ := p
    have hne : ¬ (message.Type_ = "private_message" ∧ c'.UserID = message.ToUserID) :=
      fun h => hpre (k', c') (List.mem_cons_self _ _) h.2
    have hrest := ih (fun q hq => hpre q (List.mem_cons_of_mem _ hq))
    show routeLoop marshal message ((k', c') :: (rest ++ (k, c) :: post)) s = _
    simp only [routeLoop, if_neg hne, hrest, ite_self]

/-- In a well-formed registry the entry under key `k` is the only one whose client has
user id `k`. -/
theorem wellFormed_split {s : WebSocketService} {k : Nat} {c : Client}
    (hwf : WellFormed s) (hreg : mapGet s.clients k = some c) :
    c.ID = k ∧ c.UserID = k ∧
    ∃ pre post, s.clients = pre ++ (k, c) :: post ∧
      (∀ p ∈ pre, p.2.UserID ≠ k) ∧ (∀ p ∈ post, p.2.UserID ≠ k) := by
  obtain ⟨hkey, hnd, -, -⟩ := hwf
  have hmem := mapGet_mem hreg
  have hkc := hkey (k, c) hmem
  refine ⟨hkc.1, hkc.2, ?_⟩
  obtain ⟨pre, post, hsplit⟩ := List.append_of_mem hmem
  refine ⟨pre, post, hsplit, ?_, ?_⟩
  · intro p hp hu
    have hpm : p ∈ s.clients := by rw [hsplit]; exact List.mem_append_left _ hp
    have hp1 : p.1 = k := by rw [← (hkey p hpm).2]; exact hu
    rw [hsplit, List.map_append, List.map_cons] at hnd
    have hdisj := (List.nodup_append.mp hnd).2.2
    exact hdisj (List.mem_map_of_mem Prod.fst hp) (by rw [hp1]; exact List.mem_cons_self _ _)
  · intro p hp hu
    have hpm : p ∈ s.clients := by
      rw [hsplit]; exact List.mem_append_right _ (List.mem_cons_of_mem _ hp)
    have hp1 : p.1 = k := by rw [← (hkey p hpm).2]; exact hu
    rw [hsplit, List.map_append, List.map_cons] at hnd
    have hnd2 := (List.nodup_append.mp hnd).2.1
    have := (List.nodup_cons.mp hnd2).1
    have hin : p.1 ∈ List.map Prod.fst post := List.mem_map_of_mem Prod.fst hp
    rw [hp1] at hin
    exact this hin

/-- A registered client of a well-formed state has an open queue of capacity 256. -/
theorem wellFormed_queue {s : WebSocketService} {k : Nat} {c : Client}
    (hwf : WellFormed s) (hreg : mapGet s.clients k = some c) :
    ∃ ch, s.chans[c.Send]? = some ch ∧ ch.closed = false ∧ ch.cap = 256 := by
  have h := hwf.2.2.1 (k, c) (mapGet_mem hreg)
  simp only [openQueue] at h
  cases hch : s.chans[c.Send]? with
  | none => simp [hch] at h
  | some ch =>
    refine ⟨ch, rfl, ?_, ?_⟩
    · simp [hch] at h; exact h.1
    · simp [hch] at h; exact h.2

/-- The route step on a well-formed state whose registry holds the recipient is the loop
body run on the recipient. -/
theorem route_wellFormed (marshal : Message → Option Bytes) {s : WebSocketService}
    {message : Message} {c : Client} (hwf : WellFormed s)
    (hty : message.Type_ = "private_message")
    (hreg : mapGet s.clients message.ToUserID = some c) :
    hubStep marshal s (.broadcast message) = routeOne marshal message s c := by
  obtain ⟨-, hu, pre, post, hsplit, hpre, hpost⟩ := wellFormed_split hwf hreg
  have hk : (mapGet s.clients message.ToUserID).isSome = true := by simp [hreg]
  have := routeLoop_single marshal message pre post message.ToUserID c s hpre hpost hk hty hu
  simp only [hubStep]
  rw [← hsplit] at this
  exact this

theorem getElem?_set_other (chans : List Chan) (i j : Nat) (ch : Chan) (h : j ≠ i) :
    (chans.set i ch)[j]? = chans[j]? := by
  rw [List.getElem?_set]
  split
  · omega
  · rfl

theorem getElem?_set_same (chans : List Chan) (i : Nat) (old ch : Chan)
    (h : chans[i]? = some old) : (chans.set i ch)[i]? = some ch := by
  have hlt : i < chans.length := by
    by_contra hge
    rw [List.getElem?_eq_none (by omega)] at h
    exact absurd h (by simp)
  rw [List.getElem?_set]
  simp [hlt]

/-- In a well-formed state a registered client other than `c` has another queue. -/
theorem wellFormed_other_queue {s : WebSocketService} {k : Nat} {c : Client}
    (hwf : WellFormed s) (hreg : mapGet s.clients k = some c)
    {p : Nat × Client} (hp : p ∈ s.clients) (hne : p.2 ≠ c) : p.2.Send ≠ c.Send := by
  intro heq
  have := hwf.2.2.2 p hp (k, c) (mapGet_mem hreg) heq
  exact hne (by rw [this])

/-- Routing to a registered recipient whose queue has room: the resulting state. -/
theorem route_with_room (marshal : Message → Option Bytes) {s : WebSocketService}
    {message : Message} {c : Client} {ch : Chan} (hwf : WellFormed s)
    (hty : message.Type_ = "private_message")
    (hreg : mapGet s.clients message.ToUserID = some c)
    (hch : s.chans[c.Send]? = some ch) (hroom : ch.buf.length < 256) :
    hubStep marshal s (.broadcast message) =
      .ok ⟨s.clients, s.chans.set c.Send
        { ch with buf := ch.buf ++ [serializeMessage marshal message] }⟩ := by
  obtain ⟨ch', hch', hopen, hcap⟩ := wellFormed_queue hwf hreg
  rw [hch] at hch'
  obtain rfl : ch = ch' := Option.some.inj hch'
  have hlt : ch.buf.length < ch.cap := by omega
  rw [route_wellFormed marshal hwf hty hreg]
  simp [routeOne, trySend, hch, hopen, hlt]

/-- The hub loop over two batches of operations. -/
theorem StartHub_append (marshal : Message → Option Bytes) (s : WebSocketService)
    (ops1 ops2 : List HubOp) :
    StartHub marshal s (ops1 ++ ops2) =
      match StartHub marshal s ops1 with
      | .error f => .error f
      | .ok s' => StartHub marshal s' ops2 := by
  induction ops1 generalizing s with
  | nil => rfl
  | cons op rest ih =>
    simp only [List.cons_append, StartHub]
    cases hubStep marshal s op with
    | error f => rfl
    | ok s' => exact ih s'

theorem mapDelete_sublist (m : List (Nat × Client)) (k : Nat) :
    List.Sublist (mapDelete m k) m := List.filter_sublist m

theorem keyed_mapDelete {m : List (Nat × Client)} (k : Nat) (h : Keyed m) :
    Keyed (mapDelete m k) := by
  refine ⟨fun p hp => h.1 p ((mapDelete_sublist m k).subset hp), ?_⟩
  exact h.2.sublist ((mapDelete_sublist m k).map Prod.fst)

theorem keyed_mapSet {m : List (Nat × Client)} (c : Client) (hc : c.ID = c.UserID)
    (h : Keyed m) : Keyed (mapSet m c.ID c) := by
  have hd := keyed_mapDelete c.ID h
  refine ⟨?_, ?_⟩
  · intro p hp
    rcases List.mem_cons.mp hp with rfl | hp
    · exact ⟨rfl, hc.symm⟩
    · exact hd.1 p hp
  · simp only [mapSet, List.map_cons, List.nodup_cons]
    refine ⟨?_, hd.2⟩
    intro hmem
    obtain ⟨p, hp, hp1⟩ := List.mem_map.mp hmem
    simp only [mapDelete, List.mem_filter, decide_eq_true_eq] at hp
    exact hp.2 hp1

/-- In a keyed registry at most one entry has a given user id. -/
theorem keyed_at_most_one {m : List (Nat × Client)} (h : Keyed m) (u : Nat) :
    (m.filter (fun p => decide (p.2.UserID = u))).length ≤ 1 := by
  have hsub : List.Sublist (m.filter (fun p => decide (p.2.UserID = u))) m :=
    List.filter_sublist m
  have hnd : ((m.filter (fun p => decide (p.2.UserID = u))).map Prod.fst).Nodup :=
    h.2.sublist (hsub.map Prod.fst)
  have hall : ∀ p ∈ m.filter (fun p => decide (p.2.UserID = u)), p.1 = u := by
    intro p hp
    have hpm := hsub.subset hp
    simp only [List.mem_filter, decide_eq_true_eq] at hp
    rw [← (h.1 p hpm).2]; exact hp.2
  match hl : m.filter (fun p => decide (p.2.UserID = u)) with
  | [] => rw [hl]; simp
  | [_] => rw [hl]; simp
  | a :: b :: rest =>
    exfalso
    rw [hl] at hnd hall
    have ha := hall a (by simp)
    have hb := hall b (by simp)
    simp only [List.map_cons, List.nodup_cons, List.mem_cons] at hnd
    exact hnd.1 (Or.inl (ha.trans hb.symm))

/-- Registering the clients `cs` one after the other never panics and keeps the registry
keyed when each client has `ID = UserID`; the channels are not touched. -/
theorem StartHub_registers (marshal : Message → Option Bytes) (cs : List Client)
    (hcs : ∀ c ∈ cs, c.ID = c.UserID) (s : WebSocketService) (hs : Keyed s.clients) :
    ∃ s', StartHub marshal s (cs.map HubOp.register) = .ok s' ∧ Keyed s'.clients ∧
      s'.chans = s.chans := by
  induction cs generalizing s with
  | nil => exact ⟨s, rfl, hs, rfl⟩
  | cons c rest ih =>
    have hc := hcs c (List.mem_cons_self _ _)
    obtain ⟨s', h1, h2, h3⟩ := ih (fun x hx => hcs x (List.mem_cons_of_mem _ hx))
      { s with clients := mapSet s.clients c.ID c } (keyed_mapSet c hc hs)
    exact ⟨s', by simpa [StartHub, hubStep] using h1, h2, h3⟩

/-- Unregistering a client whose id is in the registry of a well-formed state, when the
entry is the client itself: the resulting state. -/
theorem unregister_registered (marshal : Message → Option Bytes) {s : WebSocketService}
    {c : Client} {ch : Chan} (hcur : mapGet s.clients c.ID = some c)
    (hch : s.chans[c.Send]? = some ch) (hopen : ch.closed = false) :
    hubStep marshal s (.unregister c) =
      .ok ⟨mapDelete s.clients c.ID, s.chans.set c.Send { ch with closed := true }⟩ := by
  simp [hubStep, hcur, chanClose, hch, hopen]

/-- Unregistering a client whose id is not in the registry changes nothing. -/
theorem unregister_absent (marshal : Message → Option Bytes) {s : WebSocketService}
    {c : Client} (h : mapGet s.clients c.ID = none) :
    hubStep marshal s (.unregister c) = .ok s := by
  simp [hubStep, h]

theorem connCloses_append (conn : Nat) (xs ys : List Effect) :
    connCloses conn (xs ++ ys) = connCloses conn xs + connCloses conn ys := by
  induction xs with
  | nil => simp [connCloses]
  | cons e rest ih =>
    cases e <;> simp [connCloses, ih, Nat.add_assoc]

theorem unregisters_append (client : Client) (xs ys : List Effect) :
    unregisters client (xs ++ ys) = unregisters client xs + unregisters client ys := by
  induction xs with
  | nil => simp [unregisters]
  | cons e rest ih =>
    cases e with
    | send op => cases op <;> simp [unregisters, ih, Nat.add_assoc]
    | _ => simp [unregisters, ih]

/-- A reader flow that has returned submitted one unregister for its client and called
`Close` on its connection once. -/
theorem readPump_teardown (unmarshal : Bytes → Option Message) (client : Client)
    (reads : List ReadResult) (h : (readPump unmarshal client reads).returned = true) :
    connCloses client.Conn (readPump unmarshal client reads).effects = 1 ∧
    unregisters client (readPump unmarshal client reads).effects = 1 := by
  induction reads with
  | nil => simp [readPump] at h
  | cons r rest ih =>
    cases r with
    | err => simp [readPump, connCloses, unregisters]
    | message data =>
      cases hd : unmarshal data with
      | none =>
        simp only [readPump, hd] at h ⊢
        exact ih h
      | some msg =>
        simp only [readPump, hd] at h ⊢
        simpa [connCloses, unregisters] using ih h

/-- A writer flow that has returned submitted one unregister for its client and called
`Close` on its connection once. -/
theorem writePump_teardown (client : Client) (recvs : List RecvResult)
    (h : (writePump client recvs).returned = true) :
    connCloses client.Conn (writePump client recvs).effects = 1 ∧
    unregisters client (writePump client recvs).effects = 1 := by
  induction recvs with
  | nil => simp [writePump] at h
  | cons r rest ih =>
    cases r with
    | closed => simp [writePump, connCloses, unregisters]
    | item message nextWriterErr closeErr =>
      cases nextWriterErr with
      | true => simp [writePump, connCloses, unregisters]
      | false =>
        cases closeErr with
        | true => simp [writePump, connCloses, unregisters]
        | false =>
          simp only [writePump] at h ⊢
          simpa [connCloses, unregisters] using ih h

/-! ## Reachable states -/

theorem openQueue_set_other (chans : List Chan) (i j : Nat) (ch : Chan) (h : j ≠ i) :
    openQueue (chans.set i ch) j = openQueue chans j := by
  simp only [openQueue, getElem?_set_other chans i j ch h]

theorem openQueue_set_alike (chans : List Chan) (i j : Nat) (old ch : Chan)
    (hold : chans[i]? = some old) (hclosed : ch.closed = old.closed) (hcap : ch.cap = old.cap) :
    openQueue (chans.set i ch) j = openQueue chans j := by
  by_cases h : j = i
  · subst h
    simp only [openQueue, getElem?_set_same chans j old ch hold, hold, hclosed, hcap]
  · exact openQueue_set_other chans i j ch h

theorem openQueue_lt {chans : List Chan} {i : Nat} (h : openQueue chans i = true) :
    i < chans.length := by
  by_contra hge
  simp [openQueue, List.getElem?_eq_none (Nat.le_of_not_lt hge)] at h

theorem openQueue_append {chans : List Chan} {i : Nat} (x : Chan)
    (h : openQueue chans i = true) : openQueue (chans ++ [x]) i = true := by
  have hlt := openQueue_lt h
  simpa [openQueue, List.getElem?_append_left hlt] using h

theorem mem_set_cases {chans : List Chan} {i : Nat} {ch x : Chan}
    (hx : x ∈ chans.set i ch) : x = ch ∨ x ∈ chans := by
  rcases List.mem_or_eq_of_mem_set hx with h | h
  · exact Or.inr h
  · exact Or.inl h

theorem getElem?_mem_chans {chans : List Chan} {i : Nat} {ch : Chan}
    (h : chans[i]? = some ch) : ch ∈ chans := by
  obtain ⟨hlt, heq⟩ := List.getElem?_eq_some_iff.mp h
  exact heq ▸ List.getElem_mem hlt

/-- Two clients made by `HandleWebSocket` that share a queue are the same client. -/
theorem Invariant.made_inj {made : List Client} {s : WebSocketService}
    (hinv : Invariant made s) {c c' : Client} (hc : c ∈ made) (hc' : c' ∈ made)
    (h : c.Send = c'.Send) : c = c' := by
  obtain ⟨i, hi⟩ := List.mem_iff_getElem?.mp hc
  obtain ⟨j, hj⟩ := List.mem_iff_getElem?.mp hc'
  have h1 := (hinv.made_send i c hi).1
  have h2 := (hinv.made_send j c' hj).1
  have hij : i = j := by omega
  subst hij
  rw [hi] at hj
  exact Option.some.inj hj

/-- The invariant gives the well-formedness the routing theorems assume. -/
theorem Invariant.wellFormed {made : List Client} {s : WebSocketService}
    (hinv : Invariant made s) : WellFormed s := by
  refine ⟨hinv.keyed.1, hinv.keyed.2, hinv.queues, ?_⟩
  intro p hp q hq hsend
  have hpq : p.2 = q.2 :=
    hinv.made_inj (hinv.registered p hp) (hinv.registered q hq) hsend
  have h1 : p.1 = q.1 := by
    rw [← (hinv.keyed.1 p hp).1, ← (hinv.keyed.1 q hq).1, hpq]
  exact Prod.ext h1 hpq

/-- Deleting a made client's entry and closing its queue keeps the invariant. -/
theorem Invariant.evict {made : List Client} {s : WebSocketService}
    (hinv : Invariant made s) {c : Client} (hc : c ∈ made) {chans : List Chan}
    (hclose : chanClose s.chans c.Send = .ok chans) :
    Invariant made ⟨mapDelete s.clients c.ID, chans⟩ := by
  cases hch : s.chans[c.Send]? with
  | none => simp [chanClose, hch] at hclose
  | some ch =>
    cases hcl : ch.closed with
    | true => simp [chanClose, hch, hcl] at hclose
    | false =>
      simp only [chanClose, hch, hcl] at hclose
      have hchans : chans = s.chans.set c.Send { ch with closed := true } := by
        simpa using hclose.symm
      subst hchans
      refine ⟨hinv.made_send, by simpa using hinv.made_len, ?_, keyed_mapDelete _ hinv.keyed,
        ?_, ?_⟩
      · intro p hp
        exact hinv.registered p ((mapDelete_sublist _ _).subset hp)
      · intro p hp
        have hpm := (mapDelete_sublist _ _).subset hp
        simp only [mapDelete, List.mem_filter, decide_eq_true_eq] at hp
        have hne : p.2.Send ≠ c.Send := by
          intro heq
          have := hinv.made_inj (hinv.registered p hpm) hc heq
          exact hp.2 (by rw [← (hinv.keyed.1 p hpm).1, this])
        rw [openQueue_set_other _ _ _ _ hne]
        exact hinv.queues p hpm
      · intro x hx
        rcases mem_set_cases hx with rfl | hx
        · exact hinv.bounded ch (getElem?_mem_chans hch)
        · exact hinv.bounded x hx

/-- The range loop of the route step keeps the invariant, whatever entries it visits,
as long as their clients were made by `HandleWebSocket`. -/
theorem Invariant.routeLoop {made : List Client} (marshal : Message → Option Bytes)
    (message : Message) (entries : List (Nat × Client))
    (hentries : ∀ p ∈ entries, p.2 ∈ made) (s s' : WebSocketService)
    (hinv : Invariant made s) (hrun : routeLoop marshal message entries s = .ok s') :
    Invariant made s' := by
  induction entries generalizing s with
  | nil =>
    simp only [services.routeLoop, Except.ok.injEq] at hrun
    exact hrun ▸ hinv
  | cons p rest ih =>
    obtain ⟨k, c⟩ := p
    have hc : c ∈ made := hentries (k, c) (List.mem_cons_self _ _)
    have ih' := ih (fun q hq => hentries q (List.mem_cons_of_mem _ hq))
    simp only [services.routeLoop] at hrun
    split at hrun
    · split at hrun
      · split at hrun
        · rename_i chans hsent
          refine ih' _ ?_ hrun
          cases hch : s.chans[c.Send]? with
          | none => simp [trySend, hch] at hsent
          | some ch =>
            simp only [trySend, hch] at hsent
            split at hsent
            · cases hsent
            · split at hsent
              · rename_i hopen hroom
                simp only [SendResult.sent.injEq] at hsent
                subst hsent
                have hb := hinv.bounded ch (getElem?_mem_chans hch)
                refine ⟨hinv.made_send, by simpa using hinv.made_len, hinv.registered,
                  hinv.keyed, ?_, ?_⟩
                · intro q hq
                  have hsame := openQueue_set_alike s.chans c.Send q.2.Send ch
                    ⟨ch.buf ++ [serializeMessage marshal message], ch.cap, ch.closed⟩
                    hch rfl rfl
                  exact hsame.trans (hinv.queues q hq)
                · intro x hx
                  rcases mem_set_cases hx with rfl | hx
                  · refine ⟨hb.1, ?_⟩
                    simp only [List.length_append, List.length_singleton]
                    have := hb.1
                    omega
                  · exact hinv.bounded x hx
              · cases hsent
        · cases hrun
        · split at hrun
          · cases hrun
          · rename_i chans hclose
            exact ih' _ (hinv.evict hc hclose) hrun
      · exact ih' s hinv hrun
    · exact ih' s hinv hrun

/-- The invariant holds of the new service, with no client made. -/
theorem Invariant.init : Invariant [] NewWebSocketService :=
  ⟨by simp, rfl, by simp [NewWebSocketService],
    ⟨by simp [NewWebSocketService], by simp [NewWebSocketService]⟩,
    by simp [NewWebSocketService], by simp [NewWebSocketService]⟩

/-- A successful `HandleWebSocket` call followed by the hub taking the register keeps
the invariant, with the new client added to the clients made. -/
theorem Invariant.connect {made : List Client} {s : WebSocketService}
    (hinv : Invariant made s) (conn userID : Nat) (username : String) :
    Invariant (made ++ [⟨userID, userID, username, conn, made.length⟩])
      ⟨mapSet s.clients userID ⟨userID, userID, username, conn, made.length⟩,
        s.chans ++ [⟨[], 256, false⟩]⟩ := by
  have hfresh : (s.chans ++ [(⟨[], 256, false⟩ : Chan)])[made.length]? =
      some ⟨[], 256, false⟩ := by
    rw [hinv.made_len]; simp
  refine ⟨?_, by simp [hinv.made_len], ?_, ?_, ?_, ?_⟩
  · intro i c hi
    by_cases hlt : i < made.length
    · rw [List.getElem?_append_left hlt] at hi
      exact hinv.made_send i c hi
    · by_cases heq : i = made.length
      · subst heq
        simp at hi
        subst hi
        exact ⟨rfl, rfl⟩
      · rw [List.getElem?_eq_none (by simp; omega)] at hi
        cases hi
  · intro p hp
    rcases List.mem_cons.mp hp with rfl | hp
    · simp
    · exact List.mem_append_left _ (hinv.registered p ((mapDelete_sublist _ _).subset hp))
  · exact keyed_mapSet (⟨userID, userID, username, conn, made.length⟩ : Client) rfl hinv.keyed
  · intro p hp
    rcases List.mem_cons.mp hp with rfl | hp
    · simp only [openQueue, hfresh]
      rfl
    · exact openQueue_append _ (hinv.queues p ((mapDelete_sublist _ _).subset hp))
  · intro x hx
    rcases List.mem_append.mp hx with hx | hx
    · exact hinv.bounded x hx
    · simp only [List.mem_singleton] at hx
      subst hx
      exact ⟨rfl, by simp⟩

/-- A writer flow taking an item off a queue keeps the invariant. -/
theorem Invariant.recv {made : List Client} {s : WebSocketService}
    (hinv : Invariant made s) (i : Nat) :
    Invariant made { s with chans := chanRecv s.chans i } := by
  cases hch : s.chans[i]? with
  | none =>
    have : chanRecv s.chans i = s.chans := by simp [chanRecv, hch]
    rw [this]
    exact hinv
  | some ch =>
    have hrecv : chanRecv s.chans i = s.chans.set i ⟨ch.buf.tail, ch.cap, ch.closed⟩ := by
      simp [chanRecv, hch]
    rw [hrecv]
    refine ⟨hinv.made_send, by simpa using hinv.made_len, hinv.registered, hinv.keyed, ?_, ?_⟩
    · intro q hq
      exact (openQueue_set_alike s.chans i q.2.Send ch ⟨ch.buf.tail, ch.cap, ch.closed⟩
        hch rfl rfl).trans (hinv.queues q hq)
    · intro x hx
      have hb := hinv.bounded ch (getElem?_mem_chans hch)
      rcases mem_set_cases hx with rfl | hx
      · refine ⟨hb.1, ?_⟩
        simp only [List.length_tail]
        omega
      · exact hinv.bounded x hx

/-- Every event connection lifecycles can produce keeps the invariant, unless the hub
panics on it. -/
theorem Invariant.step {made : List Client} (marshal : Message → Option Bytes)
    {s s' : WebSocketService} (e : Event) (es : List Event)
    (hl : lifecycle made (e :: es) = true) (hinv : Invariant made s)
    (hstep : systemStep marshal s e = .ok s') :
    ∃ made', Invariant made' s' ∧ lifecycle made' es = true := by
  cases e with
  | connect upgrade userID username =>
    cases upgrade with
    | error err =>
      simp only [systemStep, HandleWebSocket, hubOps, StartHub, Except.ok.injEq] at hstep
      exact ⟨made, hstep ▸ hinv, by simpa [lifecycle] using hl⟩
    | ok conn =>
      simp only [systemStep, HandleWebSocket, hubOps, StartHub, hubStep, newClient,
        Except.ok.injEq] at hstep
      refine ⟨made ++ [⟨userID, userID, username, conn, made.length⟩], ?_,
        by simpa [lifecycle] using hl⟩
      rw [← hstep, ← hinv.made_len]
      exact hinv.connect conn userID username
  | hub op =>
    cases op with
    | register c => simp [lifecycle] at hl
    | unregister c =>
      simp only [lifecycle, Bool.and_eq_true, decide_eq_true_eq] at hl
      refine ⟨made, ?_, hl.2⟩
      simp only [systemStep, hubStep] at hstep
      split at hstep
      · split at hstep
        · cases hstep
        · rename_i chans hclose
          simp only [Except.ok.injEq] at hstep
          exact hstep ▸ hinv.evict hl.1 hclose
      · simp only [Except.ok.injEq] at hstep
        exact hstep ▸ hinv
    | broadcast message =>
      refine ⟨made, ?_, by simpa [lifecycle] using hl⟩
      exact Invariant.routeLoop marshal message s.clients hinv.registered s s' hinv hstep
  | recv i =>
    simp only [systemStep, Except.ok.injEq] at hstep
    exact ⟨made, hstep ▸ hinv.recv i, by simpa [lifecycle] using hl⟩

/-- Every state the hub reaches through events connection lifecycles can produce
satisfies the invariant for some list of clients made. -/
theorem Invariant.run {made : List Client} (marshal : Message → Option Bytes)
    (es : List Event) {s s' : WebSocketService} (hl : lifecycle made es = true)
    (hinv : Invariant made s) (hrun : services.run marshal s es = .ok s') :
    ∃ made', Invariant made' s' := by
  induction es generalizing made s with
  | nil =>
    simp only [services.run, Except.ok.injEq] at hrun
    exact ⟨made, hrun ▸ hinv⟩
  | cons e rest ih =>
    simp only [services.run] at hrun
    split at hrun
    · cases hrun
    · rename_i s1 hstep
      obtain ⟨made1, hinv1, hl1⟩ := Invariant.step marshal e rest hl hinv hstep
      exact ih hl1 hinv1 hrun

/-- Every state the hub reaches from the new service, through events connection
lifecycles can produce, is well formed. -/
theorem reachable_wellFormed (marshal : Message → Option Bytes) (es : List Event)
    {s : WebSocketService} (hl : lifecycle [] es = true)
    (hrun : run marshal NewWebSocketService es = .ok s) : WellFormed s := by
  obtain ⟨made, hinv⟩ := Invariant.run marshal es hl Invariant.init hrun
  exact hinv.wellFormed

/-! ## Routing -/

/-- C1 (routing correctness).  In a well-formed hub state, routing a `private_message`
envelope whose recipient is registered with fewer than 256 queued items succeeds, leaves
the registry as it was, appends the serialisation of the envelope (one item) to the
recipient's queue, and leaves the queue of every other registered client, and every
other channel, unchanged. -/
theorem route_delivers_to_recipient (marshal : Message → Option Bytes)
    (s : WebSocketService) (message : Message) (c : Client) (ch : Chan)
    (hwf : WellFormed s) (hty : message.Type_ = "private_message")
    (hreg : mapGet s.clients message.ToUserID = some c)
    (hch : s.chans[c.Send]? = some ch) (hroom : ch.buf.length < 256) :
    ∃ s', hubStep marshal s (.broadcast message) = .ok s' ∧
      s'.clients = s.clients ∧
      s'.chans[c.Send]? =
        some { ch with buf := ch.buf ++ [serializeMessage marshal message] } ∧
      (∀ p ∈ s.clients, p.2 ≠ c → s'.chans[p.2.Send]? = s.chans[p.2.Send]?) ∧
      (∀ i, i ≠ c.Send → s'.chans[i]? = s.chans[i]?) := by
  refine ⟨_, route_with_room marshal hwf hty hreg hch hroom, rfl, ?_, ?_, ?_⟩
  · exact getElem?_set_same _ _ _ _ hch
  · intro p hp hne
    exact getElem?_set_other _ _ _ _ (wellFormed_other_queue hwf hreg hp hne)
  · intro i hi
    exact getElem?_set_other _ _ _ _ hi

/-- C1, at the state with alice and bob registered and the envelope addressed to bob. -/
theorem route_delivers_to_recipient_witness :
    WellFormed aliceBob ∧
    ∃ s', hubStep sampleMarshal aliceBob (.broadcast hiMessage) = .ok s' ∧
      s'.clients = aliceBob.clients ∧
      s'.chans[bob.Send]? =
        some { freshQueue with
          buf := freshQueue.buf ++ [serializeMessage sampleMarshal hiMessage] } ∧
      (∀ p ∈ aliceBob.clients, p.2 ≠ bob → s'.chans[p.2.Send]? = aliceBob.chans[p.2.Send]?) ∧
      (∀ i, i ≠ bob.Send → s'.chans[i]? = aliceBob.chans[i]?) :=
  ⟨by decide,
    route_delivers_to_recipient sampleMarshal aliceBob hiMessage bob freshQueue
      (by decide) rfl rfl rfl (by decide)⟩

/-- C4 (backpressure eviction).  In a well-formed hub state where the registered
recipient's queue already holds 256 items, routing one more `private_message` to that
recipient returns without a panic, removes the recipient's registry entry (and no
other), and turns the recipient's queue from open to closed (one `close`) with its
contents unchanged: the new message is not appended.  No other channel changes. -/
theorem route_evicts_full_recipient (marshal : Message → Option Bytes)
    (s : WebSocketService) (message : Message) (c : Client) (ch : Chan)
    (hwf : WellFormed s) (hty : message.Type_ = "private_message")
    (hreg : mapGet s.clients message.ToUserID = some c)
    (hch : s.chans[c.Send]? = some ch) (hfull : ch.buf.length = 256) :
    ∃ s', hubStep marshal s (.broadcast message) = .ok s' ∧
      mapGet s'.clients message.ToUserID = none ∧
      (∀ p ∈ s'.clients, p.2.Send ≠ c.Send) ∧
      (∀ k, k ≠ message.ToUserID → mapGet s'.clients k = mapGet s.clients k) ∧
      ch.closed = false ∧
      s'.chans[c.Send]? = some { ch with closed := true } ∧
      (∀ i, i ≠ c.Send → s'.chans[i]? = s.chans[i]?) := by
  obtain ⟨ch', hch', hopen, hcap⟩ := wellFormed_queue hwf hreg
  rw [hch] at hch'
  obtain rfl : ch = ch' := Option.some.inj hch'
  obtain ⟨hid, -, -⟩ := wellFormed_split hwf hreg
  have hnlt : ¬ ch.buf.length < ch.cap := by omega
  refine ⟨⟨mapDelete s.clients c.ID, s.chans.set c.Send { ch with closed := true }⟩,
    ?_, ?_, ?_, ?_, hopen, ?_, ?_⟩
  · rw [route_wellFormed marshal hwf hty hreg]
    simp [routeOne, trySend, chanClose, hch, hopen, hnlt]
  · rw [hid]; exact mapGet_mapDelete_self _ _
  · intro p hp heq
    simp only [mapDelete, List.mem_filter, decide_eq_true_eq] at hp
    have := hwf.2.2.2 p hp.1 (message.ToUserID, c) (mapGet_mem hreg) heq
    exact hp.2 (by rw [this, hid])
  · intro k hk
    rw [hid]; exact mapGet_mapDelete_ne _ hk
  · exact getElem?_set_same _ _ _ _ hch
  · intro i hi
    exact getElem?_set_other _ _ _ _ hi

/-- C4, at the state where bob's queue holds 256 undrained items. -/
theorem route_evicts_full_recipient_witness :
    WellFormed aliceBobStalled ∧
    ∃ s', hubStep sampleMarshal aliceBobStalled (.broadcast hiMessage) = .ok s' ∧
      mapGet s'.clients hiMessage.ToUserID = none ∧
      (∀ p ∈ s'.clients, p.2.Send ≠ bob.Send) ∧
      (∀ k, k ≠ hiMessage.ToUserID → mapGet s'.clients k = mapGet aliceBobStalled.clients k) ∧
      (Chan.mk (List.replicate 256 []) 256 false).closed = false ∧
      s'.chans[bob.Send]? = some { Chan.mk (List.replicate 256 []) 256 false with closed := true } ∧
      (∀ i, i ≠ bob.Send → s'.chans[i]? = aliceBobStalled.chans[i]?) :=
  ⟨by decide,
    route_evicts_full_recipient sampleMarshal aliceBobStalled hiMessage bob
      (Chan.mk (List.replicate 256 []) 256 false) (by decide) rfl rfl rfl
      (List.length_replicate 256 [])⟩

/-- C6 (silent miss).  In every hub state in which no registered client has the
recipient's user id, routing an envelope addressed to that id, whether submitted
directly or built by `SendPrivateMessage`, returns without a panic and leaves the whole
state (registry and every queue) as it was. -/
theorem route_to_unregistered_is_silent (marshal : Message → Option Bytes)
    (s : WebSocketService) (toUserID : Nat)
    (hmiss : ∀ p ∈ s.clients, p.2.UserID ≠ toUserID) :
    (∀ message : Message, message.ToUserID = toUserID →
      hubStep marshal s (.broadcast message) = .ok s) ∧
    (∀ (fromUserID : Nat) (content : String),
      hubStep marshal s (SendPrivateMessage fromUserID toUserID content) = .ok s) := by
  constructor
  · intro message hto
    exact routeLoop_no_match marshal message s.clients s
      (fun p hp h => hmiss p hp (by rw [h.2, hto]))
  · intro fromUserID content
    exact routeLoop_no_match marshal _ s.clients s (fun p hp h => hmiss p hp h.2)

/-- C6, at the state with alice and bob registered and recipient id 3. -/
theorem route_to_unregistered_is_silent_witness :
    (∀ p ∈ aliceBob.clients, p.2.UserID ≠ 3) ∧
    (∀ message : Message, message.ToUserID = 3 →
      hubStep sampleMarshal aliceBob (.broadcast message) = .ok aliceBob) ∧
    (∀ (fromUserID : Nat) (content : String),
      hubStep sampleMarshal aliceBob (SendPrivateMessage fromUserID 3 content) = .ok aliceBob) :=
  ⟨by decide, route_to_unregistered_is_silent sampleMarshal aliceBob 3 (by decide)⟩

/-! ## Registration and deregistration -/

/-- C5 (identity uniqueness, last connect wins).  For every sequence `cs` of clients
built as `HandleWebSocket` builds them (`ID = UserID`) and one more such client `c`:
registering them in order from the new service never panics; in the state reached, and
in the state before `c` was registered, at most one registered client has any given user
id; after `register(c)` the entry for the id of `c` is `c`, every registered client with
that user id is `c`, the entries for all other ids are as before, and no queue changed.
The heap of channels `chans` the clients refer to is arbitrary. -/
theorem register_last_connect_wins (marshal : Message → Option Bytes) (chans : List Chan)
    (cs : List Client) (c : Client) (hcs : ∀ x ∈ cs, x.ID = x.UserID)
    (hc : c.ID = c.UserID) :
    ∃ s s', StartHub marshal { NewWebSocketService with chans := chans }
        (cs.map HubOp.register) = .ok s ∧
      hubStep marshal s (.register c) = .ok s' ∧
      StartHub marshal { NewWebSocketService with chans := chans }
        ((cs ++ [c]).map HubOp.register) = .ok s' ∧
      (∀ u, (s.clients.filter (fun p => decide (p.2.UserID = u))).length ≤ 1) ∧
      (∀ u, (s'.clients.filter (fun p => decide (p.2.UserID = u))).length ≤ 1) ∧
      mapGet s'.clients c.UserID = some c ∧
      (∀ p ∈ s'.clients, p.2.UserID = c.UserID → p.2 = c) ∧
      (∀ u, u ≠ c.UserID → mapGet s'.clients u = mapGet s.clients u) ∧
      s'.chans = s.chans := by
  have h0 : Keyed ({ NewWebSocketService with chans := chans } : WebSocketService).clients :=
    ⟨by simp [NewWebSocketService], by simp [NewWebSocketService]⟩
  obtain ⟨s, hs, hk, -⟩ := StartHub_registers marshal cs hcs _ h0
  have hk' : Keyed (mapSet s.clients c.ID c) := keyed_mapSet c hc hk
  refine ⟨s, ⟨mapSet s.clients c.ID c, s.chans⟩, hs, rfl, ?_, keyed_at_most_one hk,
    keyed_at_most_one hk', ?_, ?_, ?_, rfl⟩
  · rw [List.map_append, StartHub_append, hs]
    rfl
  · rw [← hc]; exact mapGet_mapSet_self _ _ _
  · intro p hp hu
    rcases List.mem_cons.mp hp with rfl | hp'
    · rfl
    · exfalso
      simp only [mapDelete, List.mem_filter, decide_eq_true_eq] at hp'
      exact hp'.2 (by rw [← (hk.1 p hp'.1).2, hu, hc])
  · intro u hu
    rw [← hc] at hu
    exact mapGet_mapSet_ne _ _ hu

/-- C5, registering alice, bob and then a second connection of user 1. -/
theorem register_last_connect_wins_witness :
    (∀ x ∈ [alice, bob], x.ID = x.UserID) ∧ aliceAgain.ID = aliceAgain.UserID ∧
    ∃ s s', StartHub sampleMarshal
        { NewWebSocketService with chans := [freshQueue, freshQueue] }
        ([alice, bob].map HubOp.register) = .ok s ∧
      hubStep sampleMarshal s (.register aliceAgain) = .ok s' ∧
      StartHub sampleMarshal { NewWebSocketService with chans := [freshQueue, freshQueue] }
        (([alice, bob] ++ [aliceAgain]).map HubOp.register) = .ok s' ∧
      (∀ u, (s.clients.filter (fun p => decide (p.2.UserID = u))).length ≤ 1) ∧
      (∀ u, (s'.clients.filter (fun p => decide (p.2.UserID = u))).length ≤ 1) ∧
      mapGet s'.clients aliceAgain.UserID = some aliceAgain ∧
      (∀ p ∈ s'.clients, p.2.UserID = aliceAgain.UserID → p.2 = aliceAgain) ∧
      (∀ u, u ≠ aliceAgain.UserID → mapGet s'.clients u = mapGet s.clients u) ∧
      s'.chans = s.chans :=
  ⟨by decide, rfl,
    register_last_connect_wins sampleMarshal [freshQueue, freshQueue] [alice, bob] aliceAgain
      (by decide) rfl⟩

/-- C7 (unregister of the current client).  In a well-formed hub state whose registry
entry for the user id of `c` is `c` itself, `unregister(c)` returns without a panic,
removes that entry and no other, and turns the queue of `c` from open to closed, its
contents and every other channel unchanged. -/
theorem unregister_current_client (marshal : Message → Option Bytes)
    (s : WebSocketService) (c : Client) (hwf : WellFormed s)
    (hcur : mapGet s.clients c.UserID = some c) :
    ∃ s' ch, s.chans[c.Send]? = some ch ∧ ch.closed = false ∧
      hubStep marshal s (.unregister c) = .ok s' ∧
      mapGet s'.clients c.UserID = none ∧
      (∀ k, k ≠ c.UserID → mapGet s'.clients k = mapGet s.clients k) ∧
      s'.chans[c.Send]? = some { ch with closed := true } ∧
      (∀ i, i ≠ c.Send → s'.chans[i]? = s.chans[i]?) := by
  obtain ⟨ch, hch, hopen, -⟩ := wellFormed_queue hwf hcur
  obtain ⟨hid, -, -⟩ := wellFormed_split hwf hcur
  refine ⟨⟨mapDelete s.clients c.ID, s.chans.set c.Send { ch with closed := true }⟩, ch,
    hch, hopen, ?_, ?_, ?_, ?_, ?_⟩
  · exact unregister_registered marshal (hid ▸ hcur) hch hopen
  · rw [hid]; exact mapGet_mapDelete_self _ _
  · intro k hk
    rw [hid]; exact mapGet_mapDelete_ne _ hk
  · exact getElem?_set_same _ _ _ _ hch
  · intro i hi
    exact getElem?_set_other _ _ _ _ hi

/-- C7, unregistering bob from the state with alice and bob registered. -/
theorem unregister_current_client_witness :
    WellFormed aliceBob ∧ mapGet aliceBob.clients bob.UserID = some bob ∧
    ∃ s' ch, aliceBob.chans[bob.Send]? = some ch ∧ ch.closed = false ∧
      hubStep sampleMarshal aliceBob (.unregister bob) = .ok s' ∧
      mapGet s'.clients bob.UserID = none ∧
      (∀ k, k ≠ bob.UserID → mapGet s'.clients k = mapGet aliceBob.clients k) ∧
      s'.chans[bob.Send]? = some { ch with closed := true } ∧
      (∀ i, i ≠ bob.Send → s'.chans[i]? = aliceBob.chans[i]?) :=
  ⟨by decide, rfl, unregister_current_client sampleMarshal aliceBob bob (by decide) rfl⟩

/-- C2 (stale unregister), evaluated on the code.  User 1 connects (`alice`), connects
again (`aliceAgain`, which replaces the entry), and then the unregister of the first
connection arrives: the hub finds an entry under id 1, deletes it and closes the queue of
`alice`.  The registry no longer maps user 1 to the newer client, whose queue stays
open. -/
theorem stale_unregister_evicts_newer_client :
    run sampleMarshal NewWebSocketService
        [.connect (.ok 0) 1 "alice", .connect (.ok 1) 1 "alice"] =
      .ok ⟨[(1, aliceAgain)], [freshQueue, freshQueue]⟩ ∧
    hubStep sampleMarshal ⟨[(1, aliceAgain)], [freshQueue, freshQueue]⟩ (.unregister alice) =
      .ok ⟨[], [{ freshQueue with closed := true }, freshQueue]⟩ ∧
    mapGet ([] : List (Nat × Client)) 1 ≠ some aliceAgain :=
  ⟨rfl, rfl, by decide⟩

/-- C3 (exactly-once queue close), evaluated on the code.  User 1 connects; the reader
flow of that connection meets a read error and submits its unregister, which closes the
queue; user 1 connects again; the writer flow of the first connection, woken by its
closed queue, submits its own unregister.  The hub finds the entry of the new connection
under id 1 and closes the queue of the old client a second time: the hub goroutine
panics with "close of closed channel". -/
theorem reconnect_between_unregisters_panics :
    hubOps (HandleWebSocket NewWebSocketService (.ok 0) 1 "alice").2 = [.register alice] ∧
    hubOps (readPump sampleUnmarshal alice [.err]).effects = [.unregister alice] ∧
    hubOps (writePump alice [.closed]).effects = [.unregister alice] ∧
    run sampleMarshal NewWebSocketService
        [.connect (.ok 0) 1 "alice", .hub (.unregister alice)] =
      .ok ⟨[], [{ freshQueue with closed := true }]⟩ ∧
    lifecycle []
        [.connect (.ok 0) 1 "alice", .hub (.unregister alice),
         .connect (.ok 1) 1 "alice", .hub (.unregister alice)] = true ∧
    run sampleMarshal NewWebSocketService
        [.connect (.ok 0) 1 "alice", .hub (.unregister alice),
         .connect (.ok 1) 1 "alice", .hub (.unregister alice)] =
      .error .closeOfClosedChannel :=
  ⟨rfl, rfl, rfl, rfl, by decide, rfl⟩

/-! ## Teardown of a connection -/

/-- C8 as stated fails: when the reader flow ends on a read error and the writer flow
ends on its closed queue, the two deferred functions together call `Close` on the
connection twice and submit two unregisters, not one of each. -/
theorem teardown_runs_in_both_flows :
    (readPump sampleUnmarshal alice [.err]).returned = true ∧
    (writePump alice [.closed]).returned = true ∧
    connCloses alice.Conn ((readPump sampleUnmarshal alice [.err]).effects ++
      (writePump alice [.closed]).effects) = 2 ∧
    unregisters alice ((readPump sampleUnmarshal alice [.err]).effects ++
      (writePump alice [.closed]).effects) = 2 ∧
    ¬ (connCloses alice.Conn ((readPump sampleUnmarshal alice [.err]).effects ++
      (writePump alice [.closed]).effects) = 1) :=
  ⟨rfl, rfl, by decide, by decide, by decide⟩

/-- C8 amended.  When both flows of a connection have returned, each has submitted one
unregister for the client and called `Close` on the connection once: two unregisters and
two `Close` calls in all.  When the hub processes the two unregisters one after the
other from a well-formed state in which the client is registered, the first removes the
registry entry and closes the queue (open before, closed after) and the second changes
nothing. -/
theorem teardown_of_both_flows (unmarshal : Bytes → Option Message)
    (marshal : Message → Option Bytes) (client : Client) (reads : List ReadResult)
    (recvs : List RecvResult) (s : WebSocketService)
    (hr : (readPump unmarshal client reads).returned = true)
    (hw : (writePump client recvs).returned = true)
    (hwf : WellFormed s) (hcur : mapGet s.clients client.UserID = some client) :
    connCloses client.Conn ((readPump unmarshal client reads).effects ++
      (writePump client recvs).effects) = 2 ∧
    unregisters client ((readPump unmarshal client reads).effects ++
      (writePump client recvs).effects) = 2 ∧
    ∃ s' ch, s.chans[client.Send]? = some ch ∧ ch.closed = false ∧
      hubStep marshal s (.unregister client) = .ok s' ∧
      hubStep marshal s' (.unregister client) = .ok s' ∧
      mapGet s'.clients client.UserID = none ∧
      s'.chans[client.Send]? = some { ch with closed := true } := by
  obtain ⟨hr1, hr2⟩ := readPump_teardown unmarshal client reads hr
  obtain ⟨hw1, hw2⟩ := writePump_teardown client recvs hw
  obtain ⟨ch, hch, hopen, -⟩ := wellFormed_queue hwf hcur
  obtain ⟨hid, -, -⟩ := wellFormed_split hwf hcur
  refine ⟨by rw [connCloses_append, hr1, hw1], by rw [unregisters_append, hr2, hw2],
    ⟨mapDelete s.clients client.ID, s.chans.set client.Send { ch with closed := true }⟩, ch,
    hch, hopen, unregister_registered marshal (hid ▸ hcur) hch hopen, ?_, ?_, ?_⟩
  · exact unregister_absent marshal (mapGet_mapDelete_self _ _)
  · rw [hid]; exact mapGet_mapDelete_self _ _
  · exact getElem?_set_same _ _ _ _ hch

/-- C8 amended, for bob: a read error and a closed queue, from the state with alice and
bob registered. -/
theorem teardown_of_both_flows_witness :
    (readPump sampleUnmarshal bob [.message [1, 2], .err]).returned = true ∧
    (writePump bob [.item [7] false false, .closed]).returned = true ∧
    WellFormed aliceBob ∧ mapGet aliceBob.clients bob.UserID = some bob ∧
    connCloses bob.Conn ((readPump sampleUnmarshal bob [.message [1, 2], .err]).effects ++
      (writePump bob [.item [7] false false, .closed]).effects) = 2 ∧
    unregisters bob ((readPump sampleUnmarshal bob [.message [1, 2], .err]).effects ++
      (writePump bob [.item [7] false false, .closed]).effects) = 2 ∧
    ∃ s' ch, aliceBob.chans[bob.Send]? = some ch ∧ ch.closed = false ∧
      hubStep sampleMarshal aliceBob (.unregister bob) = .ok s' ∧
      hubStep sampleMarshal s' (.unregister bob) = .ok s' ∧
      mapGet s'.clients bob.UserID = none ∧
      s'.chans[bob.Send]? = some { ch with closed := true } :=
  ⟨rfl, rfl, by decide, rfl,
    teardown_of_both_flows sampleUnmarshal sampleMarshal bob [.message [1, 2], .err]
      [.item [7] false false, .closed] aliceBob rfl rfl (by decide) rfl⟩

/-! ## The sender field and the injection point -/

/-- C9 (untrusted sender field).  Every envelope the reader flow of client `c` sends to
the hub has `from_user_id` equal to the user id of `c`; a frame that decodes to `m` is
forwarded as `m` with its sender replaced by that id; and two frames whose decodings
differ only in `from_user_id` make the reader flow behave identically. -/
theorem readPump_overwrites_sender (unmarshal : Bytes → Option Message) (c : Client)
    (data data' : Bytes) (m : Message) (wireFrom : Nat) (rest : List ReadResult)
    (hd : unmarshal data = some m)
    (hd' : unmarshal data' = some { m with FromUserID := wireFrom }) :
    (∀ reads : List ReadResult, ∀ e ∈ hubOps (readPump unmarshal c reads).effects,
      ∀ fwd : Message, e = .broadcast fwd → fwd.FromUserID = c.UserID) ∧
    (readPump unmarshal c (.message data :: rest)).effects =
      .send (.broadcast { m with FromUserID := c.UserID }) ::
        (readPump unmarshal c rest).effects ∧
    readPump unmarshal c (.message data' :: rest) =
      readPump unmarshal c (.message data :: rest) := by
  refine ⟨?_, ?_, ?_⟩
  · intro reads
    induction reads with
    | nil => simp [readPump, hubOps]
    | cons r tl ih =>
      cases r with
      | err =>
        intro e he fwd hfwd
        simp [readPump, hubOps] at he
        rw [he] at hfwd
        cases hfwd
      | message d =>
        cases hu : unmarshal d with
        | none => simpa [readPump, hu] using ih
        | some msg =>
          intro e he fwd hfwd
          simp only [readPump, hu, hubOps, List.mem_cons] at he
          rcases he with rfl | he
          · cases hfwd
            rfl
          · exact ih e he fwd hfwd
  · simp [readPump, hd]
  · simp [readPump, hd, hd']

/-- C9, for alice and two frames that claim to come from users 9 and 5. -/
theorem readPump_overwrites_sender_witness :
    sampleUnmarshal [9, 2] =
      some { Type_ := "private_message", FromUserID := 9, ToUserID := 2, Content := "",
             Timestamp := "", Data := none } ∧
    (∀ reads : List ReadResult, ∀ e ∈ hubOps (readPump sampleUnmarshal alice reads).effects,
      ∀ fwd : Message, e = .broadcast fwd → fwd.FromUserID = alice.UserID) ∧
    (readPump sampleUnmarshal alice [.message [9, 2], .err]).effects =
      .send (.broadcast ⟨"private_message", alice.UserID, 2, "", "", none⟩) ::
        (readPump sampleUnmarshal alice [.err]).effects ∧
    readPump sampleUnmarshal alice [.message [5, 2], .err] =
      readPump sampleUnmarshal alice [.message [9, 2], .err] :=
  ⟨rfl,
    readPump_overwrites_sender sampleUnmarshal alice [9, 2] [5, 2]
      { Type_ := "private_message", FromUserID := 9, ToUserID := 2, Content := "",
        Timestamp := "", Data := none } 5 [.err] rfl rfl⟩

/-- C10 (delivery through `SendPrivateMessage`).  `SendPrivateMessage(from, to, content)`
submits the envelope with type "private_message", the given sender, recipient and
content, an empty timestamp and no payload.  In a well-formed hub state where the sender
and the recipient are two different registered users and the recipient's queue holds
fewer than 256 items, the hub step on it returns without a panic, leaves the registry
unchanged, appends the serialisation of that envelope (one item) to the recipient's
queue and leaves the sender's queue, and every other channel, unchanged. -/
theorem sendPrivateMessage_delivers (marshal : Message → Option Bytes)
    (s : WebSocketService) (fromUserID toUserID : Nat) (content : String)
    (sender recipient : Client) (ch : Chan) (hwf : WellFormed s)
    (hfrom : mapGet s.clients fromUserID = some sender)
    (hto : mapGet s.clients toUserID = some recipient) (hne : fromUserID ≠ toUserID)
    (hch : s.chans[recipient.Send]? = some ch) (hroom : ch.buf.length < 256) :
    SendPrivateMessage fromUserID toUserID content =
      .broadcast { Type_ := "private_message", FromUserID := fromUserID,
                   ToUserID := toUserID, Content := content, Timestamp := "", Data := none } ∧
    ∃ s', hubStep marshal s (SendPrivateMessage fromUserID toUserID content) = .ok s' ∧
      s'.clients = s.clients ∧
      s'.chans[recipient.Send]? =
        some { ch with buf := ch.buf ++ [serializeMessage marshal
          { Type_ := "private_message", FromUserID := fromUserID, ToUserID := toUserID,
            Content := content, Timestamp := "", Data := none }] } ∧
      s'.chans[sender.Send]? = s.chans[sender.Send]? ∧
      (∀ i, i ≠ recipient.Send → s'.chans[i]? = s.chans[i]?) := by
  have hstep := @route_with_room marshal s
    ⟨"private_message", fromUserID, toUserID, content, "", none⟩ recipient ch
    hwf rfl hto hch hroom
  have hsr : sender ≠ recipient := by
    intro h
    have h1 := (wellFormed_split hwf hfrom).2.1
    have h2 := (wellFormed_split hwf hto).2.1
    exact hne (by rw [← h1, ← h2, h])
  refine ⟨rfl, _, hstep, rfl, getElem?_set_same _ _ _ _ hch, ?_, ?_⟩
  · exact getElem?_set_other _ _ _ _
      (wellFormed_other_queue hwf hto (mapGet_mem hfrom) hsr)
  · intro i hi
    exact getElem?_set_other _ _ _ _ hi

/-- C10, the example scenario: alice (user 1) and bob (user 2) connect to the new
service and `SendPrivateMessage(1, 2, "hi")` is called. -/
theorem sendPrivateMessage_delivers_witness :
    run sampleMarshal NewWebSocketService
        [.connect (.ok 0) 1 "alice", .connect (.ok 1) 2 "bob"] = .ok aliceBob ∧
    WellFormed aliceBob ∧
    (SendPrivateMessage 1 2 "hi" = .broadcast hiMessage ∧
    ∃ s', hubStep sampleMarshal aliceBob (SendPrivateMessage 1 2 "hi") = .ok s' ∧
      s'.clients = aliceBob.clients ∧
      s'.chans[bob.Send]? =
        some { freshQueue with
          buf := freshQueue.buf ++ [serializeMessage sampleMarshal hiMessage] } ∧
      s'.chans[alice.Send]? = aliceBob.chans[alice.Send]? ∧
      (∀ i, i ≠ bob.Send → s'.chans[i]? = aliceBob.chans[i]?)) :=
  ⟨rfl, by decide,
    sendPrivateMessage_delivers sampleMarshal aliceBob 1 2 "hi" alice bob freshQueue
      (by decide) rfl rfl (by decide) rfl (by decide)⟩

/-! ## Order of delivery -/

/-- Appending to a queue keeps the state well formed. -/
theorem wellFormed_push {s : WebSocketService} {i : Nat} {ch : Chan} (buf : List Bytes)
    (hwf : WellFormed s) (hch : s.chans[i]? = some ch) :
    WellFormed ⟨s.clients, s.chans.set i { ch with buf := buf }⟩ := by
  refine ⟨hwf.1, hwf.2.1, ?_, hwf.2.2.2⟩
  intro p hp
  exact (openQueue_set_alike s.chans i p.2.Send ch ⟨buf, ch.cap, ch.closed⟩ hch rfl rfl).trans
    (hwf.2.2.1 p hp)

/-- Receiving as many times as a queue holds items yields its items, oldest first. -/
theorem drain_all (chans : List Chan) (i : Nat) (ch : Chan) (hch : chans[i]? = some ch) :
    drain ch.buf.length chans i = ch.buf := by
  obtain ⟨buf, cap, closed⟩ := ch
  induction buf generalizing chans with
  | nil => rfl
  | cons m rest ih =>
    have hnext : (chanRecv chans i)[i]? = some ⟨rest, cap, closed⟩ := by
      simp only [chanRecv, hch]
      exact getElem?_set_same _ _ _ _ hch
    simp only [List.length_cons, drain, chanFront, hch, List.head?_cons]
    rw [ih (chanRecv chans i) hnext]

/-- A writer flow whose writes succeed writes what it receives, in the order received. -/
theorem written_writePump (client : Client) (q : List Bytes) :
    written client.Conn (writePump client (received q)).effects = q := by
  induction q with
  | nil => rfl
  | cons m rest ih =>
    simp only [received, List.map_cons, writePump, Bool.false_eq_true, if_false, written,
      if_true]
    exact congrArg (List.cons m) ih

/-- C11 (per-recipient ordering).  In a well-formed hub state where the registered
recipient's queue has room for two more items, routing `private_message` envelope `a`
and then envelope `b`, both addressed to that recipient, returns without a panic, leaves
the registry unchanged and leaves the recipient's queue equal to its previous contents
followed by the serialisation of `a` and then of `b`.  Successive receives from that
queue yield its items oldest first, and a writer flow whose writes succeed writes the
items it receives to the transport in that same order. -/
theorem route_twice_keeps_order (marshal : Message → Option Bytes) (s : WebSocketService)
    (a b : Message) (c : Client) (ch : Chan) (hwf : WellFormed s)
    (ha : a.Type_ = "private_message") (hb : b.Type_ = "private_message")
    (hto : b.ToUserID = a.ToUserID)
    (hreg : mapGet s.clients a.ToUserID = some c)
    (hch : s.chans[c.Send]? = some ch) (hroom : ch.buf.length + 2 ≤ 256) :
    ∃ s', StartHub marshal s [.broadcast a, .broadcast b] = .ok s' ∧
      s'.clients = s.clients ∧
      s'.chans[c.Send]? = some { ch with
        buf := ch.buf ++ [serializeMessage marshal a, serializeMessage marshal b] } ∧
      drain (ch.buf.length + 2) s'.chans c.Send =
        ch.buf ++ [serializeMessage marshal a, serializeMessage marshal b] ∧
      written c.Conn (writePump c (received
          (ch.buf ++ [serializeMessage marshal a, serializeMessage marshal b]))).effects =
        ch.buf ++ [serializeMessage marshal a, serializeMessage marshal b] := by
  have h1 := route_with_room marshal hwf ha hreg hch (by omega)
  have hwf1 := wellFormed_push (ch.buf ++ [serializeMessage marshal a]) hwf hch
  have hch1 := getElem?_set_same s.chans c.Send ch
    ⟨ch.buf ++ [serializeMessage marshal a], ch.cap, ch.closed⟩ hch
  have hreg1 : mapGet s.clients b.ToUserID = some c := by rw [hto]; exact hreg
  have h2 := @route_with_room marshal
    ⟨s.clients, s.chans.set c.Send ⟨ch.buf ++ [serializeMessage marshal a], ch.cap, ch.closed⟩⟩
    b c ⟨ch.buf ++ [serializeMessage marshal a], ch.cap, ch.closed⟩ hwf1 hb hreg1 hch1
    (by simp only [List.length_append, List.length_singleton]; omega)
  have hfinal : (((s.chans.set c.Send
      ⟨ch.buf ++ [serializeMessage marshal a], ch.cap, ch.closed⟩).set c.Send
      ⟨(ch.buf ++ [serializeMessage marshal a]) ++ [serializeMessage marshal b], ch.cap,
        ch.closed⟩)[c.Send]?) =
      some ⟨ch.buf ++ [serializeMessage marshal a, serializeMessage marshal b], ch.cap,
        ch.closed⟩ := by
    rw [getElem?_set_same _ _ _ _ hch1]
    simp
  refine ⟨⟨s.clients, (s.chans.set c.Send
      ⟨ch.buf ++ [serializeMessage marshal a], ch.cap, ch.closed⟩).set c.Send
      ⟨(ch.buf ++ [serializeMessage marshal a]) ++ [serializeMessage marshal b], ch.cap,
        ch.closed⟩⟩, ?_, rfl, hfinal, ?_, written_writePump c _⟩
  · simp only [StartHub, h1, h2]
  · have := drain_all _ c.Send _ hfinal
    simpa using this

/-- C11, for two envelopes addressed to bob in the state with alice and bob registered. -/
theorem route_twice_keeps_order_witness :
    WellFormed aliceBob ∧
    ∃ s', StartHub sampleMarshal aliceBob
        [.broadcast hiMessage, .broadcast { hiMessage with Content := "again" }] = .ok s' ∧
      s'.clients = aliceBob.clients ∧
      s'.chans[bob.Send]? = some { freshQueue with
        buf := freshQueue.buf ++ [serializeMessage sampleMarshal hiMessage,
          serializeMessage sampleMarshal { hiMessage with Content := "again" }] } ∧
      drain (freshQueue.buf.length + 2) s'.chans bob.Send =
        freshQueue.buf ++ [serializeMessage sampleMarshal hiMessage,
          serializeMessage sampleMarshal { hiMessage with Content := "again" }] ∧
      written bob.Conn (writePump bob (received
          (freshQueue.buf ++ [serializeMessage sampleMarshal hiMessage,
            serializeMessage sampleMarshal { hiMessage with Content := "again" }]))).effects =
        freshQueue.buf ++ [serializeMessage sampleMarshal hiMessage,
          serializeMessage sampleMarshal { hiMessage with Content := "again" }] :=
  ⟨by decide,
    route_twice_keeps_order sampleMarshal aliceBob hiMessage
      { hiMessage with Content := "again" } bob freshQueue (by decide) rfl rfl rfl rfl rfl
      (by decide)⟩

/-- C14 (router ignores other kinds).  For every hub state and every envelope whose type
is not exactly "private_message", the route step returns without a panic and leaves the
whole state, registry and every queue, as it was, whoever the envelope is addressed to. -/
theorem route_ignores_other_kinds (marshal : Message → Option Bytes)
    (s : WebSocketService) (message : Message)
    (hty : message.Type_ ≠ "private_message") :
    hubStep marshal s (.broadcast message) = .ok s :=
  routeLoop_no_match marshal message s.clients s (fun _ _ h => hty h.1)

/-- C14, for an envelope of type "typing" addressed to the registered user bob. -/
theorem route_ignores_other_kinds_witness :
    mapGet aliceBob.clients 2 = some bob ∧
    hubStep sampleMarshal aliceBob
      (.broadcast { hiMessage with Type_ := "typing" }) = .ok aliceBob :=
  ⟨rfl, route_ignores_other_kinds sampleMarshal aliceBob { hiMessage with Type_ := "typing" }
    (by decide)⟩

/-! ## The reader flow and the upgrade boundary -/

/-- C17 (decode errors are recoverable).  For a frame that fails to decode, the reader
flow does nothing for that frame and goes on with the next read: its behaviour on a
sequence of reads is its behaviour on the sequence without that frame, wherever the
frame stands; after such a frame alone it has forwarded nothing, submitted no
unregister, not closed the transport, and is still in its loop. -/
theorem readPump_skips_undecodable_frame (unmarshal : Bytes → Option Message) (c : Client)
    (data : Bytes) (hbad : unmarshal data = none) :
    (∀ before after : List ReadResult,
      readPump unmarshal c (before ++ .message data :: after) =
        readPump unmarshal c (before ++ after)) ∧
    (∀ after : List ReadResult,
      readPump unmarshal c (.message data :: after) = readPump unmarshal c after) ∧
    readPump unmarshal c [.message data] = { effects := [], returned := false } := by
  have hskip : ∀ after : List ReadResult,
      readPump unmarshal c (.message data :: after) = readPump unmarshal c after := by
    intro after
    simp [readPump, hbad]
  refine ⟨?_, hskip, by simp [readPump, hbad]⟩
  intro before after
  induction before with
  | nil => exact hskip after
  | cons r rest ih =>
    cases r with
    | err => simp [readPump]
    | message d =>
      cases hd : unmarshal d with
      | none => simpa [readPump, hd] using ih
      | some msg => simp [readPump, hd, ih]

/-- C17, for alice and the three-byte frame the sample decoder rejects. -/
theorem readPump_skips_undecodable_frame_witness :
    sampleUnmarshal [1, 2, 3] = none ∧
    (∀ before after : List ReadResult,
      readPump sampleUnmarshal alice (before ++ .message [1, 2, 3] :: after) =
        readPump sampleUnmarshal alice (before ++ after)) ∧
    (∀ after : List ReadResult,
      readPump sampleUnmarshal alice (.message [1, 2, 3] :: after) =
        readPump sampleUnmarshal alice after) ∧
    readPump sampleUnmarshal alice [.message [1, 2, 3]] = { effects := [], returned := false } :=
  ⟨rfl, readPump_skips_undecodable_frame sampleUnmarshal alice [1, 2, 3] rfl⟩

/-- C18 (a read failure ends the reader).  When the reads before the first read error
are the frames `frames`, the reader flow does what it does for those frames, then
submits an unregister for its own client, closes the transport and returns; whatever
the transport would have delivered after the error (`later`) plays no part, so no
further envelope is forwarded.  Before the error the flow has not returned. -/
theorem readPump_stops_at_read_error (unmarshal : Bytes → Option Message) (c : Client)
    (frames : List Bytes) (later : List ReadResult) :
    readPump unmarshal c (frames.map ReadResult.message ++ .err :: later) =
      { effects := (readPump unmarshal c (frames.map ReadResult.message)).effects ++
          [.send (.unregister c), .connClose c.Conn],
        returned := true } ∧
    (readPump unmarshal c (frames.map ReadResult.message)).returned = false ∧
    unregisters c (readPump unmarshal c (frames.map ReadResult.message)).effects = 0 ∧
    unregisters c
      (readPump unmarshal c (frames.map ReadResult.message ++ .err :: later)).effects = 1 := by
  induction frames with
  | nil => simp [readPump, unregisters]
  | cons d rest ih =>
    obtain ⟨h1, h2, h3, h4⟩ := ih
    cases hd : unmarshal d with
    | none =>
      simp only [List.map_cons, List.cons_append, readPump, hd]
      exact ⟨h1, h2, h3, h4⟩
    | some msg =>
      simp only [List.map_cons, List.cons_append, readPump, hd, unregisters]
      refine ⟨?_, h2, h3, h4⟩
      exact congrArg (fun f : Flow =>
        (⟨.send (.broadcast { msg with FromUserID := c.UserID }) :: f.effects, f.returned⟩ :
          Flow)) h1

/-- C19 (an upgrade failure never registers).  When `upgrader.Upgrade` returns an error,
`HandleWebSocket` does nothing visible: it sends no register, makes no channel (so
builds no client) and starts neither flow; the hub state is what it was. -/
theorem handleWebSocket_upgrade_failure (marshal : Message → Option Bytes)
    (s : WebSocketService) (err : String) (userID : Nat) (username : String) :
    HandleWebSocket s (.error err) userID username = (s, []) ∧
    hubOps (HandleWebSocket s (.error err) userID username).2 = [] ∧
    systemStep marshal s (.connect (.error err) userID username) = .ok s :=
  ⟨rfl, rfl, rfl⟩

/-! ## What the route step pushes -/

theorem OnlyPushed.refl (item : Bytes) (s : WebSocketService) : OnlyPushed item s s :=
  fun _ ch' h => ⟨ch', 0, h, by simp⟩

theorem OnlyPushed.trans {item : Bytes} {s1 s2 s3 : WebSocketService}
    (h12 : OnlyPushed item s1 s2) (h23 : OnlyPushed item s2 s3) : OnlyPushed item s1 s3 := by
  intro i ch3 h3
  obtain ⟨ch2, n2, h2, hb2⟩ := h23 i ch3 h3
  obtain ⟨ch1, n1, h1, hb1⟩ := h12 i ch2 h2
  refine ⟨ch1, n1 + n2, h1, ?_⟩
  rw [hb2, hb1, List.append_assoc, List.replicate_add]

/-- Replacing a channel by one whose buffer is the old buffer followed by copies of the
item only pushes. -/
theorem OnlyPushed.set {item : Bytes} (s : WebSocketService) (clients : List (Nat × Client))
    (i0 : Nat) (ch0 new : Chan) (n : Nat) (h0 : s.chans[i0]? = some ch0)
    (hnew : new.buf = ch0.buf ++ List.replicate n item) :
    OnlyPushed item s ⟨clients, s.chans.set i0 new⟩ := by
  intro i ch' h
  by_cases hi : i = i0
  · subst hi
    rw [getElem?_set_same _ _ _ _ h0] at h
    cases h
    exact ⟨ch0, n, h0, hnew⟩
  · rw [getElem?_set_other _ _ _ _ hi] at h
    exact ⟨ch', 0, h, by simp⟩

/-- The range loop of the route step only ever pushes the serialised envelope. -/
theorem routeLoop_onlyPushed (marshal : Message → Option Bytes) (message : Message)
    (entries : List (Nat × Client)) (s s' : WebSocketService)
    (hrun : routeLoop marshal message entries s = .ok s') :
    OnlyPushed (serializeMessage marshal message) s s' := by
  induction entries generalizing s with
  | nil =>
    simp only [routeLoop, Except.ok.injEq] at hrun
    exact hrun ▸ OnlyPushed.refl _ s
  | cons p rest ih =>
    obtain ⟨k, c⟩ := p
    simp only [routeLoop] at hrun
    split at hrun
    · split at hrun
      · split at hrun
        · rename_i chans hsent
          refine OnlyPushed.trans ?_ (ih _ hrun)
          cases hch : s.chans[c.Send]? with
          | none => simp [trySend, hch] at hsent
          | some ch =>
            simp only [trySend, hch] at hsent
            split at hsent
            · cases hsent
            · split at hsent
              · simp only [SendResult.sent.injEq] at hsent
                subst hsent
                exact OnlyPushed.set s s.clients c.Send ch _ 1 hch rfl
              · cases hsent
        · cases hrun
        · split at hrun
          · cases hrun
          · rename_i chans hclose
            refine OnlyPushed.trans ?_ (ih _ hrun)
            cases hch : s.chans[c.Send]? with
            | none => simp [chanClose, hch] at hclose
            | some ch =>
              simp only [chanClose, hch] at hclose
              split at hclose
              · cases hclose
              · simp only [Except.ok.injEq] at hclose
                subst hclose
                exact OnlyPushed.set s _ c.Send ch _ 0 hch (by simp)
      · exact ih s hrun
    · exact ih s hrun

/-- Every envelope a reader flow forwards is a decoded frame with the sender replaced. -/
theorem readPump_forwards_decoded (unmarshal : Bytes → Option Message) (client : Client)
    (reads : List ReadResult) (message : Message)
    (h : HubOp.broadcast message ∈ hubOps (readPump unmarshal client reads).effects) :
    ∃ data m0, unmarshal data = some m0 ∧ message = { m0 with FromUserID := client.UserID } := by
  induction reads with
  | nil => simp [readPump, hubOps] at h
  | cons r rest ih =>
    cases r with
    | err => simp [readPump, hubOps] at h
    | message data =>
      cases hd : unmarshal data with
      | none =>
        simp only [readPump, hd] at h
        exact ih h
      | some m0 =>
        simp only [readPump, hd, hubOps, List.mem_cons] at h
        rcases h with h | h
        · exact ⟨data, m0, hd, by injection h⟩
        · exact ih h

/-- In a well-formed state the route step returns: it never panics. -/
theorem route_returns (marshal : Message → Option Bytes) {s : WebSocketService}
    (message : Message) (hwf : WellFormed s) :
    ∃ s', hubStep marshal s (.broadcast message) = .ok s' := by
  by_cases hty : message.Type_ = "private_message"
  · cases hreg : mapGet s.clients message.ToUserID with
    | none =>
      refine ⟨s, routeLoop_no_match marshal message s.clients s ?_⟩
      intro p hp h
      exact mapGet_eq_none_iff.mp hreg p hp (by rw [← (hwf.1 p hp).2]; exact h.2)
    | some c =>
      obtain ⟨ch, hch, hopen, -⟩ := wellFormed_queue hwf hreg
      rw [route_wellFormed marshal hwf hty hreg]
      by_cases hroom : ch.buf.length < ch.cap
      · exact ⟨⟨s.clients, s.chans.set c.Send
          ⟨ch.buf ++ [serializeMessage marshal message], ch.cap, false⟩⟩,
          by simp [routeOne, trySend, hch, hopen, hroom]⟩
      · exact ⟨⟨mapDelete s.clients c.ID, s.chans.set c.Send ⟨ch.buf, ch.cap, true⟩⟩,
          by simp [routeOne, trySend, chanClose, hch, hopen, hroom]⟩
  · exact ⟨s, routeLoop_no_match marshal message s.clients s (fun _ _ h => hty h.1)⟩

/-! ## The writer flow -/

/-- A writer flow that receives the items `q` and writes them without error has written
them as text frames and goes on with what it receives next. -/
theorem writePump_received (client : Client) (q : List Bytes) (rest : List RecvResult) :
    writePump client (received q ++ rest) =
      { effects := textFrames client.Conn q ++ (writePump client rest).effects,
        returned := (writePump client rest).returned } := by
  induction q with
  | nil => rfl
  | cons m tl ih =>
    have hstep : writePump client (received (m :: tl) ++ rest) =
        { effects := .nextWriter client.Conn :: .write client.Conn m ::
            .closeWriter client.Conn :: (writePump client (received tl ++ rest)).effects,
          returned := (writePump client (received tl ++ rest)).returned } := rfl
    rw [hstep, ih]
    rfl

theorem written_textFrames (conn : Nat) (q : List Bytes) (tail : List Effect) :
    written conn (textFrames conn q ++ tail) = q ++ written conn tail := by
  induction q with
  | nil => rfl
  | cons m tl ih =>
    have : textFrames conn (m :: tl) ++ tail =
        .nextWriter conn :: .write conn m :: .closeWriter conn :: (textFrames conn tl ++ tail) :=
      rfl
    rw [this]
    simp only [written, if_true, ih, List.cons_append]

theorem closeFrames_textFrames (conn : Nat) (q : List Bytes) (tail : List Effect) :
    closeFrames conn (textFrames conn q ++ tail) = closeFrames conn tail := by
  induction q with
  | nil => rfl
  | cons m tl ih =>
    have : textFrames conn (m :: tl) ++ tail =
        .nextWriter conn :: .write conn m :: .closeWriter conn :: (textFrames conn tl ++ tail) :=
      rfl
    rw [this]
    simp only [closeFrames, ih]

/-- C26 (writer flow output).  When the writer flow receives the items `q`, its writes
all succeed, and it then finds its queue closed, it has written exactly the items of
`q`, each as one text frame and in queue order, then one close frame, and has returned
(closing the connection and submitting its unregister on the way out); what might come
after (`later`) plays no part.  When instead the write of an item `m` fails, in
`NextWriter` or in the frame's `Close`, it returns at once: the items of `q` were
written, and in the second case the failing item handed to the frame writer, and no
later item and no close frame is written. -/
theorem writePump_output (client : Client) (q : List Bytes) (m : Bytes) (closeErr : Bool)
    (later : List RecvResult) :
    writePump client (received q ++ .closed :: later) =
      { effects := textFrames client.Conn q ++
          [.writeCloseMessage client.Conn, .connClose client.Conn,
            .send (.unregister client)],
        returned := true } ∧
    written client.Conn (writePump client (received q ++ .closed :: later)).effects = q ∧
    closeFrames client.Conn (writePump client (received q ++ .closed :: later)).effects = 1 ∧
    writePump client (received q ++ .item m true closeErr :: later) =
      { effects := textFrames client.Conn q ++
          [.nextWriter client.Conn, .connClose client.Conn, .send (.unregister client)],
        returned := true } ∧
    written client.Conn
      (writePump client (received q ++ .item m true closeErr :: later)).effects = q ∧
    writePump client (received q ++ .item m false true :: later) =
      { effects := textFrames client.Conn q ++
          [.nextWriter client.Conn, .write client.Conn m, .closeWriter client.Conn,
            .connClose client.Conn, .send (.unregister client)],
        returned := true } ∧
    written client.Conn
      (writePump client (received q ++ .item m false true :: later)).effects = q ++ [m] ∧
    closeFrames client.Conn
      (writePump client (received q ++ .item m true closeErr :: later)).effects = 0 ∧
    closeFrames client.Conn
      (writePump client (received q ++ .item m false true :: later)).effects = 0 := by
  have h1 := writePump_received client q (.closed :: later)
  have h2 := writePump_received client q (.item m true closeErr :: later)
  have h3 := writePump_received client q (.item m false true :: later)
  refine ⟨h1, ?_, ?_, h2, ?_, h3, ?_, ?_, ?_⟩
  · rw [h1]; simp [written_textFrames, writePump, written]
  · rw [h1]; simp [closeFrames_textFrames, writePump, closeFrames]
  · rw [h2]; simp [written_textFrames, writePump, written]
  · rw [h3]; simp [written_textFrames, writePump, written]
  · rw [h2]; simp [closeFrames_textFrames, writePump, closeFrames]
  · rw [h3]; simp [closeFrames_textFrames, writePump, closeFrames]

/-! ## The scan and the keyed lookup -/

/-- In a keyed registry the entry under key `k` is the only one whose client has user
id `k`. -/
theorem keyed_split {m : List (Nat × Client)} {k : Nat} {c : Client}
    (hk : Keyed m) (hreg : mapGet m k = some c) :
    c.ID = k ∧ c.UserID = k ∧
    ∃ pre post, m = pre ++ (k, c) :: post ∧
      (∀ p ∈ pre, p.2.UserID ≠ k) ∧ (∀ p ∈ post, p.2.UserID ≠ k) := by
  obtain ⟨hkey, hnd⟩ := hk
  have hmem := mapGet_mem hreg
  have hkc := hkey (k, c) hmem
  refine ⟨hkc.1, hkc.2, ?_⟩
  obtain ⟨pre, post, hsplit⟩ := List.append_of_mem hmem
  refine ⟨pre, post, hsplit, ?_, ?_⟩
  · intro p hp hu
    have hpm : p ∈ m := by rw [hsplit]; exact List.mem_append_left _ hp
    have hp1 : p.1 = k := by rw [← (hkey p hpm).2]; exact hu
    rw [hsplit, List.map_append, List.map_cons] at hnd
    have hdisj := (List.nodup_append.mp hnd).2.2
    exact hdisj (List.mem_map_of_mem Prod.fst hp) (by rw [hp1]; exact List.mem_cons_self _ _)
  · intro p hp hu
    have hpm : p ∈ m := by
      rw [hsplit]; exact List.mem_append_right _ (List.mem_cons_of_mem _ hp)
    have hp1 : p.1 = k := by rw [← (hkey p hpm).2]; exact hu
    rw [hsplit, List.map_append, List.map_cons] at hnd
    have hnd2 := (List.nodup_append.mp hnd).2.1
    have := (List.nodup_cons.mp hnd2).1
    have hin : p.1 ∈ List.map Prod.fst post := List.mem_map_of_mem Prod.fst hp
    rw [hp1] at hin
    exact this hin

/-- C25 (the scan equals a keyed lookup).  In every hub state whose registry is keyed,
each entry under key `k` holding a client with `ID = UserID = k`, as in every state
reached through clients built by `HandleWebSocket`, the scan of the route step matches
at most one registered client, and the route step has the same outcome, resulting
state or panic, as a direct lookup of the registry at key `to_user_id`. -/
theorem route_scan_is_keyed_lookup (marshal : Message → Option Bytes)
    (s : WebSocketService) (message : Message) (hk : Keyed s.clients) :
    (s.clients.filter (fun p => decide (p.2.UserID = message.ToUserID))).length ≤ 1 ∧
    hubStep marshal s (.broadcast message) = routeByKey marshal s message := by
  refine ⟨keyed_at_most_one hk _, ?_⟩
  unfold routeByKey
  by_cases hty : message.Type_ = "private_message"
  · rw [if_pos hty]
    cases hreg : mapGet s.clients message.ToUserID with
    | none =>
      refine routeLoop_no_match marshal message s.clients s ?_
      intro p hp h
      exact mapGet_eq_none_iff.mp hreg p hp (by rw [← (hk.1 p hp).2]; exact h.2)
    | some c =>
      obtain ⟨hid, hu, pre, post, hsplit, hpre, hpost⟩ := keyed_split hk hreg
      have hsome : (mapGet s.clients message.ToUserID).isSome = true := by simp [hreg]
      have := routeLoop_single marshal message pre post message.ToUserID c s hpre hpost
        hsome hty hu
      rw [← hsplit] at this
      simp only [hubStep]
      rw [this, routeOne, hid]
  · rw [if_neg hty]
    exact routeLoop_no_match marshal message s.clients s (fun _ _ h => hty h.1)

/-- C25, for the envelope addressed to bob in the state with alice and bob registered. -/
theorem route_scan_is_keyed_lookup_witness :
    Keyed aliceBob.clients ∧
    (aliceBob.clients.filter (fun p => decide (p.2.UserID = hiMessage.ToUserID))).length ≤ 1 ∧
    hubStep sampleMarshal aliceBob (.broadcast hiMessage) =
      routeByKey sampleMarshal aliceBob hiMessage :=
  ⟨by decide, route_scan_is_keyed_lookup sampleMarshal aliceBob hiMessage (by decide)⟩

/-- What `openQueue` says of a channel index. -/
theorem openQueue_spec {chans : List Chan} {i : Nat} (h : openQueue chans i = true) :
    ∃ ch, chans[i]? = some ch ∧ ch.closed = false ∧ ch.cap = 256 := by
  simp only [openQueue] at h
  cases hch : chans[i]? with
  | none => simp [hch] at h
  | some ch =>
    refine ⟨ch, rfl, ?_, ?_⟩
    · simp [hch] at h; exact h.1
    · simp [hch] at h; exact h.2

/-! ## Reachable states: bounded and open queues -/

/-- C24 (bounded queues).  In every state the hub reaches from the new service through
`HandleWebSocket` calls, unregisters of clients so built, route steps and receives by
the writer flows, every queue has capacity 256 and holds at most 256 items, in
particular the queue of every registered client; and the route step on any envelope
returns a state there: it never waits for room in a queue. -/
theorem reachable_queues_bounded (marshal : Message → Option Bytes) (es : List Event)
    (s : WebSocketService) (hl : lifecycle [] es = true)
    (hrun : run marshal NewWebSocketService es = .ok s) :
    (∀ ch ∈ s.chans, ch.cap = 256 ∧ ch.buf.length ≤ 256) ∧
    (∀ p ∈ s.clients, ∃ ch, s.chans[p.2.Send]? = some ch ∧ ch.buf.length ≤ 256) ∧
    (∀ message : Message, ∃ s', hubStep marshal s (.broadcast message) = .ok s') := by
  obtain ⟨made, hinv⟩ := Invariant.run marshal es hl Invariant.init hrun
  refine ⟨hinv.bounded, ?_, fun message => route_returns marshal message hinv.wellFormed⟩
  intro p hp
  obtain ⟨ch, hch, -, -⟩ := openQueue_spec (hinv.queues p hp)
  exact ⟨ch, hch, (hinv.bounded ch (getElem?_mem_chans hch)).2⟩

/-- C24, for the run in which alice and bob connect and `SendPrivateMessage(1, 2, "hi")`
is routed. -/
theorem reachable_queues_bounded_witness :
    lifecycle [] [.connect (.ok 0) 1 "alice", .connect (.ok 1) 2 "bob",
      .hub (SendPrivateMessage 1 2 "hi")] = true ∧
    run sampleMarshal NewWebSocketService [.connect (.ok 0) 1 "alice",
      .connect (.ok 1) 2 "bob", .hub (SendPrivateMessage 1 2 "hi")] =
      .ok ⟨aliceBob.clients, [freshQueue, ⟨[[104, 105]], 256, false⟩]⟩ ∧
    (∀ ch ∈ [freshQueue, (⟨[[104, 105]], 256, false⟩ : Chan)],
      ch.cap = 256 ∧ ch.buf.length ≤ 256) ∧
    (∀ p ∈ aliceBob.clients, ∃ ch,
      [freshQueue, (⟨[[104, 105]], 256, false⟩ : Chan)][p.2.Send]? = some ch ∧
        ch.buf.length ≤ 256) ∧
    (∀ message : Message, ∃ s',
      hubStep sampleMarshal ⟨aliceBob.clients, [freshQueue, ⟨[[104, 105]], 256, false⟩]⟩
        (.broadcast message) = .ok s') :=
  ⟨rfl, rfl,
    reachable_queues_bounded sampleMarshal [.connect (.ok 0) 1 "alice",
      .connect (.ok 1) 2 "bob", .hub (SendPrivateMessage 1 2 "hi")]
      ⟨aliceBob.clients, [freshQueue, ⟨[[104, 105]], 256, false⟩]⟩ rfl rfl⟩

/-- C27 (registered clients have open queues).  In every state the hub reaches from
the new service through `HandleWebSocket` calls (each registers one new client with a
fresh open queue), unregisters of clients so built, route steps and receives, every
client in the registry has a queue that exists and is not closed; so the route step on
any envelope returns a state there, and in particular never panics with a send on a
closed channel. -/
theorem reachable_registered_queues_open (marshal : Message → Option Bytes)
    (es : List Event) (s : WebSocketService) (hl : lifecycle [] es = true)
    (hrun : run marshal NewWebSocketService es = .ok s) :
    (∀ p ∈ s.clients, ∃ ch, s.chans[p.2.Send]? = some ch ∧ ch.closed = false) ∧
    (∀ message : Message,
      hubStep marshal s (.broadcast message) ≠ .error .sendOnClosedChannel ∧
      ∃ s', hubStep marshal s (.broadcast message) = .ok s') := by
  obtain ⟨made, hinv⟩ := Invariant.run marshal es hl Invariant.init hrun
  constructor
  · intro p hp
    obtain ⟨ch, hch, hopen, -⟩ := openQueue_spec (hinv.queues p hp)
    exact ⟨ch, hch, hopen⟩
  · intro message
    obtain ⟨s', hs'⟩ := route_returns marshal message hinv.wellFormed
    have hne : hubStep marshal s (.broadcast message) ≠ .error .sendOnClosedChannel := by
      rw [hs']
      intro h
      cases h
    exact ⟨hne, s', hs'⟩

/-- C27, for the run in which alice connects, bob connects and alice's connection is
unregistered. -/
theorem reachable_registered_queues_open_witness :
    lifecycle [] [.connect (.ok 0) 1 "alice", .connect (.ok 1) 2 "bob",
      .hub (.unregister alice)] = true ∧
    run sampleMarshal NewWebSocketService [.connect (.ok 0) 1 "alice",
      .connect (.ok 1) 2 "bob", .hub (.unregister alice)] =
      .ok ⟨[(2, bob)], [{ freshQueue with closed := true }, freshQueue]⟩ ∧
    (∀ p ∈ [(2, bob)], ∃ ch,
      [{ freshQueue with closed := true }, freshQueue][p.2.Send]? = some ch ∧
        ch.closed = false) ∧
    (∀ message : Message,
      hubStep sampleMarshal ⟨[(2, bob)], [{ freshQueue with closed := true }, freshQueue]⟩
        (.broadcast message) ≠ .error .sendOnClosedChannel ∧
      ∃ s', hubStep sampleMarshal
        ⟨[(2, bob)], [{ freshQueue with closed := true }, freshQueue]⟩
        (.broadcast message) = .ok s') :=
  ⟨by decide, rfl,
    reachable_registered_queues_open sampleMarshal [.connect (.ok 0) 1 "alice",
      .connect (.ok 1) 2 "bob", .hub (.unregister alice)]
      ⟨[(2, bob)], [{ freshQueue with closed := true }, freshQueue]⟩ (by decide) rfl⟩

/-! ## Unregister and eviction: what they leave alone -/

/-- Routing to a registered recipient whose queue is full: the resulting state. -/
theorem route_when_full (marshal : Message → Option Bytes) {s : WebSocketService}
    {message : Message} {c : Client} {ch : Chan} (hwf : WellFormed s)
    (hty : message.Type_ = "private_message")
    (hreg : mapGet s.clients message.ToUserID = some c)
    (hch : s.chans[c.Send]? = some ch) (hfull : ch.buf.length = 256) :
    hubStep marshal s (.broadcast message) =
      .ok ⟨mapDelete s.clients c.ID, s.chans.set c.Send { ch with closed := true }⟩ := by
  obtain ⟨ch', hch', hopen, hcap⟩ := wellFormed_queue hwf hreg
  rw [hch] at hch'
  obtain rfl : ch = ch' := Option.some.inj hch'
  have hnlt : ¬ ch.buf.length < ch.cap := by omega
  rw [route_wellFormed marshal hwf hty hreg]
  simp [routeOne, trySend, chanClose, hch, hopen, hnlt]

/-- After an unregister of `c` that returned, the registry has no entry under the id
of `c`. -/
theorem unregister_leaves_no_entry (marshal : Message → Option Bytes)
    {s s1 : WebSocketService} {c : Client}
    (h : hubStep marshal s (.unregister c) = .ok s1) : mapGet s1.clients c.ID = none := by
  simp only [hubStep] at h
  split at h
  · split at h
    · cases h
    · simp only [Except.ok.injEq] at h
      rw [← h]
      exact mapGet_mapDelete_self _ _
  · rename_i hnone
    simp only [Except.ok.injEq] at h
    rw [← h]
    exact hnone

/-- C28 (unregister is idempotent).  For every hub state and every client `c`,
processing `unregister(c)` twice in a row has the same outcome as processing it once:
when the first returns a state, the second returns that same state, so it removes
nothing and closes nothing, and when the first panics so does the pair.  Likewise,
after the route step has evicted `c` for a full queue, `unregister(c)` returns the
state unchanged. -/
theorem unregister_idempotent (marshal : Message → Option Bytes) (s : WebSocketService)
    (c : Client) :
    StartHub marshal s [.unregister c, .unregister c] = hubStep marshal s (.unregister c) ∧
    (∀ s1, hubStep marshal s (.unregister c) = .ok s1 →
      hubStep marshal s1 (.unregister c) = .ok s1) ∧
    (∀ (message : Message) (ch : Chan), WellFormed s →
      message.Type_ = "private_message" →
      mapGet s.clients message.ToUserID = some c →
      s.chans[c.Send]? = some ch → ch.buf.length = 256 →
      ∃ s1, hubStep marshal s (.broadcast message) = .ok s1 ∧
        mapGet s1.clients c.ID = none ∧
        hubStep marshal s1 (.unregister c) = .ok s1) := by
  have hsecond : ∀ s1, hubStep marshal s (.unregister c) = .ok s1 →
      hubStep marshal s1 (.unregister c) = .ok s1 :=
    fun s1 h => unregister_absent marshal (unregister_leaves_no_entry marshal h)
  refine ⟨?_, hsecond, ?_⟩
  · cases h : hubStep marshal s (.unregister c) with
    | error f => simp [StartHub, h]
    | ok s1 => simp [StartHub, h, hsecond s1 h]
  · intro message ch hwf hty hreg hch hfull
    have hgone : mapGet (mapDelete s.clients c.ID) c.ID = none := mapGet_mapDelete_self _ _
    exact ⟨⟨mapDelete s.clients c.ID, s.chans.set c.Send { ch with closed := true }⟩,
      route_when_full marshal hwf hty hreg hch hfull, hgone,
      unregister_absent marshal hgone⟩

/-- C28, for bob: two unregisters from the state with alice and bob registered, and an
unregister after bob's eviction from the state where his queue is full. -/
theorem unregister_idempotent_witness :
    StartHub sampleMarshal aliceBob [.unregister bob, .unregister bob] =
      hubStep sampleMarshal aliceBob (.unregister bob) ∧
    hubStep sampleMarshal aliceBob (.unregister bob) =
      .ok ⟨[(1, alice)], [freshQueue, { freshQueue with closed := true }]⟩ ∧
    hubStep sampleMarshal ⟨[(1, alice)], [freshQueue, { freshQueue with closed := true }]⟩
      (.unregister bob) =
      .ok ⟨[(1, alice)], [freshQueue, { freshQueue with closed := true }]⟩ ∧
    (∃ s1, hubStep sampleMarshal aliceBobStalled (.broadcast hiMessage) = .ok s1 ∧
      mapGet s1.clients bob.ID = none ∧
      hubStep sampleMarshal s1 (.unregister bob) = .ok s1) :=
  ⟨(unregister_idempotent sampleMarshal aliceBob bob).1, rfl,
    (unregister_idempotent sampleMarshal aliceBob bob).2.1 _ rfl,
    (unregister_idempotent sampleMarshal aliceBobStalled bob).2.2 hiMessage
      (Chan.mk (List.replicate 256 []) 256 false) (by decide) rfl rfl rfl
      (List.length_replicate 256 [])⟩

/-- A client made by `HandleWebSocket` has `ID = UserID`. -/
theorem Invariant.made_ids {made : List Client} {s : WebSocketService}
    (hinv : Invariant made s) {c : Client} (hc : c ∈ made) : c.ID = c.UserID := by
  obtain ⟨i, hi⟩ := List.mem_iff_getElem?.mp hc
  exact (hinv.made_send i c hi).2

/-- Deleting the entry of `c` and changing the queue of `c` leaves the entry and the
queue of every registered client with another user id as they were. -/
theorem Invariant.others_untouched {made : List Client} {s : WebSocketService}
    (hinv : Invariant made s) {c : Client} (hc : c ∈ made) (ch : Chan) :
    (∀ k, k ≠ c.UserID →
      mapGet (mapDelete s.clients c.ID) k = mapGet s.clients k) ∧
    (∀ p ∈ s.clients, p.2.UserID ≠ c.UserID →
      p ∈ mapDelete s.clients c.ID ∧ (s.chans.set c.Send ch)[p.2.Send]? = s.chans[p.2.Send]?) := by
  have hid := hinv.made_ids hc
  constructor
  · intro k hk
    exact mapGet_mapDelete_ne _ (by rw [hid]; exact hk)
  · intro p hp hne
    constructor
    · simp only [mapDelete, List.mem_filter, decide_eq_true_eq]
      refine ⟨hp, ?_⟩
      rw [← (hinv.keyed.1 p hp).2, hid]
      exact hne
    · apply getElem?_set_other
      intro heq
      exact hne (by rw [hinv.made_inj (hinv.registered p hp) hc heq])

/-- Failure isolation as far as the hub does not panic.  In every hub state that
satisfies the invariant of the reachable states, for every client `c` built by `HandleWebSocket`: an unregister of `c`
that returns a state, and the eviction of `c` by a route step that finds its queue
full, leave the registry entry under every other user id as it was, keep every
registered client with another user id registered, and leave the queue of each such
client, contents and open or closed, unchanged.  The unregister does return a state
when the registry has no entry under the id of `c` or when that entry is `c` itself. -/
theorem failure_isolation (marshal : Message → Option Bytes) (made : List Client)
    (s : WebSocketService) (c : Client) (hinv : Invariant made s) (hc : c ∈ made) :
    (∀ s', hubStep marshal s (.unregister c) = .ok s' →
      (∀ k, k ≠ c.UserID → mapGet s'.clients k = mapGet s.clients k) ∧
      (∀ p ∈ s.clients, p.2.UserID ≠ c.UserID →
        p ∈ s'.clients ∧ s'.chans[p.2.Send]? = s.chans[p.2.Send]?)) ∧
    ((mapGet s.clients c.ID = none ∨ mapGet s.clients c.ID = some c) →
      ∃ s', hubStep marshal s (.unregister c) = .ok s') ∧
    (∀ (message : Message) (ch : Chan), message.Type_ = "private_message" →
      mapGet s.clients message.ToUserID = some c →
      s.chans[c.Send]? = some ch → ch.buf.length = 256 →
      ∃ s', hubStep marshal s (.broadcast message) = .ok s' ∧
        (∀ k, k ≠ c.UserID → mapGet s'.clients k = mapGet s.clients k) ∧
        (∀ p ∈ s.clients, p.2.UserID ≠ c.UserID →
          p ∈ s'.clients ∧ s'.chans[p.2.Send]? = s.chans[p.2.Send]?)) := by
  refine ⟨?_, ?_, ?_⟩
  · intro s' h
    simp only [hubStep] at h
    split at h
    · split at h
      · cases h
      · rename_i chans hclose
        simp only [Except.ok.injEq] at h
        subst h
        cases hch : s.chans[c.Send]? with
        | none => simp [chanClose, hch] at hclose
        | some ch =>
          simp only [chanClose, hch] at hclose
          split at hclose
          · cases hclose
          · simp only [Except.ok.injEq] at hclose
            subst hclose
            exact hinv.others_untouched hc _
    · simp only [Except.ok.injEq] at h
      subst h
      exact ⟨fun _ _ => rfl, fun p hp _ => ⟨hp, rfl⟩⟩
  · rintro (h | h)
    · exact ⟨s, unregister_absent marshal h⟩
    · obtain ⟨ch, hch, hopen, -⟩ := wellFormed_queue hinv.wellFormed h
      exact ⟨_, unregister_registered marshal h hch hopen⟩
  · intro message ch hty hreg hch hfull
    exact ⟨_, route_when_full marshal hinv.wellFormed hty hreg hch hfull,
      hinv.others_untouched hc _⟩

/-- The state where bob's queue is full satisfies the invariant. -/
theorem aliceBobStalled_invariant : Invariant [alice, bob] aliceBobStalled := by
  refine ⟨?_, rfl, by decide, by decide, by decide, ?_⟩
  swap
  · intro ch hch
    simp only [aliceBobStalled, List.mem_cons, List.mem_singleton, List.not_mem_nil,
      or_false] at hch
    rcases hch with rfl | rfl
    · exact ⟨rfl, by decide⟩
    · exact ⟨rfl, Nat.le_of_eq (List.length_replicate 256 [])⟩
  intro i c h
  rcases i with _ | _ | i
  · simp only [List.getElem?_cons_zero, Option.some.injEq] at h
    subst h
    exact ⟨rfl, rfl⟩
  · simp only [List.getElem?_cons_succ, List.getElem?_cons_zero, Option.some.injEq] at h
    subst h
    exact ⟨rfl, rfl⟩
  · simp at h

/-- Failure isolation for bob: his unregister in the state with alice and bob
registered, and his eviction in the state where his queue is full. -/
theorem failure_isolation_witness :
    Invariant [alice, bob] aliceBob ∧ Invariant [alice, bob] aliceBobStalled ∧
    bob ∈ [alice, bob] ∧
    (∀ s', hubStep sampleMarshal aliceBob (.unregister bob) = .ok s' →
      (∀ k, k ≠ bob.UserID → mapGet s'.clients k = mapGet aliceBob.clients k) ∧
      (∀ p ∈ aliceBob.clients, p.2.UserID ≠ bob.UserID →
        p ∈ s'.clients ∧ s'.chans[p.2.Send]? = aliceBob.chans[p.2.Send]?)) ∧
    (∃ s', hubStep sampleMarshal aliceBob (.unregister bob) = .ok s') ∧
    (∃ s', hubStep sampleMarshal aliceBobStalled (.broadcast hiMessage) = .ok s' ∧
      (∀ k, k ≠ bob.UserID → mapGet s'.clients k = mapGet aliceBobStalled.clients k) ∧
      (∀ p ∈ aliceBobStalled.clients, p.2.UserID ≠ bob.UserID →
        p ∈ s'.clients ∧ s'.chans[p.2.Send]? = aliceBobStalled.chans[p.2.Send]?)) :=
  have hinv : Invariant [alice, bob] aliceBob :=
    (Invariant.init.connect 0 1 "alice").connect 1 2 "bob"
  ⟨hinv, aliceBobStalled_invariant, by decide,
    (failure_isolation sampleMarshal [alice, bob] aliceBob bob hinv (by decide)).1,
    (failure_isolation sampleMarshal [alice, bob] aliceBob bob hinv (by decide)).2.1
      (Or.inr rfl),
    (failure_isolation sampleMarshal [alice, bob] aliceBobStalled bob
      aliceBobStalled_invariant (by decide)).2.2 hiMessage
      (Chan.mk (List.replicate 256 []) 256 false) rfl rfl rfl (List.length_replicate 256 [])⟩

end services

/-! # Theorems about `strconv.ParseUint(s, 10, 32)` -/
namespace strconv

theorem decimalValue_ge (cs : List Char) (n : Nat) : n ≤ decimalValue cs n := by
  induction cs generalizing n with
  | nil => exact Nat.le_refl n
  | cons c rest ih =>
    simp only [decimalValue]
    exact Nat.le_trans (by omega) (ih _)

theorem digitValue_digit {c : Char} (h : 48 ≤ c.toNat ∧ c.toNat ≤ 57) :
    digitValue c = some (c.toNat - 48) := by
  simp [digitValue, h]

theorem digitValue_other {c : Char} (h : ¬ (48 ≤ c.toNat ∧ c.toNat ≤ 57)) :
    digitValue c = none ∨ ∃ d, digitValue c = some d ∧ 10 ≤ d := by
  unfold digitValue
  rw [if_neg h]
  split
  · exact Or.inr ⟨_, rfl, by omega⟩
  · exact Or.inl rfl

/-- The loop of `ParseUint` succeeds exactly on runs of decimal digits whose value,
continued from the accumulated `n0`, fits 32 bits; the result is that value. -/
theorem parseLoop_ok_iff (cs : List Char) (n0 n : Nat) (h0 : n0 ≤ 2 ^ 32 - 1) :
    parseLoop ((2 ^ 64 - 1) / 10 + 1) (2 ^ 32 - 1) cs n0 = .ok n ↔
      (∀ c ∈ cs, 48 ≤ c.toNat ∧ c.toNat ≤ 57) ∧ decimalValue cs n0 = n ∧ n ≤ 2 ^ 32 - 1 := by
  induction cs generalizing n0 with
  | nil =>
    simp only [parseLoop, Except.ok.injEq, List.not_mem_nil, false_implies, implies_true,
      decimalValue, true_and]
    constructor
    · intro h; exact ⟨h, h ▸ h0⟩
    · intro h; exact h.1
  | cons c rest ih =>
    by_cases hc : 48 ≤ c.toNat ∧ c.toNat ≤ 57
    · have hd : c.toNat - 48 < 10 := by omega
      have hcut : ¬ (n0 ≥ (2 ^ 64 - 1) / 10 + 1) := by norm_num at h0 ⊢; omega
      have hmul : (n0 * 10) % 2 ^ 64 = n0 * 10 := by
        apply Nat.mod_eq_of_lt; norm_num at h0 ⊢; omega
      have hadd : (n0 * 10 + (c.toNat - 48)) % 2 ^ 64 = n0 * 10 + (c.toNat - 48) := by
        apply Nat.mod_eq_of_lt; norm_num at h0 ⊢; omega
      simp only [parseLoop, digitValue_digit hc, ge_iff_le, Nat.not_le.mpr hd, if_false]
      rw [if_neg (by simpa using hcut)]
      simp only [hmul, hadd]
      by_cases hbig : n0 * 10 + (c.toNat - 48) > 2 ^ 32 - 1
      · rw [if_pos (Or.inr hbig)]
        constructor
        · intro h; cases h
        · rintro ⟨-, hv, hn⟩
          simp only [decimalValue] at hv
          have := decimalValue_ge rest (n0 * 10 + (c.toNat - 48))
          omega
      · rw [if_neg (by omega)]
        rw [ih _ (by omega)]
        simp only [List.mem_cons, forall_eq_or_imp, decimalValue]
        constructor
        · rintro ⟨h1, h2, h3⟩; exact ⟨⟨hc, h1⟩, h2, h3⟩
        · rintro ⟨⟨-, h1⟩, h2, h3⟩; exact ⟨h1, h2, h3⟩
    · have hfail : ∀ m, parseLoop ((2 ^ 64 - 1) / 10 + 1) (2 ^ 32 - 1) (c :: rest) n0 ≠ .ok m := by
        intro m
        rcases digitValue_other hc with h | ⟨d, h, hd⟩
        · simp [parseLoop, h]
        · simp [parseLoop, h, hd]
      constructor
      · intro h; exact absurd h (hfail n)
      · rintro ⟨h, -, -⟩
        exact absurd (h c (List.mem_cons_self _ _)) hc

/-- What "parseable as a base-10 unsigned 32-bit integer" means for the model of
`strconv.ParseUint(s, 10, 32)`: the call succeeds with `n` exactly when `s` is a
non-empty run of decimal digits that writes `n` and `n` is below `2^32`. -/
theorem ParseUint_ok_iff (s : String) (n : Nat) :
    ParseUint s = .ok n ↔ isDecimal s ∧ decimalValue s.toList 0 = n ∧ n < 2 ^ 32 := by
  unfold ParseUint isDecimal
  by_cases hs : s = ""
  · simp [hs]
  · rw [if_neg hs, parseLoop_ok_iff _ _ _ (by norm_num)]
    constructor
    · rintro ⟨h1, h2, h3⟩; exact ⟨⟨hs, h1⟩, h2, by norm_num at h3 ⊢; omega⟩
    · rintro ⟨⟨-, h1⟩, h2, h3⟩; exact ⟨h1, h2, by norm_num at h3 ⊢; omega⟩

end strconv

/-! # Theorems about the `/ws` route -/

namespace routes
open services

/-- The handler answers 400 by itself when a parameter is missing or empty or the user
id does not parse. -/
theorem wsHandler_rejects (user_id username : Option String)
    (h : Query user_id = "" ∨ Query username = "" ∨
      ∃ e, strconv.ParseUint (Query user_id) = .error e) :
    ∃ msg, wsHandler user_id username = .respond 400 msg := by
  unfold wsHandler
  by_cases hempty : Query user_id = "" ∨ Query username = ""
  · exact ⟨"user_id and username are required", by simp only [if_pos hempty]⟩
  · rcases h with h | h | ⟨e, he⟩
    · exact absurd (Or.inl h) hempty
    · exact absurd (Or.inr h) hempty
    · exact ⟨"invalid user_id", by simp only [if_neg hempty, he]⟩

/-- The handler passes a parsed user id and a non-empty username to `HandleWebSocket`. -/
theorem wsHandler_accepts (q u : String) (n : Nat) (hu : u ≠ "")
    (hq : strconv.ParseUint q = .ok n) :
    wsHandler (some q) (some u) = .handleWebSocket n u := by
  have hq0 : q ≠ "" := by
    intro h
    rw [h] at hq
    cases hq
  simp [wsHandler, Query, hq0, hu, hq]

/-- C12 (connect-parameter rejection).  When the `user_id` parameter of a request to
`/ws` is missing, empty or not parseable as a base-10 unsigned 32-bit integer, or the
`username` parameter is missing or empty, the handler answers with status 400 and does
not call `HandleWebSocket`: the request causes no event around the hub.  When the
`user_id` parses to `n` and the username `u` is not empty, the handler calls
`HandleWebSocket` with `n` and `u`, and that call is all the request causes. -/
theorem wsHandler_checks_parameters (user_id username : Option String) :
    ((user_id = none ∨ user_id = some "" ∨ username = none ∨ username = some "" ∨
        ∃ q e, user_id = some q ∧ strconv.ParseUint q = .error e) →
      (∃ msg, wsHandler user_id username = .respond 400 msg) ∧
      ∀ upgrade, wsEvents user_id username upgrade = []) ∧
    (∀ (q u : String) (n : Nat), user_id = some q → username = some u → u ≠ "" →
      strconv.ParseUint q = .ok n →
      wsHandler user_id username = .handleWebSocket n u ∧
      ∀ upgrade, wsEvents user_id username upgrade = [.connect upgrade n u]) := by
  constructor
  · intro h
    have hrej : ∃ msg, wsHandler user_id username = .respond 400 msg := by
      apply wsHandler_rejects
      rcases h with h | h | h | h | ⟨q, e, hq, he⟩
      · exact Or.inl (by rw [h]; rfl)
      · exact Or.inl (by rw [h]; rfl)
      · exact Or.inr (Or.inl (by rw [h]; rfl))
      · exact Or.inr (Or.inl (by rw [h]; rfl))
      · exact Or.inr (Or.inr ⟨e, by rw [hq]; exact he⟩)
    obtain ⟨msg, hmsg⟩ := hrej
    exact ⟨⟨msg, hmsg⟩, fun upgrade => by simp only [wsEvents, hmsg]⟩
  · intro q u n hq hu hne hparse
    subst hq hu
    have hacc := wsHandler_accepts q u n hne hparse
    exact ⟨hacc, fun upgrade => by simp only [wsEvents, hacc]⟩

/-- C12, on a request whose user id is not a number and on a request that passes. -/
theorem wsHandler_checks_parameters_witness :
    ((∃ msg, wsHandler (some "1.5") (some "bob") = .respond 400 msg) ∧
      ∀ upgrade, wsEvents (some "1.5") (some "bob") upgrade = []) ∧
    (wsHandler (some "12") (some "bob") = .handleWebSocket 12 "bob" ∧
      ∀ upgrade, wsEvents (some "12") (some "bob") upgrade = [.connect upgrade 12 "bob"]) :=
  ⟨(wsHandler_checks_parameters (some "1.5") (some "bob")).1
      (Or.inr (Or.inr (Or.inr (Or.inr ⟨"1.5", .ErrSyntax, rfl, rfl⟩)))),
    (wsHandler_checks_parameters (some "12") (some "bob")).2 "12" "bob" 12 rfl rfl
      (by decide) rfl⟩

/-- C13 as stated fails: a request with `user_id=0` and a non-empty username is not
answered with 400; the handler calls `HandleWebSocket` with user id 0, and once the
upgrade succeeds the hub holds a client with user id 0. -/
theorem wsHandler_accepts_user_zero :
    wsHandler (some "0") (some "zed") = .handleWebSocket 0 "zed" ∧
    wsEvents (some "0") (some "zed") (.ok 0) = [.connect (.ok 0) 0 "zed"] ∧
    run sampleMarshal NewWebSocketService (wsEvents (some "0") (some "zed") (.ok 0)) =
      .ok ⟨[(0, ⟨0, 0, "zed", 0, 0⟩)], [freshQueue]⟩ :=
  ⟨rfl, rfl, rfl⟩

/-- C13 amended.  For a non-empty username: a request whose `user_id` does not parse as
a base-10 unsigned 32-bit integer (a negative number, a fraction, a word) is answered
with status 400 and causes no event around the hub; `user_id=0` parses, the handler
calls `HandleWebSocket` with user id 0, and once the upgrade succeeds the hub has
registered a client with user id 0 under key 0. -/
theorem wsHandler_user_id_must_parse (marshal : Message → Option Bytes) (u : String)
    (hu : u ≠ "") :
    (∀ (q : String) (e : strconv.NumError), strconv.ParseUint q = .error e →
      (∃ msg, wsHandler (some q) (some u) = .respond 400 msg) ∧
      ∀ upgrade, wsEvents (some q) (some u) upgrade = []) ∧
    wsHandler (some "0") (some u) = .handleWebSocket 0 u ∧
    (∀ (s : WebSocketService) (conn : Nat),
      ∃ s', run marshal s (wsEvents (some "0") (some u) (.ok conn)) = .ok s' ∧
        mapGet s'.clients 0 = some (newClient s conn 0 u) ∧
        (newClient s conn 0 u).UserID = 0) := by
  have hzero : wsHandler (some "0") (some u) = .handleWebSocket 0 u :=
    wsHandler_accepts "0" u 0 hu rfl
  refine ⟨?_, hzero, ?_⟩
  · intro q e he
    obtain ⟨msg, hmsg⟩ := wsHandler_rejects (some q) (some u) (Or.inr (Or.inr ⟨e, he⟩))
    exact ⟨⟨msg, hmsg⟩, fun upgrade => by simp only [wsEvents, hmsg]⟩
  · intro s conn
    refine ⟨⟨mapSet s.clients 0 (newClient s conn 0 u), s.chans ++ [⟨[], 256, false⟩]⟩,
      ?_, ?_, rfl⟩
    · simp only [wsEvents, hzero]
      rfl
    · exact mapGet_mapSet_self _ _ _

/-- C13 amended, for the username "zed" and the ids "-5", "1.5" and "0". -/
theorem wsHandler_user_id_must_parse_witness :
    ((∃ msg, wsHandler (some "-5") (some "zed") = .respond 400 msg) ∧
      ∀ upgrade, wsEvents (some "-5") (some "zed") upgrade = []) ∧
    ((∃ msg, wsHandler (some "1.5") (some "zed") = .respond 400 msg) ∧
      ∀ upgrade, wsEvents (some "1.5") (some "zed") upgrade = []) ∧
    wsHandler (some "0") (some "zed") = .handleWebSocket 0 "zed" :=
  ⟨(wsHandler_user_id_must_parse sampleMarshal "zed" (by decide)).1 "-5" .ErrSyntax rfl,
    (wsHandler_user_id_must_parse sampleMarshal "zed" (by decide)).1 "1.5" .ErrSyntax rfl,
    (wsHandler_user_id_must_parse sampleMarshal "zed" (by decide)).2.1⟩

end routes

/-! # Theorems about `AuthHandler.Login` -/

namespace handlers
open models

/-- No row is found for an email that no stored user has. -/
theorem firstUserByEmail_unknown (db : DB) (email : String)
    (hno : ∀ u ∈ db.users, u.Email ≠ email) :
    firstUserByEmail db email = .ErrRecordNotFound ∨ firstUserByEmail db email = .failed := by
  unfold firstUserByEmail
  cases db.broken with
  | true => exact Or.inr rfl
  | false =>
    left
    have hnil : db.users.filter (fun u => decide (u.Email = email) && !u.Deleted) = [] := by
      rw [List.filter_eq_nil_iff]
      intro u hu
      simp [hno u hu]
    simp [hnil, firstByID]

/-- C20 (login with an unknown account is refused).  For every login request whose
body decodes to an email that is not empty and passes the `email` rule and a password
that is not empty, when no stored user has that email, `Login` answers with status 401
and the body `{"error": "Invalid credentials"}`, which carries no token, whatever the
password check and the token signing would do. -/
theorem Login_unknown_account (isEmail : String → Bool)
    (compareHashAndPassword : String → String → Bool)
    (signedString : Nat → String → Except String String) (db : DB) (req : LoginRequest)
    (hemail : req.Email ≠ "") (hwell : isEmail req.Email = true)
    (hpass : req.Password ≠ "") (hno : ∀ u ∈ db.users, u.Email ≠ req.Email) :
    Login isEmail compareHashAndPassword signedString db (.ok req) =
      ⟨401, .error "Invalid credentials"⟩ ∧
    (Login isEmail compareHashAndPassword signedString db (.ok req)).status = 401 ∧
    (Login isEmail compareHashAndPassword signedString db (.ok req)).token = none := by
  have hbind : ShouldBindJSON isEmail (.ok req) = .ok req := by
    simp [ShouldBindJSON, hemail, hwell, hpass]
  have hlogin : Login isEmail compareHashAndPassword signedString db (.ok req) =
      ⟨401, .error "Invalid credentials"⟩ := by
    unfold Login
    rw [hbind]
    rcases firstUserByEmail_unknown db req.Email hno with h | h <;> simp [h]
  exact ⟨hlogin, by rw [hlogin], by rw [hlogin]; rfl⟩

/-- C20, on the request of `TestLoginEndpoint`, the body
`{"email": "test@example.com", "password": "password123"}`, against a database that
holds one user with another email. -/
theorem Login_unknown_account_witness :
    (∀ u ∈ sampleDB.users, u.Email ≠ "test@example.com") ∧
    Login sampleIsEmail (fun _ _ => true) (fun _ _ => .ok "signed") sampleDB
        (.ok ⟨"test@example.com", "password123"⟩) =
      ⟨401, .error "Invalid credentials"⟩ ∧
    (Login sampleIsEmail (fun _ _ => true) (fun _ _ => .ok "signed") sampleDB
        (.ok ⟨"test@example.com", "password123"⟩)).status = 401 ∧
    (Login sampleIsEmail (fun _ _ => true) (fun _ _ => .ok "signed") sampleDB
        (.ok ⟨"test@example.com", "password123"⟩)).token = none :=
  ⟨by decide,
    Login_unknown_account sampleIsEmail (fun _ _ => true) (fun _ _ => .ok "signed") sampleDB
      ⟨"test@example.com", "password123"⟩ (by decide) (by decide) (by decide) (by decide)⟩

end handlers

/-! # Theorems about `json.Marshal` on a `Message` -/

namespace strconv

theorem toNat_digit (d : Nat) (h : d < 10) : (Char.ofNat (48 + d)).toNat = 48 + d := by
  interval_cases d <;> rfl

theorem formatLoop_digits (fuel n : Nat) (acc : List Char)
    (hacc : ∀ c ∈ acc, 48 ≤ c.toNat ∧ c.toNat ≤ 57) :
    ∀ c ∈ formatLoop fuel n acc, 48 ≤ c.toNat ∧ c.toNat ≤ 57 := by
  induction fuel generalizing n acc with
  | zero => exact hacc
  | succ fuel ih =>
    have hd := toNat_digit (n % 10) (Nat.mod_lt _ (by norm_num))
    have hacc' : ∀ c ∈ Char.ofNat (48 + n % 10) :: acc, 48 ≤ c.toNat ∧ c.toNat ≤ 57 := by
      intro c hc
      rcases List.mem_cons.mp hc with rfl | hc
      · rw [hd]; omega
      · exact hacc c hc
    simp only [formatLoop]
    split
    · exact hacc'
    · exact ih _ _ hacc'

theorem formatLoop_value (fuel n : Nat) (acc : List Char) (h : n < fuel) :
    decimalValue (formatLoop fuel n acc) 0 = decimalValue acc n := by
  induction fuel generalizing n acc with
  | zero => omega
  | succ fuel ih =>
    have hd := toNat_digit (n % 10) (Nat.mod_lt _ (by norm_num))
    simp only [formatLoop]
    split
    · rename_i h0
      simp only [decimalValue, hd]
      congr 1
      omega
    · rename_i h0
      rw [ih _ _ (by omega)]
      simp only [decimalValue, hd]
      congr 1
      omega

theorem formatLoop_head (fuel n : Nat) (acc : List Char) (h : n < fuel) (hn : 0 < n) :
    ∃ c rest, formatLoop fuel n acc = c :: rest ∧ c.toNat ≠ 48 := by
  induction fuel generalizing n acc with
  | zero => omega
  | succ fuel ih =>
    simp only [formatLoop]
    split
    · rename_i h0
      refine ⟨_, _, rfl, ?_⟩
      rw [toNat_digit (n % 10) (Nat.mod_lt _ (by norm_num))]
      omega
    · rename_i h0
      exact ih _ _ (by omega) (by omega)

end strconv

namespace json
open services

/-- The digits `FormatUint` writes are a JSON number that writes `n`. -/
theorem FormatUint_uintText (n : Nat) : UIntText (strconv.FormatUint n) n := by
  unfold UIntText strconv.FormatUint
  refine ⟨?_, strconv.formatLoop_digits _ _ _ (by simp), ?_,
    by rw [strconv.formatLoop_value _ _ _ (by omega)]; rfl⟩
  · rcases Nat.eq_zero_or_pos n with h | h
    · subst h; decide
    · obtain ⟨c, rest, hc, -⟩ := strconv.formatLoop_head (n + 1) n [] (by omega) h
      rw [hc]; simp
  · rcases Nat.eq_zero_or_pos n with h | h
    · subst h; intro _; rfl
    · obtain ⟨c, rest, hc, hne⟩ := strconv.formatLoop_head (n + 1) n [] (by omega) h
      rw [hc]
      intro h0
      simp only [List.head?_cons, Option.map_some', Option.some.injEq] at h0
      exact absurd h0 hne

theorem hexValue_hexDigit (k : Nat) (h : k < 16) : hexValue (hexDigit k).toNat = some k := by
  interval_cases k <;> rfl

/-- What `appendString` writes for a character is a way of writing that character
inside a JSON string literal. -/
theorem quoteChar_body (c : Char) (text s : List Char) (h : StringBody text s) :
    StringBody (quoteChar c ++ text) (c :: s) := by
  unfold quoteChar
  have hb : backslash.toNat = 92 := rfl
  split
  · rename_i hascii
    split
    · rename_i hsafe
      simp only [htmlSafe, decide_eq_true_eq] at hsafe
      exact StringBody.plain c text s hsafe.1 hsafe.2.2.1 (by omega) h
    · rename_i hsafe
      simp only [htmlSafe, decide_eq_true_eq] at hsafe
      split
      · rename_i hq
        refine StringBody.short backslash c c text s hb ?_ h
        rcases hq with hq | hq <;> simp [shortEscape, hq]
      · split
        · rename_i hc
          exact StringBody.short backslash (Char.ofNat 98) c text s hb (by rw [hc]; rfl) h
        · split
          · rename_i hc
            exact StringBody.short backslash (Char.ofNat 102) c text s hb (by rw [hc]; rfl) h
          · split
            · rename_i hc
              exact StringBody.short backslash (Char.ofNat 110) c text s hb
                (by rw [hc]; rfl) h
            · split
              · rename_i hc
                exact StringBody.short backslash (Char.ofNat 114) c text s hb
                  (by rw [hc]; rfl) h
              · split
                · rename_i hc
                  exact StringBody.short backslash (Char.ofNat 116) c text s hb
                    (by rw [hc]; rfl) h
                · refine StringBody.unicode backslash (Char.ofNat 117) (Char.ofNat 48)
                    (Char.ofNat 48) (hexDigit (c.toNat / 16)) (hexDigit (c.toNat % 16)) c
                    text s hb rfl ?_ h
                  have h1 : hexValue (Char.ofNat 48).toNat = some 0 := rfl
                  simp only [hex4, h1, hexValue_hexDigit (c.toNat / 16) (by omega),
                    hexValue_hexDigit (c.toNat % 16) (Nat.mod_lt _ (by norm_num))]
                  congr 1
                  omega
  · split
    · rename_i hsep
      refine StringBody.unicode backslash (Char.ofNat 117) (Char.ofNat 50) (Char.ofNat 48)
        (Char.ofNat 50) (hexDigit (c.toNat % 16)) c text s hb rfl ?_ h
      have h0 : hexValue (Char.ofNat 48).toNat = some 0 := rfl
      have h2 : hexValue (Char.ofNat 50).toNat = some 2 := rfl
      simp only [hex4, h0, h2, hexValue_hexDigit (c.toNat % 16) (Nat.mod_lt _ (by norm_num))]
      congr 1
      omega
    · exact StringBody.plain c text s (by omega) (by omega) (by omega) h

theorem quoteChars_body (s : List Char) : StringBody (s.flatMap quoteChar) s := by
  induction s with
  | nil => exact StringBody.done
  | cons c rest ih =>
    rw [List.flatMap_cons]
    exact quoteChar_body c _ _ ih

/-- The literal `appendString` writes for a string is a JSON string literal that writes
that string. -/
theorem quote_stringText (s : String) : StringText (quote s) s :=
  ⟨s.toList.flatMap quoteChar, rfl, quoteChars_body s.toList⟩

/-- The text of the five members every `Message` is written with, followed by `tail`. -/
theorem wireMembers_text (m : Message) :
    MembersText (wireMembers m)
      (quote "type" ++ colon :: (quote m.Type_ ++ comma ::
        (quote "from_user_id" ++ colon :: (strconv.FormatUint m.FromUserID ++ comma ::
        (quote "to_user_id" ++ colon :: (strconv.FormatUint m.ToUserID ++ comma ::
        (quote "content" ++ colon :: (quote m.Content ++ comma ::
        (quote "timestamp" ++ colon :: quote m.Timestamp))))))))) :=
  MembersText.more _ _ _ _ _ _ (quote_stringText _) (quote_stringText m.Type_)
    (MembersText.more _ _ _ _ _ _ (quote_stringText _) (FormatUint_uintText m.FromUserID)
      (MembersText.more _ _ _ _ _ _ (quote_stringText _) (FormatUint_uintText m.ToUserID)
        (MembersText.more _ _ _ _ _ _ (quote_stringText _) (quote_stringText m.Content)
          (MembersText.one _ _ _ _ (quote_stringText _) (quote_stringText m.Timestamp)))))

theorem wireMembers_data_text (m : Message) (v : List Char) :
    MembersText (wireMembers m ++ [("data", .raw v)])
      (quote "type" ++ colon :: (quote m.Type_ ++ comma ::
        (quote "from_user_id" ++ colon :: (strconv.FormatUint m.FromUserID ++ comma ::
        (quote "to_user_id" ++ colon :: (strconv.FormatUint m.ToUserID ++ comma ::
        (quote "content" ++ colon :: (quote m.Content ++ comma ::
        (quote "timestamp" ++ colon :: (quote m.Timestamp ++ comma ::
        (quote "data" ++ colon :: v))))))))))) :=
  MembersText.more _ _ _ _ _ _ (quote_stringText _) (quote_stringText m.Type_)
    (MembersText.more _ _ _ _ _ _ (quote_stringText _) (FormatUint_uintText m.FromUserID)
      (MembersText.more _ _ _ _ _ _ (quote_stringText _) (FormatUint_uintText m.ToUserID)
        (MembersText.more _ _ _ _ _ _ (quote_stringText _) (quote_stringText m.Content)
          (MembersText.more _ _ _ _ _ _ (quote_stringText _) (quote_stringText m.Timestamp)
            (MembersText.one _ _ _ _ (quote_stringText _) rfl)))))

/-- Marshalling a message without payload: the object with the five members. -/
theorem marshalText_without_data (encodeValue : Payload → Option (List Char)) (m : Message)
    (h : m.Data = none) :
    ∃ text, marshalText encodeValue m = some text ∧ ObjectText (wireMembers m) text := by
  obtain ⟨ty, fr, rc, co, ts, da⟩ := m
  simp only at h
  subst h
  refine ⟨_, rfl, _, ?_, wireMembers_text _⟩
  simp [List.append_assoc]

/-- Marshalling a message whose payload the value encoder writes as `v`: the object
with the five members and the member `data`. -/
theorem marshalText_with_data (encodeValue : Payload → Option (List Char)) (m : Message)
    (p : Payload) (v : List Char) (h : m.Data = some p) (hv : encodeValue p = some v) :
    ∃ text, marshalText encodeValue m = some text ∧
      ObjectText (wireMembers m ++ [("data", .raw v)]) text := by
  obtain ⟨ty, fr, rc, co, ts, da⟩ := m
  simp only at h
  subst h
  have hm : marshalText encodeValue ⟨ty, fr, rc, co, ts, some p⟩ = some
      (lbrace :: ((quote "type" ++ colon :: (quote ty ++ comma ::
        (quote "from_user_id" ++ colon :: (strconv.FormatUint fr ++ comma ::
        (quote "to_user_id" ++ colon :: (strconv.FormatUint rc ++ comma ::
        (quote "content" ++ colon :: (quote co ++ comma ::
        (quote "timestamp" ++ colon :: (quote ts ++ comma ::
        (quote "data" ++ colon :: v)))))))))))
        ++ [rbrace])) := by
    have hne : comma ≠ lbrace := by decide
    simp [marshalText, messageFields, encodeFields, encodeField, isEmptyValue, hv,
      List.append_assoc, hne]
  exact ⟨_, hm, _, rfl, wireMembers_data_text _ v⟩

/-- Marshalling a message whose payload the value encoder rejects fails. -/
theorem marshalText_unsupported (encodeValue : Payload → Option (List Char)) (m : Message)
    (p : Payload) (h : m.Data = some p) (hv : encodeValue p = none) :
    marshalText encodeValue m = none := by
  obtain ⟨ty, fr, rc, co, ts, da⟩ := m
  simp only at h
  subst h
  simp [marshalText, messageFields, encodeFields, encodeField, isEmptyValue, hv]

theorem utf8_ne_nil_of_lbrace (body : List Char) : utf8 (lbrace :: body) ≠ [] := by
  have h : utf8 (lbrace :: body) = 123 :: utf8 body := rfl
  rw [h]
  exact List.cons_ne_nil _ _

/-- What `serializeMessage` returns when `json.Marshal` succeeds with the text `text`. -/
theorem serializeMessage_of_text (encodeValue : Payload → Option (List Char)) (m : Message)
    (text : List Char) (h : marshalText encodeValue m = some text) :
    serializeMessage (Marshal encodeValue) m = utf8 text := by
  simp [serializeMessage, Marshal, h]

/-- C16 (wire shape, amended).  For every envelope without payload, `serializeMessage`
returns the UTF-8 bytes of a JSON object with exactly the members `type` (a string),
`from_user_id` and `to_user_id` (unsigned integers), `content` and `timestamp`
(strings), in that order, each writing the corresponding field of the envelope.  For
every envelope with a payload that the encoder of interface values writes as `v`, it
returns the bytes of the JSON object with those five members followed by the member
`data`, whose value is `v`.  So the key `data` is there exactly when the payload is not
nil.  For every envelope with a payload that the encoder refuses, `json.Marshal` fails
and `serializeMessage` returns `nil`, which is the text of no JSON object. -/
theorem serializeMessage_wire_shape (encodeValue : Payload → Option (List Char))
    (m : Message) :
    (m.Data = none →
      ∃ text, serializeMessage (Marshal encodeValue) m = utf8 text ∧
        ObjectText (wireMembers m) text) ∧
    (∀ (p : Payload) (v : List Char), m.Data = some p → encodeValue p = some v →
      ∃ text, serializeMessage (Marshal encodeValue) m = utf8 text ∧
        ObjectText (wireMembers m ++ [("data", .raw v)]) text) ∧
    (∀ p : Payload, m.Data = some p → encodeValue p = none →
      Marshal encodeValue m = none ∧ serializeMessage (Marshal encodeValue) m = [] ∧
      ∀ (members : List (String × Value)) (text : List Char), ObjectText members text →
        serializeMessage (Marshal encodeValue) m ≠ utf8 text) := by
  refine ⟨?_, ?_, ?_⟩
  · intro h
    obtain ⟨text, ht, hobj⟩ := marshalText_without_data encodeValue m h
    exact ⟨text, serializeMessage_of_text encodeValue m text ht, hobj⟩
  · intro p v h hv
    obtain ⟨text, ht, hobj⟩ := marshalText_with_data encodeValue m p v h hv
    exact ⟨text, serializeMessage_of_text encodeValue m text ht, hobj⟩
  · intro p h hv
    have hnone : Marshal encodeValue m = none := by
      simp [Marshal, marshalText_unsupported encodeValue m p h hv]
    have hnil : serializeMessage (Marshal encodeValue) m = [] := by
      simp [serializeMessage, hnone]
    refine ⟨hnone, hnil, ?_⟩
    rintro members text ⟨body, rfl, -⟩
    rw [hnil]
    exact (utf8_ne_nil_of_lbrace _).symm

/-- C16, for the envelope of the example scenario, for the same envelope with the
payload `true`, and for the same envelope with a payload that is not a number. -/
theorem serializeMessage_wire_shape_witness :
    (∃ text, serializeMessage (Marshal sampleEncodeValue) hiMessage = utf8 text ∧
      ObjectText (wireMembers hiMessage) text) ∧
    (∃ text, serializeMessage (Marshal sampleEncodeValue)
        { hiMessage with Data := some (.bool true) } = utf8 text ∧
      ObjectText (wireMembers { hiMessage with Data := some (.bool true) } ++
        [("data", .raw "true".toList)]) text) ∧
    serializeMessage (Marshal sampleEncodeValue) nanMessage = [] :=
  ⟨(serializeMessage_wire_shape sampleEncodeValue hiMessage).1 rfl,
    (serializeMessage_wire_shape sampleEncodeValue
      { hiMessage with Data := some (.bool true) }).2.1 (.bool true) "true".toList rfl rfl,
    ((serializeMessage_wire_shape sampleEncodeValue nanMessage).2.2 nanPayload rfl rfl).2.1⟩

/-- C16 as the claim has it, for every envelope, does not hold: the envelope of the
example scenario with the `float64` that is not a number as payload.  `json.Marshal`
refuses the value, so `serializeMessage` logs the error and returns `nil`: no bytes,
hence no JSON object, with or without the key `data`, although the payload is not
nil. -/
theorem serializeMessage_unsupported_payload :
    nanMessage.Data = some nanPayload ∧ nonFinite 9221120237041090561 = true ∧
    sampleEncodeValue nanPayload = none ∧
    Marshal sampleEncodeValue nanMessage = none ∧
    serializeMessage (Marshal sampleEncodeValue) nanMessage = [] ∧
    serializeMessage (Marshal sampleEncodeValue) nanMessage ≠ utf8 [lbrace, rbrace] :=
  ⟨rfl, by decide, rfl, rfl, rfl, by decide⟩

/-- C15 (well-formed delivery).  Let the JSON decoder and the encoder of interface
values be such that every payload the decoder produces is one the encoder writes.  For
every hub state and every envelope that `SendPrivateMessage` built or that a reader flow
forwarded, the route step pushes nothing but the serialisation of that envelope onto
the queues, and that serialisation is not nil: it is the non-empty UTF-8 text of the
JSON object that writes the envelope, with its five members and, when the envelope has a
payload, the member `data`.  In a well-formed state, as every reachable state is, the
route step does return. -/
theorem route_pushes_wellformed_json (encodeValue : Payload → Option (List Char))
    (unmarshal : Bytes → Option Message)
    (hlib : ∀ (data : Bytes) (m : Message) (p : Payload),
      unmarshal data = some m → m.Data = some p → ∃ v, encodeValue p = some v)
    (s : WebSocketService) (message : Message)
    (horigin : (∃ (f t : Nat) (c : String), HubOp.broadcast message = SendPrivateMessage f t c) ∨
      (∃ (client : Client) (reads : List ReadResult),
        HubOp.broadcast message ∈ hubOps (readPump unmarshal client reads).effects)) :
    ∃ text, Marshal encodeValue message = some (utf8 text) ∧
      serializeMessage (Marshal encodeValue) message = utf8 text ∧
      utf8 text ≠ [] ∧
      (ObjectText (wireMembers message) text ∨
        ∃ v, ObjectText (wireMembers message ++ [("data", .raw v)]) text) ∧
      (∀ s', hubStep (Marshal encodeValue) s (.broadcast message) = .ok s' →
        OnlyPushed (utf8 text) s s') ∧
      (WellFormed s → ∃ s', hubStep (Marshal encodeValue) s (.broadcast message) = .ok s') := by
  have hpush : ∀ s', hubStep (Marshal encodeValue) s (.broadcast message) = .ok s' →
      OnlyPushed (serializeMessage (Marshal encodeValue) message) s s' :=
    fun s' hstep => routeLoop_onlyPushed (Marshal encodeValue) message s.clients s s' hstep
  have hret : WellFormed s →
      ∃ s', hubStep (Marshal encodeValue) s (.broadcast message) = .ok s' :=
    fun hwf => route_returns (Marshal encodeValue) message hwf
  have hdata : message.Data = none ∨ ∃ p v, message.Data = some p ∧ encodeValue p = some v := by
    rcases horigin with ⟨f, t, c, h⟩ | ⟨client, reads, h⟩
    · left
      simp only [SendPrivateMessage, HubOp.broadcast.injEq] at h
      rw [h]
    · obtain ⟨data, m0, hd, hm⟩ := readPump_forwards_decoded unmarshal client reads message h
      cases hp : message.Data with
      | none => exact Or.inl rfl
      | some p =>
        right
        have hp0 : m0.Data = some p := by rw [hm] at hp; exact hp
        obtain ⟨v, hv⟩ := hlib data m0 p hd hp0
        exact ⟨p, v, rfl, hv⟩
  rcases hdata with hnone | ⟨p, v, hp, hv⟩
  · obtain ⟨text, ht, body, hbody, hmem⟩ := marshalText_without_data encodeValue message hnone
    have hser := serializeMessage_of_text encodeValue message text ht
    refine ⟨text, by simp [Marshal, ht], hser, ?_, Or.inl ⟨body, hbody, hmem⟩, hser ▸ hpush,
      hret⟩
    rw [hbody]; exact utf8_ne_nil_of_lbrace _
  · obtain ⟨text, ht, body, hbody, hmem⟩ :=
      marshalText_with_data encodeValue message p v hp hv
    have hser := serializeMessage_of_text encodeValue message text ht
    refine ⟨text, by simp [Marshal, ht], hser, ?_, Or.inr ⟨v, body, hbody, hmem⟩,
      hser ▸ hpush, hret⟩
    rw [hbody]; exact utf8_ne_nil_of_lbrace _

/-- C15, for the envelope alice's reader flow forwards to bob, in the state with alice
and bob registered, with decoder and encoder stand-ins that carry a payload. -/
theorem route_pushes_wellformed_json_witness :
    (∀ (data : Bytes) (m : Message) (p : Payload),
      sampleUnmarshalData data = some m → m.Data = some p →
      ∃ v, sampleEncodeValue p = some v) ∧
    HubOp.broadcast forwardedSample ∈
      hubOps (readPump sampleUnmarshalData alice [.message [9, 2]]).effects ∧
    ∃ text, Marshal sampleEncodeValue forwardedSample = some (utf8 text) ∧
      serializeMessage (Marshal sampleEncodeValue) forwardedSample = utf8 text ∧
      utf8 text ≠ [] ∧
      (ObjectText (wireMembers forwardedSample) text ∨
        ∃ v, ObjectText (wireMembers forwardedSample ++ [("data", .raw v)]) text) ∧
      (∀ s', hubStep (Marshal sampleEncodeValue) aliceBob (.broadcast forwardedSample) =
          .ok s' → OnlyPushed (utf8 text) aliceBob s') ∧
      (WellFormed aliceBob →
        ∃ s', hubStep (Marshal sampleEncodeValue) aliceBob (.broadcast forwardedSample) =
          .ok s') :=
  have hlib : ∀ (data : Bytes) (m : Message) (p : Payload),
      sampleUnmarshalData data = some m → m.Data = some p →
      ∃ v, sampleEncodeValue p = some v := by
    intro data m p h hp
    simp only [sampleUnmarshalData, Option.map_eq_some'] at h
    obtain ⟨m0, -, rfl⟩ := h
    simp only [Option.some.injEq] at hp
    subst hp
    exact ⟨_, rfl⟩
  have hmem : HubOp.broadcast forwardedSample ∈
      hubOps (readPump sampleUnmarshalData alice [.message [9, 2]]).effects :=
    List.mem_singleton.mpr rfl
  ⟨hlib, hmem,
    route_pushes_wellformed_json sampleEncodeValue sampleUnmarshalData hlib aliceBob
      forwardedSample (Or.inr ⟨alice, [.message [9, 2]], hmem⟩)⟩

end json

/-! # Theorems about the protected routes and the handlers behind them -/

namespace routes
open models handlers middleware

/-- The handler alone, mounted without the middleware as `TestProductCreation` of
`test_api.go` mounts it, does not answer: `c.MustGet` panics. -/
theorem CreateProduct_without_context (bound : Except String CreateProductRequest)
    (st : Store) : CreateProduct none bound st = .error "Key user_id does not exist" :=
  rfl

/-- When the middleware aborts, the route answers with the middleware's status and
leaves the database as it was. -/
theorem postProducts_aborted (jwtParse : String → ParsedToken)
    (authorization : Option String) (bound : Except String CreateProductRequest)
    (st : Store) (status : Nat) (error : String)
    (h : AuthMiddleware jwtParse st.toDB authorization = .abort status error) :
    postProducts jwtParse authorization bound st = .ok (st, status, .error error) := by
  simp only [postProducts, h]

/-- C21 (unauthenticated product creation is refused).  For every request to
`POST /api/products` that has no `Authorization` header or an empty one, that carries
no token after the `Bearer ` scheme, or whose token is not valid for a user id, the
response has status 401 and the database is left as it was: `CreateProduct` does not
run and no product is created.  With no header the body is
`{"error": "Authorization header required"}`. -/
theorem postProducts_unauthenticated (jwtParse : String → ParsedToken)
    (authorization : Option String) (bound : Except String CreateProductRequest)
    (st : Store)
    (hno : GetHeader authorization = "" ∨
      String.mk (removeFirst "Bearer ".toList (GetHeader authorization).toList) = "" ∨
      ∀ id, jwtParse (String.mk
        (removeFirst "Bearer ".toList (GetHeader authorization).toList)) ≠ .userID id) :
    (∃ error, postProducts jwtParse authorization bound st = .ok (st, 401, .error error)) ∧
    (GetHeader authorization = "" →
      postProducts jwtParse authorization bound st =
        .ok (st, 401, .error "Authorization header required")) := by
  have hmissing : GetHeader authorization = "" →
      AuthMiddleware jwtParse st.toDB authorization =
        .abort 401 "Authorization header required" := by
    intro h
    simp only [AuthMiddleware, h, if_true]
  have habort : ∃ error, AuthMiddleware jwtParse st.toDB authorization = .abort 401 error := by
    by_cases h1 : GetHeader authorization = ""
    · exact ⟨_, hmissing h1⟩
    · by_cases h2 : String.mk
          (removeFirst "Bearer ".toList (GetHeader authorization).toList) = ""
      · exact ⟨"Token required", by simp only [AuthMiddleware, h1, h2, if_true, if_false]⟩
      · rcases hno with h | h | h
        · exact absurd h h1
        · exact absurd h h2
        · simp only [AuthMiddleware, h1, h2, if_false]
          cases hp : jwtParse (String.mk
              (removeFirst "Bearer ".toList (GetHeader authorization).toList)) with
          | invalid => exact ⟨_, rfl⟩
          | badClaims => exact ⟨_, rfl⟩
          | noUserID => exact ⟨_, rfl⟩
          | userID id => exact absurd hp (h id)
  obtain ⟨error, herr⟩ := habort
  exact ⟨⟨error, postProducts_aborted jwtParse authorization bound st 401 error herr⟩,
    fun h => postProducts_aborted jwtParse authorization bound st 401 _ (hmissing h)⟩

end routes

namespace routes
open models handlers middleware

/-- C21, on the request of `TestProductCreation`, which has no `Authorization` header,
sent to the route as `SetupRoutes` mounts it. -/
theorem postProducts_unauthenticated_witness :
    GetHeader none = "" ∧
    (∃ error, postProducts sampleJwtParse none (.ok sampleProductRequest) sampleStore =
      .ok (sampleStore, 401, .error error)) ∧
    (GetHeader none = "" →
      postProducts sampleJwtParse none (.ok sampleProductRequest) sampleStore =
        .ok (sampleStore, 401, .error "Authorization header required")) :=
  ⟨rfl, postProducts_unauthenticated sampleJwtParse none (.ok sampleProductRequest)
    sampleStore (Or.inl rfl)⟩

end routes

namespace handlers
open models

/-- Every id of a list is at most the maximum the database computes over it. -/
theorem le_foldl_max (ids : List Nat) (a : Nat) :
    a ≤ ids.foldl max a ∧ ∀ x ∈ ids, x ≤ ids.foldl max a := by
  induction ids generalizing a with
  | nil => exact ⟨Nat.le_refl a, fun x hx => by cases hx⟩
  | cons i rest ih =>
    obtain ⟨h1, h2⟩ := ih (max a i)
    simp only [List.foldl_cons]
    refine ⟨Nat.le_trans (Nat.le_max_left a i) h1, ?_⟩
    intro x hx
    rcases List.mem_cons.mp hx with rfl | hx
    · exact Nat.le_trans (Nat.le_max_right a x) h1
    · exact h2 x hx

/-- C22 (successful registration, amended).  For every registration request whose email
is not empty, passes the `email` rule and is the email of no stored user, whose
password has at least six characters and whose first and last names are not empty, when
the database works, password hashing and token generation succeed, no cart row already
carries the new user's id and the confirmation email is sent: `Register` answers with
status 201 and a body with the keys `message` and `user_id`, the latter the new user's
id; the database then holds what it held, one more user, with the request's email and
names, the hashed password, the generated token and `IsEmailConfirmed = false`, and one
more cart, which belongs to that user. -/
theorem Register_succeeds (isEmail : String → Bool)
    (generateFromPassword : String → Except String String)
    (generateToken : Except String String)
    (sendEmailConfirmation : String → String → Except String Unit)
    (st : Store) (req : RegisterRequest) (hashed token : String)
    (hemail : req.Email ≠ "") (hwell : isEmail req.Email = true)
    (hpass : 6 ≤ req.Password.length) (hfirst : req.FirstName ≠ "")
    (hlast : req.LastName ≠ "") (hworks : st.broken = false)
    (hnew : ∀ u ∈ st.users, u.Email ≠ req.Email)
    (hhash : generateFromPassword req.Password = .ok hashed)
    (htoken : generateToken = .ok token)
    (hcart : ∀ c ∈ st.carts, c.UserID ≠ nextID (st.users.map (fun u => u.ID)))
    (hsend : sendEmailConfirmation req.Email token = .ok ()) :
    ∃ (user : User) (cart : Cart) (st' : Store) (message : String),
      Register isEmail generateFromPassword generateToken sendEmailConfirmation st (.ok req) =
        (st', 201, .registered message user.ID) ∧
      (RegisterBody.registered message user.ID).keys = ["message", "user_id"] ∧
      st'.users = st.users ++ [user] ∧ st'.carts = st.carts ++ [cart] ∧
      st'.products = st.products ∧ st'.messages = st.messages ∧
      user.Email = req.Email ∧ user.Password = hashed ∧
      user.FirstName = req.FirstName ∧ user.LastName = req.LastName ∧
      user.EmailConfirmToken = token ∧ user.IsEmailConfirmed = false ∧
      user.Deleted = false ∧ cart.UserID = user.ID ∧
      (∀ u ∈ st.users, u.ID ≠ user.ID) := by
  have hpw : req.Password ≠ "" := by
    intro h
    rw [h] at hpass
    exact absurd hpass (by decide)
  have hbind : bindRegister isEmail (.ok req) = .ok req := by
    simp [bindRegister, hemail, hwell, hpw, hfirst, hlast, Nat.not_lt.mpr hpass]
  have hany : st.users.any (fun u => decide (u.Email = req.Email)) = false := by
    rw [List.any_eq_false]
    intro u hu
    simpa using hnew u hu
  have hanyc : st.carts.any
      (fun c => decide (c.UserID = nextID (st.users.map (fun u => u.ID)))) = false := by
    rw [List.any_eq_false]
    intro c hc
    simpa using hcart c hc
  have hfresh : ∀ u ∈ st.users, u.ID ≠ nextID (st.users.map (fun u => u.ID)) := by
    intro u hu
    have hle := (le_foldl_max (st.users.map (fun u => u.ID)) 0).2 u.ID
      (List.mem_map_of_mem (fun u => u.ID) hu)
    unfold nextID
    omega
  refine ⟨⟨nextID (st.users.map (fun u => u.ID)), req.Email, hashed, req.FirstName,
      req.LastName, false, token, "", false⟩,
    ⟨nextID (st.carts.map (fun c => c.ID)), nextID (st.users.map (fun u => u.ID)), false⟩,
    { st with
      users := st.users ++ [⟨nextID (st.users.map (fun u => u.ID)), req.Email, hashed,
        req.FirstName, req.LastName, false, token, "", false⟩],
      carts := st.carts ++ [⟨nextID (st.carts.map (fun c => c.ID)),
        nextID (st.users.map (fun u => u.ID)), false⟩] },
    "User registered successfully. Please check your email to confirm your account.",
    ?_, rfl, rfl, rfl, rfl, rfl, rfl, rfl, rfl, rfl, rfl, rfl, rfl, rfl, hfresh⟩
  unfold Register
  rw [hbind]
  rcases firstUserByEmail_unknown st.toDB req.Email hnew with h | h <;>
    simp [h, hhash, htoken, createUser, createCart, hworks, hany, hanyc, hsend]

end handlers

namespace handlers
open models

/-- C22 on the request of `TestRegisterEndpoint`, sent to a handler over an empty
database and the mock email service. -/
theorem Register_succeeds_witness :
    sampleRegisterRequest.Email ≠ "" ∧ sampleIsEmail sampleRegisterRequest.Email = true ∧
    6 ≤ sampleRegisterRequest.Password.length ∧
    ∃ (user : User) (cart : Cart) (st' : Store) (message : String),
      Register sampleIsEmail sampleHash MockGenerateToken MockSendEmailConfirmation
          emptyStore (.ok sampleRegisterRequest) =
        (st', 201, .registered message user.ID) ∧
      (RegisterBody.registered message user.ID).keys = ["message", "user_id"] ∧
      st'.users = emptyStore.users ++ [user] ∧ st'.carts = emptyStore.carts ++ [cart] ∧
      st'.products = emptyStore.products ∧ st'.messages = emptyStore.messages ∧
      user.Email = sampleRegisterRequest.Email ∧
      user.Password = "hashed:password123" ∧
      user.FirstName = sampleRegisterRequest.FirstName ∧
      user.LastName = sampleRegisterRequest.LastName ∧
      user.EmailConfirmToken = "mock-token-123456789" ∧ user.IsEmailConfirmed = false ∧
      user.Deleted = false ∧ cart.UserID = user.ID ∧
      (∀ u ∈ emptyStore.users, u.ID ≠ user.ID) :=
  ⟨by decide, by decide, by decide,
    Register_succeeds sampleIsEmail sampleHash MockGenerateToken MockSendEmailConfirmation
      emptyStore sampleRegisterRequest "hashed:password123" "mock-token-123456789"
      (by decide) (by decide) (by decide) (by decide) (by decide) rfl
      (fun _ hu => by cases hu) rfl rfl (fun _ hc => by cases hc) rfl⟩

end handlers

namespace routes
open models handlers middleware

/-- On the same database, user 1 writes to user 2: the row is stored under the id 1 and
the one call `SendPrivateMessage(1, 2, "hi")` is submitted to the hub. -/
theorem postMessages_delivers_example :
    ∃ r : SendMessageResult,
      postMessages sampleJwtParse (some "Bearer good-1") (.ok ⟨2, "hi"⟩) sampleStore = .ok r ∧
      r.status = 201 ∧ r.body = .message ⟨1, 1, 2, "hi", false, false⟩ ∧
      r.store.messages = [⟨1, 1, 2, "hi", false, false⟩] ∧
      r.hub = [services.SendPrivateMessage 1 2 "hi"] :=
  ⟨⟨{ sampleStore with messages := [⟨1, 1, 2, "hi", false, false⟩] }, 201,
      .message ⟨1, 1, 2, "hi", false, false⟩, [services.SendPrivateMessage 1 2 "hi"]⟩,
    rfl, rfl, rfl, rfl, rfl⟩

end routes

namespace handlers
open models

/-- C22 as the claim has it does not hold: the request of `TestRegisterEndpoint` with a
pass phrase of 73 characters, on an empty database and with the mock email service.
The email is valid and not stored, the password has at least six characters, the names
are not empty, and token generation, persistence and the confirmation email would
succeed; but `bcrypt.GenerateFromPassword` refuses the password, so `Register` answers
500 and stores nothing. -/
theorem Register_hash_failure :
    longPasswordRequest.Email ≠ "" ∧ sampleIsEmail longPasswordRequest.Email = true ∧
    6 ≤ longPasswordRequest.Password.length ∧
    longPasswordRequest.Password.utf8ByteSize = 73 ∧
    longPasswordRequest.FirstName ≠ "" ∧ longPasswordRequest.LastName ≠ "" ∧
    emptyStore.users = [] ∧ emptyStore.broken = false ∧
    MockGenerateToken = .ok "mock-token-123456789" ∧
    MockSendEmailConfirmation longPasswordRequest.Email "mock-token-123456789" = .ok () ∧
    Register sampleIsEmail sampleBcrypt MockGenerateToken MockSendEmailConfirmation
        emptyStore (.ok longPasswordRequest) =
      (emptyStore, 500, .error "Failed to hash password") :=
  ⟨by decide, by decide, by decide, by decide, by decide, by decide, rfl, rfl, rfl, rfl,
    by decide⟩

end handlers

namespace services

/-- C23 (failure isolation), evaluated on the code.  User 1 connects; the reader flow
of that connection meets a read error and submits its unregister; user 1 connects
again and user 2 connects.  Bob is then registered with an open, empty queue.  The
writer flow of the first connection, woken by its closed queue, submits its own
unregister: the hub finds the entry of the new connection under id 1, deletes it and
closes the queue of the old client a second time.  The hub goroutine panics with
"close of closed channel", which ends the process: there is no hub state afterwards,
and bob's registry entry and queue are gone with it, although his user id differs. -/
theorem stale_unregister_ends_other_connections :
    lifecycle []
        [.connect (.ok 0) 1 "alice", .hub (.unregister alice),
         .connect (.ok 1) 1 "alice", .connect (.ok 2) 2 "bob",
         .hub (.unregister alice)] = true ∧
    hubOps (readPump sampleUnmarshal alice [.err]).effects = [.unregister alice] ∧
    hubOps (writePump alice [.closed]).effects = [.unregister alice] ∧
    run sampleMarshal NewWebSocketService
        [.connect (.ok 0) 1 "alice", .hub (.unregister alice),
         .connect (.ok 1) 1 "alice", .connect (.ok 2) 2 "bob"] =
      .ok ⟨[(2, ⟨2, 2, "bob", 2, 2⟩), (1, aliceAgain)],
        [{ freshQueue with closed := true }, freshQueue, freshQueue]⟩ ∧
    mapGet [(2, (⟨2, 2, "bob", 2, 2⟩ : Client)), (1, aliceAgain)] 2 =
      some ⟨2, 2, "bob", 2, 2⟩ ∧
    (⟨2, 2, "bob", 2, 2⟩ : Client).UserID ≠ alice.UserID ∧
    hubStep sampleMarshal
        ⟨[(2, ⟨2, 2, "bob", 2, 2⟩), (1, aliceAgain)],
          [{ freshQueue with closed := true }, freshQueue, freshQueue]⟩
        (.unregister alice) = .error .closeOfClosedChannel ∧
    run sampleMarshal NewWebSocketService
        [.connect (.ok 0) 1 "alice", .hub (.unregister alice),
         .connect (.ok 1) 1 "alice", .connect (.ok 2) 2 "bob",
         .hub (.unregister alice)] = .error .closeOfClosedChannel :=
  ⟨by decide, rfl, rfl, rfl, rfl, by decide, rfl, rfl⟩

end services
